import Mathlib

/-!
# MISTY1 block cipher (`misty1.go`): embedding and verification

The Go package is embedded shallowly.

* `uint16`, `uint32` and `byte` values are natural numbers; every Go operation
  that can leave the width (`<<`, `*`, `+`, and the narrowing conversions
  `uint16(..)`, `byte(..)`) carries an explicit `% 2^w`.
* Slices and the `[32]uint16` array are lists of naturals.  An index or slice
  expression that is out of range makes the Go runtime stop with a run-time
  error; here the function returns `Except.error` with a `RuntimeError`.
* A function that writes through a slice argument returns the new contents.
-/

namespace Misty1

/-! ## Substitution tables -/

/-- The table `s7table`. -/
def s7table : List Nat := [
  0x1b, 0x32, 0x33, 0x5a, 0x3b, 0x10, 0x17, 0x54, 0x5b, 0x1a, 0x72, 0x73, 0x6b, 0x2c, 0x66, 0x49,
  0x1f, 0x24, 0x13, 0x6c, 0x37, 0x2e, 0x3f, 0x4a, 0x5d, 0x0f, 0x40, 0x56, 0x25, 0x51, 0x1c, 0x04,
  0x0b, 0x46, 0x20, 0x0d, 0x7b, 0x35, 0x44, 0x42, 0x2b, 0x1e, 0x41, 0x14, 0x4b, 0x79, 0x15, 0x6f,
  0x0e, 0x55, 0x09, 0x36, 0x74, 0x0c, 0x67, 0x53, 0x28, 0x0a, 0x7e, 0x38, 0x02, 0x07, 0x60, 0x29,
  0x19, 0x12, 0x65, 0x2f, 0x30, 0x39, 0x08, 0x68, 0x5f, 0x78, 0x2a, 0x4c, 0x64, 0x45, 0x75, 0x3d,
  0x59, 0x48, 0x03, 0x57, 0x7c, 0x4f, 0x62, 0x3c, 0x1d, 0x21, 0x5e, 0x27, 0x6a, 0x70, 0x4d, 0x3a,
  0x01, 0x6d, 0x6e, 0x63, 0x18, 0x77, 0x23, 0x05, 0x26, 0x76, 0x00, 0x31, 0x2d, 0x7a, 0x7f, 0x61,
  0x50, 0x22, 0x11, 0x06, 0x47, 0x16, 0x52, 0x4e, 0x71, 0x3e, 0x69, 0x43, 0x34, 0x5c, 0x58, 0x7d]

/-- The table `s9table`. -/
def s9table : List Nat := [
  0x1c3, 0x0cb, 0x153, 0x19f, 0x1e3, 0x0e9, 0x0fb, 0x035, 0x181, 0x0b9, 0x117, 0x1eb, 0x133, 0x009, 0x02d, 0x0d3,
  0x0c7, 0x14a, 0x037, 0x07e, 0x0eb, 0x164, 0x193, 0x1d8, 0x0a3, 0x11e, 0x055, 0x02c, 0x01d, 0x1a2, 0x163, 0x118,
  0x14b, 0x152, 0x1d2, 0x00f, 0x02b, 0x030, 0x13a, 0x0e5, 0x111, 0x138, 0x18e, 0x063, 0x0e3, 0x0c8, 0x1f4, 0x01b,
  0x001, 0x09d, 0x0f8, 0x1a0, 0x16d, 0x1f3, 0x01c, 0x146, 0x07d, 0x0d1, 0x082, 0x1ea, 0x183, 0x12d, 0x0f4, 0x19e,
  0x1d3, 0x0dd, 0x1e2, 0x128, 0x1e0, 0x0ec, 0x059, 0x091, 0x011, 0x12f, 0x026, 0x0dc, 0x0b0, 0x18c, 0x10f, 0x1f7,
  0x0e7, 0x16c, 0x0b6, 0x0f9, 0x0d8, 0x151, 0x101, 0x14c, 0x103, 0x0b8, 0x154, 0x12b, 0x1ae, 0x017, 0x071, 0x00c,
  0x047, 0x058, 0x07f, 0x1a4, 0x134, 0x129, 0x084, 0x15d, 0x19d, 0x1b2, 0x1a3, 0x048, 0x07c, 0x051, 0x1ca, 0x023,
  0x13d, 0x1a7, 0x165, 0x03b, 0x042, 0x0da, 0x192, 0x0ce, 0x0c1, 0x06b, 0x09f, 0x1f1, 0x12c, 0x184, 0x0fa, 0x196,
  0x1e1, 0x169, 0x17d, 0x031, 0x180, 0x10a, 0x094, 0x1da, 0x186, 0x13e, 0x11c, 0x060, 0x175, 0x1cf, 0x067, 0x119,
  0x065, 0x068, 0x099, 0x150, 0x008, 0x007, 0x17c, 0x0b7, 0x024, 0x019, 0x0de, 0x127, 0x0db, 0x0e4, 0x1a9, 0x052,
  0x109, 0x090, 0x19c, 0x1c1, 0x028, 0x1b3, 0x135, 0x16a, 0x176, 0x0df, 0x1e5, 0x188, 0x0c5, 0x16e, 0x1de, 0x1b1,
  0x0c3, 0x1df, 0x036, 0x0ee, 0x1ee, 0x0f0, 0x093, 0x049, 0x09a, 0x1b6, 0x069, 0x081, 0x125, 0x00b, 0x05e, 0x0b4,
  0x149, 0x1c7, 0x174, 0x03e, 0x13b, 0x1b7, 0x08e, 0x1c6, 0x0ae, 0x010, 0x095, 0x1ef, 0x04e, 0x0f2, 0x1fd, 0x085,
  0x0fd, 0x0f6, 0x0a0, 0x16f, 0x083, 0x08a, 0x156, 0x09b, 0x13c, 0x107, 0x167, 0x098, 0x1d0, 0x1e9, 0x003, 0x1fe,
  0x0bd, 0x122, 0x089, 0x0d2, 0x18f, 0x012, 0x033, 0x06a, 0x142, 0x0ed, 0x170, 0x11b, 0x0e2, 0x14f, 0x158, 0x131,
  0x147, 0x05d, 0x113, 0x1cd, 0x079, 0x161, 0x1a5, 0x179, 0x09e, 0x1b4, 0x0cc, 0x022, 0x132, 0x01a, 0x0e8, 0x004,
  0x187, 0x1ed, 0x197, 0x039, 0x1bf, 0x1d7, 0x027, 0x18b, 0x0c6, 0x09c, 0x0d0, 0x14e, 0x06c, 0x034, 0x1f2, 0x06e,
  0x0ca, 0x025, 0x0ba, 0x191, 0x0fe, 0x013, 0x106, 0x02f, 0x1ad, 0x172, 0x1db, 0x0c0, 0x10b, 0x1d6, 0x0f5, 0x1ec,
  0x10d, 0x076, 0x114, 0x1ab, 0x075, 0x10c, 0x1e4, 0x159, 0x054, 0x11f, 0x04b, 0x0c4, 0x1be, 0x0f7, 0x029, 0x0a4,
  0x00e, 0x1f0, 0x077, 0x04d, 0x17a, 0x086, 0x08b, 0x0b3, 0x171, 0x0bf, 0x10e, 0x104, 0x097, 0x15b, 0x160, 0x168,
  0x0d7, 0x0bb, 0x066, 0x1ce, 0x0fc, 0x092, 0x1c5, 0x06f, 0x016, 0x04a, 0x0a1, 0x139, 0x0af, 0x0f1, 0x190, 0x00a,
  0x1aa, 0x143, 0x17b, 0x056, 0x18d, 0x166, 0x0d4, 0x1fb, 0x14d, 0x194, 0x19a, 0x087, 0x1f8, 0x123, 0x0a7, 0x1b8,
  0x141, 0x03c, 0x1f9, 0x140, 0x02a, 0x155, 0x11a, 0x1a1, 0x198, 0x0d5, 0x126, 0x1af, 0x061, 0x12e, 0x157, 0x1dc,
  0x072, 0x18a, 0x0aa, 0x096, 0x115, 0x0ef, 0x045, 0x07b, 0x08d, 0x145, 0x053, 0x05f, 0x178, 0x0b2, 0x02e, 0x020,
  0x1d5, 0x03f, 0x1c9, 0x1e7, 0x1ac, 0x044, 0x038, 0x014, 0x0b1, 0x16b, 0x0ab, 0x0b5, 0x05a, 0x182, 0x1c8, 0x1d4,
  0x018, 0x177, 0x064, 0x0cf, 0x06d, 0x100, 0x199, 0x130, 0x15a, 0x005, 0x120, 0x1bb, 0x1bd, 0x0e0, 0x04f, 0x0d6,
  0x13f, 0x1c4, 0x12a, 0x015, 0x006, 0x0ff, 0x19b, 0x0a6, 0x043, 0x088, 0x050, 0x15f, 0x1e8, 0x121, 0x073, 0x17e,
  0x0bc, 0x0c2, 0x0c9, 0x173, 0x189, 0x1f5, 0x074, 0x1cc, 0x1e6, 0x1a8, 0x195, 0x01f, 0x041, 0x00d, 0x1ba, 0x032,
  0x03d, 0x1d1, 0x080, 0x0a8, 0x057, 0x1b9, 0x162, 0x148, 0x0d9, 0x105, 0x062, 0x07a, 0x021, 0x1ff, 0x112, 0x108,
  0x1c0, 0x0a9, 0x11d, 0x1b0, 0x1a6, 0x0cd, 0x0f3, 0x05c, 0x102, 0x05b, 0x1d9, 0x144, 0x1f6, 0x0ad, 0x0a5, 0x03a,
  0x1cb, 0x136, 0x17f, 0x046, 0x0e1, 0x01e, 0x1dd, 0x0e6, 0x137, 0x1fa, 0x185, 0x08c, 0x08f, 0x040, 0x1b5, 0x0be,
  0x078, 0x000, 0x0ac, 0x110, 0x15e, 0x124, 0x002, 0x1bc, 0x0a2, 0x0ea, 0x070, 0x1fc, 0x116, 0x15c, 0x04c, 0x1c2]

/-! ## Data model -/

/-- The struct `misty1cipher`: the field `ek` is the `[32]uint16` array of
subkeys. -/
structure misty1cipher where
  ek : List Nat
  deriving DecidableEq

/-- The type `KeySizeError`, an `int` holding the rejected key length. -/
structure KeySizeError where
  size : Int
  deriving DecidableEq

/-- The run-time errors of the Go runtime that the package can meet. -/
inductive RuntimeError where
  | indexOutOfRange
  | sliceBoundsOutOfRange
  deriving DecidableEq

/-- An index expression `a[i]`: a run-time error when `i` is out of range. -/
def load (a : List Nat) (i : Nat) : Except RuntimeError Nat :=
  match a[i]? with
  | some v => .ok v
  | none => .error .indexOutOfRange

/-- An assignment `a[i] = v`: a run-time error when `i` is out of range. -/
def store (a : List Nat) (i v : Nat) : Except RuntimeError (List Nat) :=
  if i < a.length then .ok (a.set i v) else .error .indexOutOfRange

/-- A slice expression `b[n:]`: a run-time error when `n` exceeds the length. -/
def sliceFrom (b : List Nat) (n : Nat) : Except RuntimeError (List Nat) :=
  if n ≤ b.length then .ok (b.drop n) else .error .sliceBoundsOutOfRange

/-- A counted loop `for i := 0; i < n; i++ { body }` over a state. -/
def forLoop {σ : Type} (n : Nat) (body : Nat → σ → Except RuntimeError σ) (s : σ) :
    Except RuntimeError σ :=
  (List.range n).foldlM (fun acc i => body i acc) s

/-! ## The functions of `misty1.go` -/

/-- The function `fi(fin, fkey uint16) uint16`. -/
def fi (fin fkey : Nat) : Except RuntimeError Nat := do
  let d9 := fin >>> 7
  let d7 := fin &&& 0x7f
  let d9 := (← load s9table d9) ^^^ d7
  let d7 := (← load s7table d7) ^^^ d9
  let d7 := d7 &&& 0x7f
  let d7 := d7 ^^^ (fkey >>> 9)
  let d9 := d9 ^^^ (fkey &&& 0x1ff)
  let d9 := (← load s9table d9) ^^^ d7
  let fout := ((d7 <<< 9) % 65536) ||| d9
  return fout

/-- The function `New(key []byte) (cipher.Block, error)`: the result is the
pair of the two Go results, `none` standing for `nil`. -/
def New (key : List Nat) :
    Except RuntimeError (Option misty1cipher × Option KeySizeError) :=
  if key.length ≠ 16 then
    .ok (none, some ⟨(key.length : Int)⟩)
  else do
    let ek := List.replicate 32 0
    let ek ← forLoop 8 (fun i ek => do
      store ek i (((← load key (i * 2)) * 256 + (← load key (i * 2 + 1))) % 65536)) ek
    let ek ← forLoop 8 (fun i ek => do
      let ek ← store ek (i + 8) (← fi (← load ek i) (← load ek ((i + 1) % 8)))
      let ek ← store ek (i + 16) ((← load ek (i + 8)) &&& 0x1ff)
      let ek ← store ek (i + 24) ((← load ek (i + 8)) >>> 9)
      return ek) ek
    return (some ⟨ek⟩, none)

/-- The method `BlockSize`. -/
def BlockSize (_m : misty1cipher) : Nat := 8

/-- The method `fo(fin uint32, k int) uint32`. -/
def fo (m : misty1cipher) (fin k : Nat) : Except RuntimeError Nat := do
  let t0 := (fin >>> 16) % 65536
  let t1 := (fin &&& 0xffff) % 65536
  let t0 := t0 ^^^ (← load m.ek k)
  let t0 ← fi t0 (← load m.ek ((k + 5) % 8 + 8))
  let t0 := t0 ^^^ t1
  let t1 := t1 ^^^ (← load m.ek ((k + 2) % 8))
  let t1 ← fi t1 (← load m.ek ((k + 1) % 8 + 8))
  let t1 := t1 ^^^ t0
  let t0 := t0 ^^^ (← load m.ek ((k + 7) % 8))
  let t0 ← fi t0 (← load m.ek ((k + 3) % 8 + 8))
  let t0 := t0 ^^^ t1
  let t1 := t1 ^^^ (← load m.ek ((k + 4) % 8))
  let fout := ((t1 <<< 16) % 4294967296) ||| t0
  return fout

/-- The method `fl(fin uint32, k int) uint32`. -/
def fl (m : misty1cipher) (fin k : Nat) : Except RuntimeError Nat := do
  let d0 := (fin >>> 16) % 65536
  let d1 := (fin &&& 0xffff) % 65536
  if k &&& 1 = 0 then
    let d1 := d1 ^^^ (d0 &&& (← load m.ek (k / 2)))
    let d0 := d0 ^^^ (d1 ||| (← load m.ek ((k / 2 + 6) % 8 + 8)))
    let fout := ((d0 <<< 16) % 4294967296) ||| d1
    return fout
  else
    let d1 := d1 ^^^ (d0 &&& (← load m.ek (((k - 1) / 2 + 2) % 8 + 8)))
    let d0 := d0 ^^^ (d1 ||| (← load m.ek (((k - 1) / 2 + 4) % 8)))
    let fout := ((d0 <<< 16) % 4294967296) ||| d1
    return fout

/-- The method `flinv(fin uint32, k int) uint32`. -/
def flinv (m : misty1cipher) (fin k : Nat) : Except RuntimeError Nat := do
  let d0 := (fin >>> 16) % 65536
  let d1 := (fin &&& 0xffff) % 65536
  if k &&& 1 = 0 then
    let d0 := d0 ^^^ (d1 ||| (← load m.ek ((k / 2 + 6) % 8 + 8)))
    let d1 := d1 ^^^ (d0 &&& (← load m.ek (k / 2)))
    let fout := ((d0 <<< 16) % 4294967296) ||| d1
    return fout
  else
    let d0 := d0 ^^^ (d1 ||| (← load m.ek (((k - 1) / 2 + 4) % 8)))
    let d1 := d1 ^^^ (d0 &&& (← load m.ek (((k - 1) / 2 + 2) % 8 + 8)))
    let fout := ((d0 <<< 16) % 4294967296) ||| d1
    return fout

/-- The function `getUint32(b []byte) uint32`. -/
def getUint32 (b : List Nat) : Except RuntimeError Nat := do
  let b3 ← load b 3
  let b2 ← load b 2
  let b1 ← load b 1
  let b0 ← load b 0
  return b3 ||| ((b2 <<< 8) % 4294967296) ||| ((b1 <<< 16) % 4294967296)
    ||| ((b0 <<< 24) % 4294967296)

/-- The function `putUint32(b []byte, v uint32)`, returning the new contents
of `b`. -/
def putUint32 (b : List Nat) (v : Nat) : Except RuntimeError (List Nat) := do
  let b ← store b 0 ((v >>> 24) % 256)
  let b ← store b 1 ((v >>> 16) % 256)
  let b ← store b 2 ((v >>> 8) % 256)
  let b ← store b 3 (v % 256)
  return b

/-- The method `Encrypt(dst, src []byte)`, returning the new contents of
`dst`.  A write through the slice `dst[4:]` lands in `dst` from offset 4. -/
def Encrypt (m : misty1cipher) (dst src : List Nat) : Except RuntimeError (List Nat) := do
  let d0 ← getUint32 src
  let d1 ← getUint32 (← sliceFrom src 4)
  -- 0 round
  let d0 ← fl m d0 0
  let d1 ← fl m d1 1
  let d1 := d1 ^^^ (← fo m d0 0)
  -- 1 round
  let d0 := d0 ^^^ (← fo m d1 1)
  -- 2 round
  let d0 ← fl m d0 2
  let d1 ← fl m d1 3
  let d1 := d1 ^^^ (← fo m d0 2)
  -- 3 round
  let d0 := d0 ^^^ (← fo m d1 3)
  -- 4 round
  let d0 ← fl m d0 4
  let d1 ← fl m d1 5
  let d1 := d1 ^^^ (← fo m d0 4)
  -- 5 round
  let d0 := d0 ^^^ (← fo m d1 5)
  -- 6 round
  let d0 ← fl m d0 6
  let d1 ← fl m d1 7
  let d1 := d1 ^^^ (← fo m d0 6)
  -- 7 round
  let d0 := d0 ^^^ (← fo m d1 7)
  -- final
  let d0 ← fl m d0 8
  let d1 ← fl m d1 9
  let dst ← putUint32 dst d1
  let hi ← putUint32 (← sliceFrom dst 4) d0
  return dst.take 4 ++ hi

/-- The method `Decrypt(dst, src []byte)`, returning the new contents of
`dst`. -/
def Decrypt (m : misty1cipher) (dst src : List Nat) : Except RuntimeError (List Nat) := do
  let d1 ← getUint32 src
  let d0 ← getUint32 (← sliceFrom src 4)
  let d0 ← flinv m d0 8
  let d1 ← flinv m d1 9
  let d0 := d0 ^^^ (← fo m d1 7)
  let d1 := d1 ^^^ (← fo m d0 6)
  let d0 ← flinv m d0 6
  let d1 ← flinv m d1 7
  let d0 := d0 ^^^ (← fo m d1 5)
  let d1 := d1 ^^^ (← fo m d0 4)
  let d0 ← flinv m d0 4
  let d1 ← flinv m d1 5
  let d0 := d0 ^^^ (← fo m d1 3)
  let d1 := d1 ^^^ (← fo m d0 2)
  let d0 ← flinv m d0 2
  let d1 ← flinv m d1 3
  let d0 := d0 ^^^ (← fo m d1 1)
  let d1 := d1 ^^^ (← fo m d0 0)
  let d0 ← flinv m d0 0
  let d1 ← flinv m d1 1
  let dst ← putUint32 dst d0
  let hi ← putUint32 (← sliceFrom dst 4) d1
  return dst.take 4 ++ hi


/-! ## A linear check for repeated entries -/

/-- The list `l` has no repeated entry and no entry whose bit is set in the
mask `acc`; the mask collects the entries met so far. -/
def distinctFrom (acc : Nat) : List Nat → Bool
  | [] => true
  | v :: l => !acc.testBit v && distinctFrom (acc ||| 2 ^ v) l

/-! ## The `Encrypt` sequence as the specification words it

The specification lists eighteen steps on the two halves `d0`, `d1` of the
block: `FL(d0,0); FL(d1,1); d1^=FO(d0,0); d0^=FO(d1,1); ...; FL(d0,8); FL(d1,9)`. -/

/-- A step of the specification's sequence. -/
inductive SpecStep where
  /-- The step `FL(d0,k)`: `d0` becomes `FL(d0,k)`. -/
  | flD0 (k : Nat)
  /-- The step `FL(d1,k)`: `d1` becomes `FL(d1,k)`. -/
  | flD1 (k : Nat)
  /-- The step `d1 ^= FO(d0,k)`. -/
  | foIntoD1 (k : Nat)
  /-- The step `d0 ^= FO(d1,k)`. -/
  | foIntoD0 (k : Nat)
  deriving DecidableEq

/-- The effect of one step of the specification on the pair `(d0, d1)`. -/
def applyStep (m : misty1cipher) (s : SpecStep) (d : Nat × Nat) :
    Except RuntimeError (Nat × Nat) :=
  match s with
  | .flD0 k => (fl m d.1 k).map (fun x => (x, d.2))
  | .flD1 k => (fl m d.2 k).map (fun x => (d.1, x))
  | .foIntoD1 k => (fo m d.1 k).map (fun y => (d.1, d.2 ^^^ y))
  | .foIntoD0 k => (fo m d.2 k).map (fun y => (d.1 ^^^ y, d.2))

/-- The sequence of steps in the specification's words. -/
def specSequence : List SpecStep :=
  [.flD0 0, .flD1 1, .foIntoD1 0, .foIntoD0 1,
   .flD0 2, .flD1 3, .foIntoD1 2, .foIntoD0 3,
   .flD0 4, .flD1 5, .foIntoD1 4, .foIntoD0 5,
   .flD0 6, .flD1 7, .foIntoD1 6, .foIntoD0 7,
   .flD0 8, .flD1 9]

/-- The big-endian 32-bit value of four bytes. -/
def bigEndian32 (b0 b1 b2 b3 : Nat) : Nat :=
  b0 * 2 ^ 24 + b1 * 2 ^ 16 + b2 * 2 ^ 8 + b3

/-- The four bytes of a 32-bit value, most significant first. -/
def bigEndianBytes (v : Nat) : List Nat :=
  [v / 2 ^ 24 % 256, v / 2 ^ 16 % 256, v / 2 ^ 8 % 256, v % 256]

/-- The bytes that the specification says `Encrypt` writes for the source
bytes `b0 .. b7`: the halves are read big-endian, the sequence is run, and the
final `d1` is written before the final `d0`. -/
def EncryptSpec (m : misty1cipher) (b0 b1 b2 b3 b4 b5 b6 b7 : Nat) :
    Except RuntimeError (List Nat) :=
  (specSequence.foldlM (fun d s => applyStep m s d)
      (bigEndian32 b0 b1 b2 b3, bigEndian32 b4 b5 b6 b7)).map
    (fun d => bigEndianBytes d.2 ++ bigEndianBytes d.1)

/-! ## Evaluation aids

The definitions below are not part of `misty1.go`.  They compute the same
values as the functions above on numbers only: a table or a subkey array is
held as one number, entry `i` at the bits `w*i .. w*i + w - 1`.  They are
proved equal to the functions above and serve to evaluate them on concrete
keys. -/

/-- The entries of `l`, `w` bits each, as one number. -/
def packBits (w : Nat) (l : List Nat) : Nat :=
  l.foldr (fun v acc => v + 2 ^ w * acc) 0

/-- Entry `i` of a number made by `packBits w`. -/
def unpackBits (w p i : Nat) : Nat :=
  (p >>> (w * i)) % 2 ^ w

/-- The table `s7table` as one number. -/
@[irreducible]
def s7packed : Nat := packBits 9 s7table

/-- The table `s9table` as one number. -/
@[irreducible]
def s9packed : Nat := packBits 9 s9table

/-- The value of `fi` on numbers. -/
def fiFast (fin fkey : Nat) : Nat :=
  let d9 := unpackBits 9 s9packed (fin >>> 7) ^^^ (fin &&& 0x7f)
  let d7 := ((unpackBits 9 s7packed (fin &&& 0x7f) ^^^ d9) &&& 0x7f) ^^^ (fkey >>> 9)
  ((d7 <<< 9) % 65536) ||| (unpackBits 9 s9packed (d9 ^^^ (fkey &&& 0x1ff)) ^^^ d7)

/-- The subkey array that `New` builds from a 16-byte key. -/
def ekFast (key : List Nat) : List Nat :=
  let w := (List.range 8).map
    (fun i => (key.getD (i * 2) 0 * 256 + key.getD (i * 2 + 1) 0) % 65536)
  let v := (List.range 8).map (fun i => fiFast (w.getD i 0) (w.getD ((i + 1) % 8) 0))
  w ++ v ++ v.map (fun x => x &&& 0x1ff) ++ v.map (fun x => x >>> 9)

/-- The value of `fo` on numbers, the subkeys held as one number `p`. -/
def foFast (p fin k : Nat) : Nat :=
  let t0 := (fin >>> 16) % 65536
  let t1 := (fin &&& 0xffff) % 65536
  let t0 := fiFast (t0 ^^^ unpackBits 16 p k) (unpackBits 16 p ((k + 5) % 8 + 8)) ^^^ t1
  let t1 := fiFast (t1 ^^^ unpackBits 16 p ((k + 2) % 8)) (unpackBits 16 p ((k + 1) % 8 + 8))
    ^^^ t0
  let t0 := fiFast (t0 ^^^ unpackBits 16 p ((k + 7) % 8)) (unpackBits 16 p ((k + 3) % 8 + 8))
    ^^^ t1
  let t1 := t1 ^^^ unpackBits 16 p ((k + 4) % 8)
  ((t1 <<< 16) % 4294967296) ||| t0

/-- The value of `fl` on numbers, the subkeys held as one number `p`. -/
def flFast (p fin k : Nat) : Nat :=
  let d0 := (fin >>> 16) % 65536
  let d1 := (fin &&& 0xffff) % 65536
  if k &&& 1 = 0 then
    let d1 := d1 ^^^ (d0 &&& unpackBits 16 p (k / 2))
    let d0 := d0 ^^^ (d1 ||| unpackBits 16 p ((k / 2 + 6) % 8 + 8))
    ((d0 <<< 16) % 4294967296) ||| d1
  else
    let d1 := d1 ^^^ (d0 &&& unpackBits 16 p (((k - 1) / 2 + 2) % 8 + 8))
    let d0 := d0 ^^^ (d1 ||| unpackBits 16 p (((k - 1) / 2 + 4) % 8))
    ((d0 <<< 16) % 4294967296) ||| d1

/-- One pair of rounds of `Encrypt` on numbers: `FL`, `FL`, `FO`, `FO` with
the indices `k`, `k+1`. -/
def roundPairFast (p k : Nat) (d : Nat × Nat) : Nat × Nat :=
  let d0 := flFast p d.1 k
  let d1 := flFast p d.2 (k + 1)
  let d1 := d1 ^^^ foFast p d0 k
  let d0 := d0 ^^^ foFast p d1 (k + 1)
  (d0, d1)

/-- The two final halves `(d0, d1)` of `Encrypt` on numbers. -/
def encryptFast (p d0 d1 : Nat) : Nat × Nat :=
  let d := roundPairFast p 6 (roundPairFast p 4 (roundPairFast p 2 (roundPairFast p 0 (d0, d1))))
  (flFast p d.1 8, flFast p d.2 9)

/-! ## Bit flips and bit distance, for the avalanche property -/

/-- The key with bit `j % 8` of byte `j / 8` flipped. -/
def flipKeyBit (key : List Nat) (j : Nat) : List Nat :=
  key.set (j / 8) (key.getD (j / 8) 0 ^^^ (1 <<< (j % 8)))

/-- The number of one bits among the low eight bits of `n`. -/
def popCount8 (n : Nat) : Nat :=
  ((List.range 8).map (fun i => (n >>> i) % 2)).sum

/-- The number of bit positions in which two byte sequences differ. -/
def bitDistance (a b : List Nat) : Nat :=
  (List.zipWith (fun x y => popCount8 (x ^^^ y)) a b).sum

/-- The bytes that `Encrypt` writes for the source bytes `b0 .. b7` under the
instance that `New` builds from `key`, computed on numbers. -/
def encryptBytesFast (key : List Nat) (b0 b1 b2 b3 b4 b5 b6 b7 : Nat) : List Nat :=
  let r := encryptFast (packBits 16 (ekFast key))
    (b3 ||| ((b2 <<< 8) % 4294967296) ||| ((b1 <<< 16) % 4294967296)
      ||| ((b0 <<< 24) % 4294967296))
    (b7 ||| ((b6 <<< 8) % 4294967296) ||| ((b5 <<< 16) % 4294967296)
      ||| ((b4 <<< 24) % 4294967296))
  bigEndianBytes r.2 ++ bigEndianBytes r.1

/-! ## `fi` and `fo` as the specification words them -/

/-- The two fields `(d7, d9)` at the end of the specification's FI: the input
is split into its high 9 bits `d9` and low 7 bits `d7`; `d9 = Table9[d9] XOR
d7`; `d7 = Table7[d7] XOR d9`, masked to 7 bits; bits 9..15 of the subkey are
XORed into `d7` and bits 0..8 into `d9`; `d9 = Table9[d9] XOR d7`. -/
def fiSpecFields (fin fkey : Nat) : Nat × Nat :=
  let d9 := fin / 2 ^ 7
  let d7 := fin % 2 ^ 7
  let d9 := s9table.getD d9 0 ^^^ d7
  let d7 := (s7table.getD d7 0 ^^^ d9) % 2 ^ 7
  let d7 := d7 ^^^ fkey / 2 ^ 9
  let d9 := d9 ^^^ fkey % 2 ^ 9
  let d9 := s9table.getD d9 0 ^^^ d7
  (d7, d9)

/-- The output `(d7 shifted left 9) OR d9` of the specification's FI. -/
def fiSpec (fin fkey : Nat) : Nat :=
  ((fiSpecFields fin fkey).1 <<< 9) ||| (fiSpecFields fin fkey).2

/-- The specification's FO on the subkeys `EK`: `t0` is the high and `t1` the
low 16 bits of the input, then
`t0 ^= EK[k]; t0 = FI(t0, EK[(k+5)%8+8]); t0 ^= t1;`
`t1 ^= EK[(k+2)%8]; t1 = FI(t1, EK[(k+1)%8+8]); t1 ^= t0;`
`t0 ^= EK[(k+7)%8]; t0 = FI(t0, EK[(k+3)%8+8]); t0 ^= t1;`
`t1 ^= EK[(k+4)%8]`, and the output is `(t1 << 16) | t0`. -/
def foSpec (EK : Nat → Nat) (fin k : Nat) : Nat :=
  let t0 := fin / 2 ^ 16
  let t1 := fin % 2 ^ 16
  let t0 := t0 ^^^ EK k
  let t0 := fiSpec t0 (EK ((k + 5) % 8 + 8))
  let t0 := t0 ^^^ t1
  let t1 := t1 ^^^ EK ((k + 2) % 8)
  let t1 := fiSpec t1 (EK ((k + 1) % 8 + 8))
  let t1 := t1 ^^^ t0
  let t0 := t0 ^^^ EK ((k + 7) % 8)
  let t0 := fiSpec t0 (EK ((k + 3) % 8 + 8))
  let t0 := t0 ^^^ t1
  let t1 := t1 ^^^ EK ((k + 4) % 8)
  (t1 <<< 16) ||| t0

/-! ## Further wordings of the specification -/

/-- The bytes written when the sequence `seq` of steps is run on the halves
read big-endian from the source bytes `b0 .. b7` and the final `d1` is written
before the final `d0`. -/
def sequenceBytes (seq : List SpecStep) (m : misty1cipher) (b0 b1 b2 b3 b4 b5 b6 b7 : Nat) :
    Except RuntimeError (List Nat) :=
  (seq.foldlM (fun d s => applyStep m s d)
      (bigEndian32 b0 b1 b2 b3, bigEndian32 b4 b5 b6 b7)).map
    (fun d => bigEndianBytes d.2 ++ bigEndianBytes d.1)

/-- The sequence that, after `d1 ^= FO(d0,6)`, applies no `d0 ^= FO(d1,7)` step
and goes directly to `FL(d0,8); FL(d1,9)`. -/
def skippingSequence : List SpecStep :=
  [.flD0 0, .flD1 1, .foIntoD1 0, .foIntoD0 1,
   .flD0 2, .flD1 3, .foIntoD1 2, .foIntoD0 3,
   .flD0 4, .flD1 5, .foIntoD1 4, .foIntoD0 5,
   .flD0 6, .flD1 7, .foIntoD1 6,
   .flD0 8, .flD1 9]

/-- The index expression `(k/2+6)%8+8` of the subkey that `fl` and `flinv` OR
with `d1` when `k` is even. -/
def flOrIndex (k : Nat) : Nat :=
  (k / 2 + 6) % 8 + 8

deriving instance DecidableEq for Except

set_option maxRecDepth 100000

/-! ## Bit-level arithmetic -/

theorem and_ffff (x : Nat) : x &&& 0xffff = x % 65536 :=
  Nat.and_pow_two_sub_one_eq_mod x 16

theorem and_1ff (x : Nat) : x &&& 0x1ff = x % 512 :=
  Nat.and_pow_two_sub_one_eq_mod x 9

theorem and_7f (x : Nat) : x &&& 0x7f = x % 128 :=
  Nat.and_pow_two_sub_one_eq_mod x 7

theorem shl_or_eq_add (a b i : Nat) (h : b < 2 ^ i) : (a <<< i) ||| b = a * 2 ^ i + b := by
  rw [Nat.shiftLeft_eq, Nat.mul_comm, Nat.mul_add_lt_is_or h]

theorem xor_lt16 {a b : Nat} (ha : a < 65536) (hb : b < 65536) : a ^^^ b < 65536 :=
  Nat.xor_lt_two_pow (n := 16) ha hb

theorem xor_lt32 {a b : Nat} (ha : a < 4294967296) (hb : b < 4294967296) :
    a ^^^ b < 4294967296 :=
  Nat.xor_lt_two_pow (n := 32) ha hb

/-- The value `uint32(hi)<<16 | uint32(lo)` of two 16-bit halves. -/
theorem pack16_eq {hi lo : Nat} (hhi : hi < 65536) (hlo : lo < 65536) :
    ((hi <<< 16) % 4294967296) ||| lo = hi * 65536 + lo := by
  have h1 : hi <<< 16 = hi * 65536 := Nat.shiftLeft_eq hi 16
  have h2 : (hi <<< 16) ||| lo = hi * 65536 + lo := shl_or_eq_add hi lo 16 hlo
  rw [Nat.mod_eq_of_lt (by omega), h2]

theorem pack16_lt {hi lo : Nat} (hhi : hi < 65536) (hlo : lo < 65536) :
    ((hi <<< 16) % 4294967296) ||| lo < 4294967296 := by
  rw [pack16_eq hhi hlo]; omega

theorem pack16_hi {hi lo : Nat} (hhi : hi < 65536) (hlo : lo < 65536) :
    ((((hi <<< 16) % 4294967296) ||| lo) >>> 16) % 65536 = hi := by
  rw [pack16_eq hhi hlo, Nat.shiftRight_eq_div_pow]; omega

theorem pack16_lo {hi lo : Nat} (hhi : hi < 65536) (hlo : lo < 65536) :
    ((((hi <<< 16) % 4294967296) ||| lo) &&& 0xffff) % 65536 = lo := by
  rw [pack16_eq hhi hlo, and_ffff]; omega

theorem split16 {x : Nat} (hx : x < 4294967296) :
    ((((x >>> 16) % 65536) <<< 16) % 4294967296) ||| ((x &&& 0xffff) % 65536) = x := by
  rw [pack16_eq (Nat.mod_lt _ (by decide)) (Nat.mod_lt _ (by decide)), and_ffff,
    Nat.shiftRight_eq_div_pow]
  omega

/-! ## Facts about the tables -/

theorem distinctFrom_sound (l : List Nat) :
    ∀ acc, distinctFrom acc l = true → l.Nodup ∧ ∀ x ∈ l, acc.testBit x = false := by
  induction l with
  | nil => intro acc _; simp
  | cons v l ih =>
    intro acc h
    simp only [distinctFrom, Bool.and_eq_true, Bool.not_eq_true'] at h
    obtain ⟨hv, hl⟩ := h
    obtain ⟨hnd, hfresh⟩ := ih _ hl
    have hmono : ∀ x, (acc ||| 2 ^ v).testBit x = false → acc.testBit x = false := by
      intro x hx
      rw [Nat.testBit_or] at hx
      simp only [Bool.or_eq_false_iff] at hx
      exact hx.1
    refine ⟨List.nodup_cons.mpr ⟨?_, hnd⟩, ?_⟩
    · intro hmem
      have := hfresh v hmem
      rw [Nat.testBit_or, Nat.testBit_two_pow_self] at this
      simp at this
    · intro x hx
      rcases List.mem_cons.mp hx with rfl | hx
      · exact hv
      · exact hmono x (hfresh x hx)

theorem s7table_length : s7table.length = 128 := by decide!

theorem s9table_length : s9table.length = 512 := by decide!

theorem s7table_lt : ∀ x ∈ s7table, x < 128 := by decide!

theorem s9table_lt : ∀ x ∈ s9table, x < 512 := by decide!

theorem s7table_nodup : s7table.Nodup :=
  (distinctFrom_sound s7table 0 (by decide!)).1

theorem s9table_nodup : s9table.Nodup :=
  (distinctFrom_sound s9table 0 (by decide!)).1


/-! ## Run-time checks that succeed -/

theorem ok_bind {α β : Type} (a : α) (f : α → Except RuntimeError β) :
    (Except.ok a >>= f) = f a := rfl

theorem pure_eq_ok {α : Type} (a : α) : (pure a : Except RuntimeError α) = Except.ok a := rfl

theorem load_ok {a : List Nat} {i : Nat} (h : i < a.length) :
    load a i = .ok (a.getD i 0) := by
  simp [load, List.getElem?_eq_getElem h]

theorem load_eq_ok_iff {a : List Nat} {i v : Nat} :
    load a i = .ok v ↔ a[i]? = some v := by
  unfold load
  cases h : a[i]? <;> simp

theorem getD_mem {a : List Nat} {i : Nat} (h : i < a.length) : a.getD i 0 ∈ a := by
  rw [List.getD_eq_getElem a 0 h]
  exact List.getElem_mem h

theorem getD_inj_of_nodup {l : List Nat} (hl : l.Nodup) {i j : Nat}
    (hi : i < l.length) (hj : j < l.length) (e : l.getD i 0 = l.getD j 0) : i = j := by
  rw [List.getD_eq_getElem l 0 hi, List.getD_eq_getElem l 0 hj] at e
  exact (hl.getElem_inj_iff).mp e

theorem s7_lt {i : Nat} (h : i < 128) : s7table.getD i 0 < 128 :=
  s7table_lt _ (getD_mem (by rw [s7table_length]; exact h))

theorem s9_lt {i : Nat} (h : i < 512) : s9table.getD i 0 < 512 :=
  s9table_lt _ (getD_mem (by rw [s9table_length]; exact h))

theorem s7_inj {i j : Nat} (hi : i < 128) (hj : j < 128)
    (e : s7table.getD i 0 = s7table.getD j 0) : i = j :=
  getD_inj_of_nodup s7table_nodup (by rw [s7table_length]; exact hi)
    (by rw [s7table_length]; exact hj) e

theorem s9_inj {i j : Nat} (hi : i < 512) (hj : j < 512)
    (e : s9table.getD i 0 = s9table.getD j 0) : i = j :=
  getD_inj_of_nodup s9table_nodup (by rw [s9table_length]; exact hi)
    (by rw [s9table_length]; exact hj) e

theorem xor_lt9 {a b : Nat} (ha : a < 512) (hb : b < 512) : a ^^^ b < 512 :=
  Nat.xor_lt_two_pow (n := 9) ha hb

theorem xor_lt7 {a b : Nat} (ha : a < 128) (hb : b < 128) : a ^^^ b < 128 :=
  Nat.xor_lt_two_pow (n := 7) ha hb

/-! ## The function `fi` -/

/-- The first-stage value `d9 = s9table[fin>>7] ^ (fin & 0x7f)` of `fi`. -/
theorem fi_stage1_lt {fin : Nat} (h : fin < 65536) :
    s9table.getD (fin >>> 7) 0 ^^^ (fin &&& 0x7f) < 512 := by
  have h1 : fin >>> 7 < 512 := by rw [Nat.shiftRight_eq_div_pow]; omega
  have h2 : fin &&& 0x7f < 128 := by rw [and_7f]; omega
  exact xor_lt9 (s9_lt h1) (by omega)

/-- On a 16-bit input all three table look-ups of `fi` are in range; the
result is spelled out. -/
theorem fi_eq (fin fkey : Nat) (h : fin < 65536) :
    fi fin fkey = .ok
      ((((((s7table.getD (fin &&& 0x7f) 0 ^^^
              (s9table.getD (fin >>> 7) 0 ^^^ (fin &&& 0x7f))) &&& 0x7f) ^^^
            (fkey >>> 9)) <<< 9) % 65536) |||
        (s9table.getD ((s9table.getD (fin >>> 7) 0 ^^^ (fin &&& 0x7f)) ^^^
            (fkey &&& 0x1ff)) 0 ^^^
          (((s7table.getD (fin &&& 0x7f) 0 ^^^
              (s9table.getD (fin >>> 7) 0 ^^^ (fin &&& 0x7f))) &&& 0x7f) ^^^
            (fkey >>> 9)))) := by
  have h1 : fin >>> 7 < s9table.length := by
    rw [s9table_length, Nat.shiftRight_eq_div_pow]; omega
  have h2 : fin &&& 0x7f < s7table.length := by rw [s7table_length, and_7f]; omega
  have h3 : (s9table.getD (fin >>> 7) 0 ^^^ (fin &&& 0x7f)) ^^^ (fkey &&& 0x1ff)
      < s9table.length := by
    rw [s9table_length]
    exact xor_lt9 (fi_stage1_lt h) (by rw [and_1ff]; omega)
  simp only [fi, load_ok h1, load_ok h2, load_ok h3, ok_bind, pure_eq_ok]

theorem fi_lt {fin fkey v : Nat} (h : fin < 65536) (hk : fkey < 65536)
    (hv : fi fin fkey = .ok v) : v < 65536 := by
  rw [fi_eq fin fkey h] at hv
  injection hv with hv
  subst hv
  have hA := fi_stage1_lt h
  have h9 : fkey >>> 9 < 128 := by rw [Nat.shiftRight_eq_div_pow]; omega
  have hB : ((s7table.getD (fin &&& 0x7f) 0 ^^^
      (s9table.getD (fin >>> 7) 0 ^^^ (fin &&& 0x7f))) &&& 0x7f) ^^^ (fkey >>> 9) < 128 :=
    xor_lt7 (by rw [and_7f]; omega) h9
  have hC : s9table.getD ((s9table.getD (fin >>> 7) 0 ^^^ (fin &&& 0x7f)) ^^^
      (fkey &&& 0x1ff)) 0 < 512 :=
    s9_lt (xor_lt9 hA (by rw [and_1ff]; omega))
  generalize ((s7table.getD (fin &&& 0x7f) 0 ^^^
      (s9table.getD (fin >>> 7) 0 ^^^ (fin &&& 0x7f))) &&& 0x7f) ^^^ (fkey >>> 9) = B at *
  generalize s9table.getD ((s9table.getD (fin >>> 7) 0 ^^^ (fin &&& 0x7f)) ^^^
      (fkey &&& 0x1ff)) 0 = C at *
  have hCB : C ^^^ B < 512 := xor_lt9 hC (by omega)
  have : (B <<< 9) % 65536 = B <<< 9 := Nat.mod_eq_of_lt (by rw [Nat.shiftLeft_eq]; omega)
  rw [this, shl_or_eq_add B _ 9 hCB]
  omega


theorem fi_total {fin : Nat} (fkey : Nat) (h : fin < 65536) :
    ∃ v, fi fin fkey = .ok v :=
  ⟨_, fi_eq fin fkey h⟩

/-- The value `(d7 << 9) | d9` of a 7-bit and a 9-bit field. -/
theorem pack79_eq {d7 d9 : Nat} (h7 : d7 < 128) (h9 : d9 < 512) :
    ((d7 <<< 9) % 65536) ||| d9 = d7 * 512 + d9 := by
  have h1 : d7 <<< 9 = d7 * 512 := Nat.shiftLeft_eq d7 9
  have h2 : (d7 <<< 9) ||| d9 = d7 * 512 + d9 := shl_or_eq_add d7 d9 9 h9
  rw [Nat.mod_eq_of_lt (by omega), h2]

theorem fi_injective {a b fkey : Nat} (ha : a < 65536) (hb : b < 65536)
    (hk : fkey < 65536) (e : fi a fkey = fi b fkey) : a = b := by
  rw [fi_eq a fkey ha, fi_eq b fkey hb] at e
  injection e with e
  -- the two halves of the input
  have hpa : a >>> 7 < 512 := by rw [Nat.shiftRight_eq_div_pow]; omega
  have hpb : b >>> 7 < 512 := by rw [Nat.shiftRight_eq_div_pow]; omega
  have hqa : a &&& 0x7f < 128 := by rw [and_7f]; omega
  have hqb : b &&& 0x7f < 128 := by rw [and_7f]; omega
  have hAa := fi_stage1_lt ha
  have hAb := fi_stage1_lt hb
  have hsa : a = (a >>> 7) * 128 + (a &&& 0x7f) := by
    rw [Nat.shiftRight_eq_div_pow, and_7f]; omega
  have hsb : b = (b >>> 7) * 128 + (b &&& 0x7f) := by
    rw [Nat.shiftRight_eq_div_pow, and_7f]; omega
  have hk9 : fkey >>> 9 < 128 := by rw [Nat.shiftRight_eq_div_pow]; omega
  have hk1 : fkey &&& 0x1ff < 512 := by rw [and_1ff]; omega
  generalize a >>> 7 = pa at *
  generalize b >>> 7 = pb at *
  generalize a &&& 0x7f = qa at *
  generalize b &&& 0x7f = qb at *
  generalize fkey >>> 9 = k7 at *
  generalize fkey &&& 0x1ff = k9 at *
  -- first stage
  generalize hAa' : s9table.getD pa 0 ^^^ qa = Aa at *
  generalize hAb' : s9table.getD pb 0 ^^^ qb = Ab at *
  have hka : Aa ^^^ k9 < 512 := xor_lt9 hAa hk1
  have hkb : Ab ^^^ k9 < 512 := xor_lt9 hAb hk1
  -- second stage
  have hBa : ((s7table.getD qa 0 ^^^ Aa) &&& 0x7f) ^^^ k7 < 128 :=
    xor_lt7 (by rw [and_7f]; omega) hk9
  have hBb : ((s7table.getD qb 0 ^^^ Ab) &&& 0x7f) ^^^ k7 < 128 :=
    xor_lt7 (by rw [and_7f]; omega) hk9
  generalize hBa' : ((s7table.getD qa 0 ^^^ Aa) &&& 0x7f) ^^^ k7 = Ba at *
  generalize hBb' : ((s7table.getD qb 0 ^^^ Ab) &&& 0x7f) ^^^ k7 = Bb at *
  have hCa : s9table.getD (Aa ^^^ k9) 0 ^^^ Ba < 512 := xor_lt9 (s9_lt hka) (by omega)
  have hCb : s9table.getD (Ab ^^^ k9) 0 ^^^ Bb < 512 := xor_lt9 (s9_lt hkb) (by omega)
  rw [pack79_eq hBa hCa, pack79_eq hBb hCb] at e
  -- the output determines both fields
  have eB : Ba = Bb := by omega
  have eC : s9table.getD (Aa ^^^ k9) 0 ^^^ Ba = s9table.getD (Ab ^^^ k9) 0 ^^^ Bb := by omega
  subst eB
  -- undo the last look-up
  have eA : Aa = Ab :=
    Nat.xor_left_inj.mp (s9_inj hka hkb (Nat.xor_left_inj.mp eC))
  subst eA
  -- undo the seven-bit look-up
  have e7 : (s7table.getD qa 0 ^^^ Aa) &&& 0x7f = (s7table.getD qb 0 ^^^ Aa) &&& 0x7f :=
    Nat.xor_left_inj.mp (hBa'.trans hBb'.symm)
  rw [Nat.and_xor_distrib_right, Nat.and_xor_distrib_right] at e7
  have e7' := Nat.xor_left_inj.mp e7
  rw [and_7f, and_7f, Nat.mod_eq_of_lt (s7_lt hqa), Nat.mod_eq_of_lt (s7_lt hqb)] at e7'
  have eq : qa = qb := s7_inj hqa hqb e7'
  subst eq
  -- undo the first look-up
  have ep : pa = pb := s9_inj hpa hpb (Nat.xor_left_inj.mp (hAa'.trans hAb'.symm))
  omega


/-! ## The functions `fl` and `flinv` -/

theorem ek_lt {m : misty1cipher} (hek : ∀ x ∈ m.ek, x < 65536) {i : Nat}
    (hi : i < m.ek.length) : m.ek.getD i 0 < 65536 :=
  hek _ (getD_mem hi)

theorem and_lt16 {a : Nat} (b : Nat) (ha : a < 65536) : a &&& b < 65536 :=
  Nat.lt_of_le_of_lt Nat.and_le_left ha

theorem or_lt16 {a b : Nat} (ha : a < 65536) (hb : b < 65536) : a ||| b < 65536 :=
  Nat.or_lt_two_pow (n := 16) ha hb

theorem hi16_lt (x : Nat) : (x >>> 16) % 65536 < 65536 := Nat.mod_lt _ (by decide)

theorem lo16_lt (x : Nat) : (x &&& 0xffff) % 65536 < 65536 := Nat.mod_lt _ (by decide)

/-- The two updates of `fl` on the halves `d0`, `d1` with subkeys `a`, `b`,
followed by the two updates of `flinv` on the result, give back `d0`, `d1`. -/
theorem fl_flinv_halves {x b : Nat} (a : Nat) (hx : x < 4294967296)
    (hb : b < 65536) :
    let d0 := (x >>> 16) % 65536
    let d1 := (x &&& 0xffff) % 65536
    let e1 := d1 ^^^ (d0 &&& a)
    let e0 := d0 ^^^ (e1 ||| b)
    let y := ((e0 <<< 16) % 4294967296) ||| e1
    let f0 := (y >>> 16) % 65536 ^^^ ((y &&& 0xffff) % 65536 ||| b)
    let f1 := (y &&& 0xffff) % 65536 ^^^ (f0 &&& a)
    y < 4294967296 ∧ ((f0 <<< 16) % 4294967296) ||| f1 = x := by
  intro d0 d1 e1 e0 y f0 f1
  have hd0 : d0 < 65536 := hi16_lt x
  have hd1 : d1 < 65536 := lo16_lt x
  have he1 : e1 < 65536 := xor_lt16 hd1 (and_lt16 a hd0)
  have he0 : e0 < 65536 := xor_lt16 hd0 (or_lt16 he1 hb)
  have hyh : (y >>> 16) % 65536 = e0 := pack16_hi he0 he1
  have hyl : (y &&& 0xffff) % 65536 = e1 := pack16_lo he0 he1
  have hf0 : f0 = d0 := by
    show (y >>> 16) % 65536 ^^^ ((y &&& 0xffff) % 65536 ||| b) = d0
    rw [hyh, hyl]
    exact Nat.xor_cancel_right _ _
  have hf1 : f1 = d1 := by
    show (y &&& 0xffff) % 65536 ^^^ (f0 &&& a) = d1
    rw [hyl, hf0]
    exact Nat.xor_cancel_right _ _
  refine ⟨pack16_lt he0 he1, ?_⟩
  rw [hf0, hf1]
  exact split16 hx

/-- The function `fl` on a well-formed subkey array: the result. -/
theorem fl_eq (m : misty1cipher) (hlen : m.ek.length = 32) (x k : Nat) (hk : k < 10) :
    fl m x k = .ok
      (if k &&& 1 = 0 then
        (((((x >>> 16) % 65536) ^^^
            ((((x &&& 0xffff) % 65536) ^^^ (((x >>> 16) % 65536) &&& m.ek.getD (k / 2) 0)) |||
              m.ek.getD ((k / 2 + 6) % 8 + 8) 0)) <<< 16) % 4294967296) |||
          (((x &&& 0xffff) % 65536) ^^^ (((x >>> 16) % 65536) &&& m.ek.getD (k / 2) 0))
      else
        (((((x >>> 16) % 65536) ^^^
            ((((x &&& 0xffff) % 65536) ^^^
                (((x >>> 16) % 65536) &&& m.ek.getD (((k - 1) / 2 + 2) % 8 + 8) 0)) |||
              m.ek.getD (((k - 1) / 2 + 4) % 8) 0)) <<< 16) % 4294967296) |||
          (((x &&& 0xffff) % 65536) ^^^
            (((x >>> 16) % 65536) &&& m.ek.getD (((k - 1) / 2 + 2) % 8 + 8) 0))) := by
  have h1 : k / 2 < m.ek.length := by omega
  have h2 : (k / 2 + 6) % 8 + 8 < m.ek.length := by omega
  have h3 : ((k - 1) / 2 + 2) % 8 + 8 < m.ek.length := by omega
  have h4 : ((k - 1) / 2 + 4) % 8 < m.ek.length := by omega
  unfold fl
  split
  · simp only [load_ok h1, load_ok h2, ok_bind, pure_eq_ok]
  · simp only [load_ok h3, load_ok h4, ok_bind, pure_eq_ok]

/-- The function `flinv` on a well-formed subkey array: the result. -/
theorem flinv_eq (m : misty1cipher) (hlen : m.ek.length = 32) (y k : Nat) (hk : k < 10) :
    flinv m y k = .ok
      (if k &&& 1 = 0 then
        ((((y >>> 16) % 65536 ^^^
            ((y &&& 0xffff) % 65536 ||| m.ek.getD ((k / 2 + 6) % 8 + 8) 0)) <<< 16)
            % 4294967296) |||
          ((y &&& 0xffff) % 65536 ^^^
            (((y >>> 16) % 65536 ^^^
              ((y &&& 0xffff) % 65536 ||| m.ek.getD ((k / 2 + 6) % 8 + 8) 0)) &&&
              m.ek.getD (k / 2) 0))
      else
        ((((y >>> 16) % 65536 ^^^
            ((y &&& 0xffff) % 65536 ||| m.ek.getD (((k - 1) / 2 + 4) % 8) 0)) <<< 16)
            % 4294967296) |||
          ((y &&& 0xffff) % 65536 ^^^
            (((y >>> 16) % 65536 ^^^
              ((y &&& 0xffff) % 65536 ||| m.ek.getD (((k - 1) / 2 + 4) % 8) 0)) &&&
              m.ek.getD (((k - 1) / 2 + 2) % 8 + 8) 0))) := by
  have h1 : k / 2 < m.ek.length := by omega
  have h2 : (k / 2 + 6) % 8 + 8 < m.ek.length := by omega
  have h3 : ((k - 1) / 2 + 2) % 8 + 8 < m.ek.length := by omega
  have h4 : ((k - 1) / 2 + 4) % 8 < m.ek.length := by omega
  unfold flinv
  split
  · simp only [load_ok h1, load_ok h2, ok_bind, pure_eq_ok]
  · simp only [load_ok h3, load_ok h4, ok_bind, pure_eq_ok]

theorem fl_total (m : misty1cipher) (hlen : m.ek.length = 32)
    (hek : ∀ x ∈ m.ek, x < 65536) (x k : Nat) (hk : k < 10) :
    ∃ y, fl m x k = .ok y ∧ y < 4294967296 := by
  have h1 : k / 2 < m.ek.length := by omega
  have h2 : (k / 2 + 6) % 8 + 8 < m.ek.length := by omega
  have h3 : ((k - 1) / 2 + 2) % 8 + 8 < m.ek.length := by omega
  have h4 : ((k - 1) / 2 + 4) % 8 < m.ek.length := by omega
  refine ⟨_, fl_eq m hlen x k hk, ?_⟩
  split
  · exact pack16_lt (xor_lt16 (hi16_lt x) (or_lt16 (xor_lt16 (lo16_lt x)
      (and_lt16 _ (hi16_lt x))) (ek_lt hek h2))) (xor_lt16 (lo16_lt x) (and_lt16 _ (hi16_lt x)))
  · exact pack16_lt (xor_lt16 (hi16_lt x) (or_lt16 (xor_lt16 (lo16_lt x)
      (and_lt16 _ (hi16_lt x))) (ek_lt hek h4))) (xor_lt16 (lo16_lt x) (and_lt16 _ (hi16_lt x)))

theorem flinv_total (m : misty1cipher) (hlen : m.ek.length = 32)
    (hek : ∀ x ∈ m.ek, x < 65536) (y k : Nat) (hk : k < 10) :
    ∃ x, flinv m y k = .ok x ∧ x < 4294967296 := by
  have h2 : (k / 2 + 6) % 8 + 8 < m.ek.length := by omega
  have h4 : ((k - 1) / 2 + 4) % 8 < m.ek.length := by omega
  refine ⟨_, flinv_eq m hlen y k hk, ?_⟩
  split
  · exact pack16_lt (xor_lt16 (hi16_lt y) (or_lt16 (lo16_lt y) (ek_lt hek h2)))
      (xor_lt16 (lo16_lt y) (and_lt16 _ (xor_lt16 (hi16_lt y)
        (or_lt16 (lo16_lt y) (ek_lt hek h2)))))
  · exact pack16_lt (xor_lt16 (hi16_lt y) (or_lt16 (lo16_lt y) (ek_lt hek h4)))
      (xor_lt16 (lo16_lt y) (and_lt16 _ (xor_lt16 (hi16_lt y)
        (or_lt16 (lo16_lt y) (ek_lt hek h4)))))

theorem fl_flinv (m : misty1cipher) (hlen : m.ek.length = 32)
    (hek : ∀ x ∈ m.ek, x < 65536) (x k : Nat) (hk : k < 10) (hx : x < 4294967296) :
    ∃ y, fl m x k = .ok y ∧ y < 4294967296 ∧ flinv m y k = .ok x := by
  have h1 : k / 2 < m.ek.length := by omega
  have h2 : (k / 2 + 6) % 8 + 8 < m.ek.length := by omega
  have h3 : ((k - 1) / 2 + 2) % 8 + 8 < m.ek.length := by omega
  have h4 : ((k - 1) / 2 + 4) % 8 < m.ek.length := by omega
  refine ⟨_, fl_eq m hlen x k hk, ?_⟩
  rw [flinv_eq m hlen _ k hk]
  by_cases hpar : k &&& 1 = 0
  · simp only [hpar, if_true]
    have := fl_flinv_halves (m.ek.getD (k / 2) 0) hx (ek_lt hek h2)
    exact ⟨this.1, congrArg Except.ok this.2⟩
  · simp only [hpar, if_false]
    have := fl_flinv_halves (m.ek.getD (((k - 1) / 2 + 2) % 8 + 8) 0) hx (ek_lt hek h4)
    exact ⟨this.1, congrArg Except.ok this.2⟩

/-! ## The function `fo` -/

theorem fo_total (m : misty1cipher) (hlen : m.ek.length = 32)
    (hek : ∀ x ∈ m.ek, x < 65536) (x k : Nat) (hk : k < 8) :
    ∃ y, fo m x k = .ok y ∧ y < 4294967296 := by
  have i0 : k < m.ek.length := by omega
  have i1 : (k + 5) % 8 + 8 < m.ek.length := by omega
  have i2 : (k + 2) % 8 < m.ek.length := by omega
  have i3 : (k + 1) % 8 + 8 < m.ek.length := by omega
  have i4 : (k + 7) % 8 < m.ek.length := by omega
  have i5 : (k + 3) % 8 + 8 < m.ek.length := by omega
  have i6 : (k + 4) % 8 < m.ek.length := by omega
  have b0 : (x >>> 16) % 65536 ^^^ m.ek.getD k 0 < 65536 :=
    xor_lt16 (hi16_lt x) (ek_lt hek i0)
  obtain ⟨v1, h1⟩ := fi_total (m.ek.getD ((k + 5) % 8 + 8) 0) b0
  have l1 := fi_lt b0 (ek_lt hek i1) h1
  have b1 : (x &&& 0xffff) % 65536 ^^^ m.ek.getD ((k + 2) % 8) 0 < 65536 :=
    xor_lt16 (lo16_lt x) (ek_lt hek i2)
  obtain ⟨v2, h2⟩ := fi_total (m.ek.getD ((k + 1) % 8 + 8) 0) b1
  have l2 := fi_lt b1 (ek_lt hek i3) h2
  have c0 : v1 ^^^ (x &&& 0xffff) % 65536 < 65536 := xor_lt16 l1 (lo16_lt x)
  have b2 : v1 ^^^ (x &&& 0xffff) % 65536 ^^^ m.ek.getD ((k + 7) % 8) 0 < 65536 :=
    xor_lt16 c0 (ek_lt hek i4)
  obtain ⟨v3, h3⟩ := fi_total (m.ek.getD ((k + 3) % 8 + 8) 0) b2
  have l3 := fi_lt b2 (ek_lt hek i5) h3
  have c1 : v2 ^^^ (v1 ^^^ (x &&& 0xffff) % 65536) < 65536 := xor_lt16 l2 c0
  refine ⟨((((v2 ^^^ (v1 ^^^ (x &&& 0xffff) % 65536)) ^^^ m.ek.getD ((k + 4) % 8) 0) <<< 16)
      % 4294967296) ||| (v3 ^^^ (v2 ^^^ (v1 ^^^ (x &&& 0xffff) % 65536))), ?_, ?_⟩
  · simp only [fo, load_ok i0, load_ok i1, load_ok i2, load_ok i3, load_ok i4, load_ok i5,
      load_ok i6, ok_bind, pure_eq_ok, h1, h2, h3]
  · exact pack16_lt (xor_lt16 c1 (ek_lt hek i6)) (xor_lt16 l3 c1)

/-! ## Big-endian conversion -/

theorem getUint32_cons (b0 b1 b2 b3 : Nat) (rest : List Nat) :
    getUint32 (b0 :: b1 :: b2 :: b3 :: rest) = .ok
      (b3 ||| ((b2 <<< 8) % 4294967296) ||| ((b1 <<< 16) % 4294967296)
        ||| ((b0 <<< 24) % 4294967296)) := by
  simp [getUint32, load, ok_bind, pure_eq_ok]

theorem putUint32_cons (c0 c1 c2 c3 : Nat) (rest : List Nat) (v : Nat) :
    putUint32 (c0 :: c1 :: c2 :: c3 :: rest) v = .ok
      ((v >>> 24) % 256 :: (v >>> 16) % 256 :: (v >>> 8) % 256 :: v % 256 :: rest) := by
  simp [putUint32, store, ok_bind, pure_eq_ok]

/-- Four bytes, most significant first, as a number. -/
theorem be32_eq {b0 b1 b2 b3 : Nat} (h0 : b0 < 256) (h1 : b1 < 256) (h2 : b2 < 256)
    (h3 : b3 < 256) :
    b3 ||| ((b2 <<< 8) % 4294967296) ||| ((b1 <<< 16) % 4294967296)
        ||| ((b0 <<< 24) % 4294967296)
      = b0 * 16777216 + b1 * 65536 + b2 * 256 + b3 := by
  have e2 : b2 <<< 8 = b2 * 256 := Nat.shiftLeft_eq b2 8
  have e1 : b1 <<< 16 = b1 * 65536 := Nat.shiftLeft_eq b1 16
  have e0 : b0 <<< 24 = b0 * 16777216 := Nat.shiftLeft_eq b0 24
  rw [Nat.mod_eq_of_lt (by omega : b2 <<< 8 < 4294967296),
    Nat.mod_eq_of_lt (by omega : b1 <<< 16 < 4294967296),
    Nat.mod_eq_of_lt (by omega : b0 <<< 24 < 4294967296)]
  have s1 : b3 ||| b2 <<< 8 = b2 * 256 + b3 := by
    rw [Nat.or_comm]; exact shl_or_eq_add b2 b3 8 h3
  have s2 : b3 ||| b2 <<< 8 ||| b1 <<< 16 = b1 * 65536 + (b2 * 256 + b3) := by
    rw [s1, Nat.or_comm]; exact shl_or_eq_add b1 _ 16 (by omega)
  rw [s2, Nat.or_comm, shl_or_eq_add b0 _ 24 (by omega)]
  omega

theorem be32_lt {b0 b1 b2 b3 : Nat} (h0 : b0 < 256) (h1 : b1 < 256) (h2 : b2 < 256)
    (h3 : b3 < 256) :
    b3 ||| ((b2 <<< 8) % 4294967296) ||| ((b1 <<< 16) % 4294967296)
        ||| ((b0 <<< 24) % 4294967296) < 4294967296 := by
  rw [be32_eq h0 h1 h2 h3]; omega

/-- Reading back the four bytes that `putUint32` writes. -/
theorem getUint32_bytes {v : Nat} (hv : v < 4294967296) (rest : List Nat) :
    getUint32 ((v >>> 24) % 256 :: (v >>> 16) % 256 :: (v >>> 8) % 256 :: v % 256 :: rest)
      = .ok v := by
  rw [getUint32_cons, be32_eq (Nat.mod_lt _ (by decide)) (Nat.mod_lt _ (by decide))
    (Nat.mod_lt _ (by decide)) (Nat.mod_lt _ (by decide))]
  simp only [Nat.shiftRight_eq_div_pow]
  congr 1
  omega

/-- Writing the number read from four bytes gives the four bytes. -/
theorem bytes_be32 {b0 b1 b2 b3 : Nat} (h0 : b0 < 256) (h1 : b1 < 256) (h2 : b2 < 256)
    (h3 : b3 < 256) (v : Nat)
    (hv : v = b3 ||| ((b2 <<< 8) % 4294967296) ||| ((b1 <<< 16) % 4294967296)
        ||| ((b0 <<< 24) % 4294967296)) :
    (v >>> 24) % 256 = b0 ∧ (v >>> 16) % 256 = b1 ∧ (v >>> 8) % 256 = b2 ∧ v % 256 = b3 := by
  rw [be32_eq h0 h1 h2 h3] at hv
  simp only [Nat.shiftRight_eq_div_pow]
  omega

theorem list8 {l : List Nat} (h : l.length = 8) :
    ∃ a b c d e f g h, l = [a, b, c, d, e, f, g, h] := by
  match l, h with
  | [a, b, c, d, e, f, g, h], _ => exact ⟨a, b, c, d, e, f, g, h, rfl⟩


/-! ## The constructor `New` -/

theorem range8 : List.range 8 = [0, 1, 2, 3, 4, 5, 6, 7] := by decide

theorem list16 {l : List Nat} (h : l.length = 16) :
    ∃ a0 a1 a2 a3 a4 a5 a6 a7 a8 a9 a10 a11 a12 a13 a14 a15,
      l = [a0, a1, a2, a3, a4, a5, a6, a7, a8, a9, a10, a11, a12, a13, a14, a15] := by
  match l, h with
  | [a0, a1, a2, a3, a4, a5, a6, a7, a8, a9, a10, a11, a12, a13, a14, a15], _ =>
    exact ⟨a0, a1, a2, a3, a4, a5, a6, a7, a8, a9, a10, a11, a12, a13, a14, a15, rfl⟩

/-- The first loop of `New` on a 16-byte key. -/
theorem New_loop1 (a0 a1 a2 a3 a4 a5 a6 a7 a8 a9 a10 a11 a12 a13 a14 a15 : Nat) :
    forLoop 8 (fun i ek => do
      store ek i (((← load [a0, a1, a2, a3, a4, a5, a6, a7, a8, a9, a10, a11, a12, a13, a14, a15]
        (i * 2)) * 256 + (← load [a0, a1, a2, a3, a4, a5, a6, a7, a8, a9, a10, a11, a12, a13,
        a14, a15] (i * 2 + 1))) % 65536)) (List.replicate 32 0)
    = .ok ([(a0 * 256 + a1) % 65536, (a2 * 256 + a3) % 65536, (a4 * 256 + a5) % 65536,
        (a6 * 256 + a7) % 65536, (a8 * 256 + a9) % 65536, (a10 * 256 + a11) % 65536,
        (a12 * 256 + a13) % 65536, (a14 * 256 + a15) % 65536] ++ List.replicate 24 0) := by
  simp [forLoop, range8, load, store, ok_bind, pure_eq_ok, List.replicate]


/-- One pass of the body of the second loop of `New`. -/
theorem New_body2 (ek : List Nat) (i a b v : Nat) (hlen : ek.length = 32) (hi : i < 8)
    (ha : load ek i = .ok a) (hb : load ek ((i + 1) % 8) = .ok b) (hf : fi a b = .ok v) :
    (do
      let ek ← store ek (i + 8) (← fi (← load ek i) (← load ek ((i + 1) % 8)))
      let ek ← store ek (i + 16) ((← load ek (i + 8)) &&& 0x1ff)
      let ek ← store ek (i + 24) ((← load ek (i + 8)) >>> 9)
      return ek : Except RuntimeError (List Nat))
    = .ok (((ek.set (i + 8) v).set (i + 16) (v &&& 0x1ff)).set (i + 24) (v >>> 9)) := by
  have s1 : store ek (i + 8) v = .ok (ek.set (i + 8) v) := by
    simp [store, hlen]; omega
  have g1 : load (ek.set (i + 8) v) (i + 8) = .ok v := by
    rw [load_eq_ok_iff, List.getElem?_set_self (by omega)]
  have s2 : store (ek.set (i + 8) v) (i + 16) (v &&& 0x1ff)
      = .ok ((ek.set (i + 8) v).set (i + 16) (v &&& 0x1ff)) := by
    simp [store, hlen]; omega
  have g2 : load ((ek.set (i + 8) v).set (i + 16) (v &&& 0x1ff)) (i + 8) = .ok v := by
    rw [load_eq_ok_iff, List.getElem?_set_ne (by omega), List.getElem?_set_self (by omega)]
  have s3 : store ((ek.set (i + 8) v).set (i + 16) (v &&& 0x1ff)) (i + 24) (v >>> 9)
      = .ok (((ek.set (i + 8) v).set (i + 16) (v &&& 0x1ff)).set (i + 24) (v >>> 9)) := by
    simp [store, hlen]; omega
  simp only [ha, hb, hf, ok_bind, s1, g1, s2, g2, s3, pure_eq_ok]


/-- The second loop of `New`, given the eight results of `fi`: whatever the
entries `8 .. 31` hold before, they are all overwritten. -/
theorem New_loop2 (w0 w1 w2 w3 w4 w5 w6 w7 v0 v1 v2 v3 v4 v5 v6 v7 : Nat)
    (z8 z9 z10 z11 z12 z13 z14 z15 z16 z17 z18 z19 z20 z21 z22 z23 : Nat)
    (z24 z25 z26 z27 z28 z29 z30 z31 : Nat)
    (h0 : fi w0 w1 = .ok v0) (h1 : fi w1 w2 = .ok v1) (h2 : fi w2 w3 = .ok v2)
    (h3 : fi w3 w4 = .ok v3) (h4 : fi w4 w5 = .ok v4) (h5 : fi w5 w6 = .ok v5)
    (h6 : fi w6 w7 = .ok v6) (h7 : fi w7 w0 = .ok v7) :
    forLoop 8 (fun i ek => do
      let ek ← store ek (i + 8) (← fi (← load ek i) (← load ek ((i + 1) % 8)))
      let ek ← store ek (i + 16) ((← load ek (i + 8)) &&& 0x1ff)
      let ek ← store ek (i + 24) ((← load ek (i + 8)) >>> 9)
      return ek)
      [w0, w1, w2, w3, w4, w5, w6, w7, z8, z9, z10, z11, z12, z13, z14, z15, z16, z17, z18,
        z19, z20, z21, z22, z23, z24, z25, z26, z27, z28, z29, z30, z31]
    = .ok [w0, w1, w2, w3, w4, w5, w6, w7, v0, v1, v2, v3, v4, v5, v6, v7, v0 &&& 0x1ff,
        v1 &&& 0x1ff, v2 &&& 0x1ff, v3 &&& 0x1ff, v4 &&& 0x1ff, v5 &&& 0x1ff, v6 &&& 0x1ff,
        v7 &&& 0x1ff, v0 >>> 9, v1 >>> 9, v2 >>> 9, v3 >>> 9, v4 >>> 9, v5 >>> 9, v6 >>> 9,
        v7 >>> 9] := by
  simp only [forLoop, range8, List.foldlM_cons, List.foldlM_nil]
  rw [New_body2
      [w0, w1, w2, w3, w4, w5, w6, w7, z8, z9, z10, z11, z12, z13, z14, z15, z16, z17, z18,
        z19, z20, z21, z22, z23, z24, z25, z26, z27, z28, z29, z30, z31]
      0 w0 w1 v0 rfl (by decide) rfl rfl h0, ok_bind]
  simp only [List.set]
  rw [New_body2
      [w0, w1, w2, w3, w4, w5, w6, w7, v0, z9, z10, z11, z12, z13, z14, z15, v0 &&& 0x1ff,
        z17, z18, z19, z20, z21, z22, z23, v0 >>> 9, z25, z26, z27, z28, z29, z30, z31]
      1 w1 w2 v1 rfl (by decide) rfl rfl h1, ok_bind]
  simp only [List.set]
  rw [New_body2
      [w0, w1, w2, w3, w4, w5, w6, w7, v0, v1, z10, z11, z12, z13, z14, z15, v0 &&& 0x1ff,
        v1 &&& 0x1ff, z18, z19, z20, z21, z22, z23, v0 >>> 9, v1 >>> 9, z26, z27, z28, z29,
        z30, z31]
      2 w2 w3 v2 rfl (by decide) rfl rfl h2, ok_bind]
  simp only [List.set]
  rw [New_body2
      [w0, w1, w2, w3, w4, w5, w6, w7, v0, v1, v2, z11, z12, z13, z14, z15, v0 &&& 0x1ff,
        v1 &&& 0x1ff, v2 &&& 0x1ff, z19, z20, z21, z22, z23, v0 >>> 9, v1 >>> 9, v2 >>> 9, z27,
        z28, z29, z30, z31]
      3 w3 w4 v3 rfl (by decide) rfl rfl h3, ok_bind]
  simp only [List.set]
  rw [New_body2
      [w0, w1, w2, w3, w4, w5, w6, w7, v0, v1, v2, v3, z12, z13, z14, z15, v0 &&& 0x1ff,
        v1 &&& 0x1ff, v2 &&& 0x1ff, v3 &&& 0x1ff, z20, z21, z22, z23, v0 >>> 9, v1 >>> 9,
        v2 >>> 9, v3 >>> 9, z28, z29, z30, z31]
      4 w4 w5 v4 rfl (by decide) rfl rfl h4, ok_bind]
  simp only [List.set]
  rw [New_body2
      [w0, w1, w2, w3, w4, w5, w6, w7, v0, v1, v2, v3, v4, z13, z14, z15, v0 &&& 0x1ff,
        v1 &&& 0x1ff, v2 &&& 0x1ff, v3 &&& 0x1ff, v4 &&& 0x1ff, z21, z22, z23, v0 >>> 9,
        v1 >>> 9, v2 >>> 9, v3 >>> 9, v4 >>> 9, z29, z30, z31]
      5 w5 w6 v5 rfl (by decide) rfl rfl h5, ok_bind]
  simp only [List.set]
  rw [New_body2
      [w0, w1, w2, w3, w4, w5, w6, w7, v0, v1, v2, v3, v4, v5, z14, z15, v0 &&& 0x1ff,
        v1 &&& 0x1ff, v2 &&& 0x1ff, v3 &&& 0x1ff, v4 &&& 0x1ff, v5 &&& 0x1ff, z22, z23,
        v0 >>> 9, v1 >>> 9, v2 >>> 9, v3 >>> 9, v4 >>> 9, v5 >>> 9, z30, z31]
      6 w6 w7 v6 rfl (by decide) rfl rfl h6, ok_bind]
  simp only [List.set]
  rw [New_body2
      [w0, w1, w2, w3, w4, w5, w6, w7, v0, v1, v2, v3, v4, v5, v6, z15, v0 &&& 0x1ff,
        v1 &&& 0x1ff, v2 &&& 0x1ff, v3 &&& 0x1ff, v4 &&& 0x1ff, v5 &&& 0x1ff, v6 &&& 0x1ff,
        z23, v0 >>> 9, v1 >>> 9, v2 >>> 9, v3 >>> 9, v4 >>> 9, v5 >>> 9, v6 >>> 9, z31]
      7 w7 w0 v7 rfl (by decide) rfl rfl h7, ok_bind]
  simp only [List.set, pure_eq_ok]

/-- The subkey array built by `New` from a 16-byte key, spelled out. -/
theorem New_eq (a0 a1 a2 a3 a4 a5 a6 a7 a8 a9 a10 a11 a12 a13 a14 a15 : Nat) :
    ∃ v0 v1 v2 v3 v4 v5 v6 v7,
      fi ((a0 * 256 + a1) % 65536) ((a2 * 256 + a3) % 65536) = .ok v0 ∧
      fi ((a2 * 256 + a3) % 65536) ((a4 * 256 + a5) % 65536) = .ok v1 ∧
      fi ((a4 * 256 + a5) % 65536) ((a6 * 256 + a7) % 65536) = .ok v2 ∧
      fi ((a6 * 256 + a7) % 65536) ((a8 * 256 + a9) % 65536) = .ok v3 ∧
      fi ((a8 * 256 + a9) % 65536) ((a10 * 256 + a11) % 65536) = .ok v4 ∧
      fi ((a10 * 256 + a11) % 65536) ((a12 * 256 + a13) % 65536) = .ok v5 ∧
      fi ((a12 * 256 + a13) % 65536) ((a14 * 256 + a15) % 65536) = .ok v6 ∧
      fi ((a14 * 256 + a15) % 65536) ((a0 * 256 + a1) % 65536) = .ok v7 ∧
      New [a0, a1, a2, a3, a4, a5, a6, a7, a8, a9, a10, a11, a12, a13, a14, a15]
        = .ok (some ⟨[(a0 * 256 + a1) % 65536, (a2 * 256 + a3) % 65536,
            (a4 * 256 + a5) % 65536, (a6 * 256 + a7) % 65536, (a8 * 256 + a9) % 65536,
            (a10 * 256 + a11) % 65536, (a12 * 256 + a13) % 65536, (a14 * 256 + a15) % 65536,
            v0, v1, v2, v3, v4, v5, v6, v7,
            v0 &&& 0x1ff, v1 &&& 0x1ff, v2 &&& 0x1ff, v3 &&& 0x1ff,
            v4 &&& 0x1ff, v5 &&& 0x1ff, v6 &&& 0x1ff, v7 &&& 0x1ff,
            v0 >>> 9, v1 >>> 9, v2 >>> 9, v3 >>> 9, v4 >>> 9, v5 >>> 9, v6 >>> 9, v7 >>> 9]⟩,
          none) := by
  have m : ∀ x : Nat, x % 65536 < 65536 := fun x => Nat.mod_lt _ (by decide)
  obtain ⟨v0, h0⟩ := fi_total ((a2 * 256 + a3) % 65536) (m (a0 * 256 + a1))
  obtain ⟨v1, h1⟩ := fi_total ((a4 * 256 + a5) % 65536) (m (a2 * 256 + a3))
  obtain ⟨v2, h2⟩ := fi_total ((a6 * 256 + a7) % 65536) (m (a4 * 256 + a5))
  obtain ⟨v3, h3⟩ := fi_total ((a8 * 256 + a9) % 65536) (m (a6 * 256 + a7))
  obtain ⟨v4, h4⟩ := fi_total ((a10 * 256 + a11) % 65536) (m (a8 * 256 + a9))
  obtain ⟨v5, h5⟩ := fi_total ((a12 * 256 + a13) % 65536) (m (a10 * 256 + a11))
  obtain ⟨v6, h6⟩ := fi_total ((a14 * 256 + a15) % 65536) (m (a12 * 256 + a13))
  obtain ⟨v7, h7⟩ := fi_total ((a0 * 256 + a1) % 65536) (m (a14 * 256 + a15))
  refine ⟨v0, v1, v2, v3, v4, v5, v6, v7, h0, h1, h2, h3, h4, h5, h6, h7, ?_⟩
  unfold New
  rw [if_neg (by simp)]
  dsimp only
  rw [New_loop1]
  simp only [ok_bind]
  exact congrArg (fun r => r >>= fun ek => Except.ok (some (misty1cipher.mk ek), none))
    (New_loop2 _ _ _ _ _ _ _ _ _ _ _ _ _ _ _ _ _ _ _ _ _ _ _ _ _ _ _ _ _ _ _ _ _ _ _ _ _ _ _ _
      h0 h1 h2 h3 h4 h5 h6 h7)

/-- A 16-byte key gives an instance with 32 subkeys of 16 bits. -/
theorem New_wf {key : List Nat} (hlen : key.length = 16) :
    ∃ m, New key = .ok (some m, none) ∧ m.ek.length = 32 ∧ ∀ x ∈ m.ek, x < 65536 := by
  obtain ⟨a0, a1, a2, a3, a4, a5, a6, a7, a8, a9, a10, a11, a12, a13, a14, a15, rfl⟩ :=
    list16 hlen
  obtain ⟨v0, v1, v2, v3, v4, v5, v6, v7, h0, h1, h2, h3, h4, h5, h6, h7, hN⟩ :=
    New_eq a0 a1 a2 a3 a4 a5 a6 a7 a8 a9 a10 a11 a12 a13 a14 a15
  have m : ∀ x : Nat, x % 65536 < 65536 := fun x => Nat.mod_lt _ (by decide)
  have l0 := fi_lt (m _) (m _) h0
  have l1 := fi_lt (m _) (m _) h1
  have l2 := fi_lt (m _) (m _) h2
  have l3 := fi_lt (m _) (m _) h3
  have l4 := fi_lt (m _) (m _) h4
  have l5 := fi_lt (m _) (m _) h5
  have l6 := fi_lt (m _) (m _) h6
  have l7 := fi_lt (m _) (m _) h7
  have a : ∀ v : Nat, v < 65536 → v &&& 0x1ff < 65536 := fun v hv => and_lt16 _ hv
  have s : ∀ v : Nat, v < 65536 → v >>> 9 < 65536 := fun v hv => by
    rw [Nat.shiftRight_eq_div_pow]; omega
  refine ⟨_, hN, rfl, ?_⟩
  intro x hx
  simp only [List.mem_cons, List.mem_nil_iff, or_false] at hx
  rcases hx with h | h | h | h | h | h | h | h | h | h | h | h | h | h | h | h | h | h | h | h
    | h | h | h | h | h | h | h | h | h | h | h | h <;> subst h <;>
    first
    | exact m _
    | assumption
    | exact a _ (by assumption)
    | exact s _ (by assumption)


/-! ## The block transforms -/

theorem sliceFrom4 (b0 b1 b2 b3 : Nat) (rest : List Nat) :
    sliceFrom (b0 :: b1 :: b2 :: b3 :: rest) 4 = .ok rest := by
  simp [sliceFrom]

/-- The bytes read by `Encrypt`, the intermediate halves, the bytes written,
and the way back through `Decrypt`. -/
theorem Encrypt_Decrypt_cons (m : misty1cipher) (hlen : m.ek.length = 32)
    (hek : ∀ x ∈ m.ek, x < 65536) (b0 b1 b2 b3 b4 b5 b6 b7 : Nat)
    (h0 : b0 < 256) (h1 : b1 < 256) (h2 : b2 < 256) (h3 : b3 < 256)
    (h4 : b4 < 256) (h5 : b5 < 256) (h6 : b6 < 256) (h7 : b7 < 256)
    (c0 c1 c2 c3 c4 c5 c6 c7 : Nat) :
    ∃ e1 e0,
      Encrypt m [c0, c1, c2, c3, c4, c5, c6, c7] [b0, b1, b2, b3, b4, b5, b6, b7]
        = .ok [(e1 >>> 24) % 256, (e1 >>> 16) % 256, (e1 >>> 8) % 256, e1 % 256,
            (e0 >>> 24) % 256, (e0 >>> 16) % 256, (e0 >>> 8) % 256, e0 % 256] ∧
      ∀ t0 t1 t2 t3 t4 t5 t6 t7 : Nat,
        Decrypt m [t0, t1, t2, t3, t4, t5, t6, t7]
          [(e1 >>> 24) % 256, (e1 >>> 16) % 256, (e1 >>> 8) % 256, e1 % 256,
            (e0 >>> 24) % 256, (e0 >>> 16) % 256, (e0 >>> 8) % 256, e0 % 256]
          = .ok [b0, b1, b2, b3, b4, b5, b6, b7] := by
  have lD0 := be32_lt h0 h1 h2 h3
  have lD1 := be32_lt h4 h5 h6 h7
  have eD0 := bytes_be32 h0 h1 h2 h3 _ rfl
  have eD1 := bytes_be32 h4 h5 h6 h7 _ rfl
  generalize hD0 : b3 ||| ((b2 <<< 8) % 4294967296) ||| ((b1 <<< 16) % 4294967296)
    ||| ((b0 <<< 24) % 4294967296) = D0 at lD0 eD0
  generalize hD1 : b7 ||| ((b6 <<< 8) % 4294967296) ||| ((b5 <<< 16) % 4294967296)
    ||| ((b4 <<< 24) % 4294967296) = D1 at lD1 eD1
  obtain ⟨x0, fx0, lx0, ix0⟩ := fl_flinv m hlen hek D0 0 (by decide) lD0
  obtain ⟨x1, fx1, lx1, ix1⟩ := fl_flinv m hlen hek D1 1 (by decide) lD1
  obtain ⟨y0, gy0, ly0⟩ := fo_total m hlen hek x0 0 (by decide)
  obtain ⟨y1, gy1, ly1⟩ := fo_total m hlen hek (x1 ^^^ y0) 1 (by decide)
  obtain ⟨x2, fx2, lx2, ix2⟩ := fl_flinv m hlen hek (x0 ^^^ y1) 2 (by decide) (xor_lt32 lx0 ly1)
  obtain ⟨x3, fx3, lx3, ix3⟩ := fl_flinv m hlen hek (x1 ^^^ y0) 3 (by decide) (xor_lt32 lx1 ly0)
  obtain ⟨y2, gy2, ly2⟩ := fo_total m hlen hek x2 2 (by decide)
  obtain ⟨y3, gy3, ly3⟩ := fo_total m hlen hek (x3 ^^^ y2) 3 (by decide)
  obtain ⟨x4, fx4, lx4, ix4⟩ := fl_flinv m hlen hek (x2 ^^^ y3) 4 (by decide) (xor_lt32 lx2 ly3)
  obtain ⟨x5, fx5, lx5, ix5⟩ := fl_flinv m hlen hek (x3 ^^^ y2) 5 (by decide) (xor_lt32 lx3 ly2)
  obtain ⟨y4, gy4, ly4⟩ := fo_total m hlen hek x4 4 (by decide)
  obtain ⟨y5, gy5, ly5⟩ := fo_total m hlen hek (x5 ^^^ y4) 5 (by decide)
  obtain ⟨x6, fx6, lx6, ix6⟩ := fl_flinv m hlen hek (x4 ^^^ y5) 6 (by decide) (xor_lt32 lx4 ly5)
  obtain ⟨x7, fx7, lx7, ix7⟩ := fl_flinv m hlen hek (x5 ^^^ y4) 7 (by decide) (xor_lt32 lx5 ly4)
  obtain ⟨y6, gy6, ly6⟩ := fo_total m hlen hek x6 6 (by decide)
  obtain ⟨y7, gy7, ly7⟩ := fo_total m hlen hek (x7 ^^^ y6) 7 (by decide)
  obtain ⟨x8, fx8, lx8, ix8⟩ := fl_flinv m hlen hek (x6 ^^^ y7) 8 (by decide) (xor_lt32 lx6 ly7)
  obtain ⟨x9, fx9, lx9, ix9⟩ := fl_flinv m hlen hek (x7 ^^^ y6) 9 (by decide) (xor_lt32 lx7 ly6)
  refine ⟨x9, x8, ?_, ?_⟩
  · unfold Encrypt
    dsimp only
    rw [getUint32_cons, ok_bind, sliceFrom4, ok_bind, getUint32_cons, ok_bind, hD0, hD1,
      fx0, ok_bind, fx1, ok_bind, gy0, ok_bind, gy1, ok_bind,
      fx2, ok_bind, fx3, ok_bind, gy2, ok_bind, gy3, ok_bind,
      fx4, ok_bind, fx5, ok_bind, gy4, ok_bind, gy5, ok_bind,
      fx6, ok_bind, fx7, ok_bind, gy6, ok_bind, gy7, ok_bind,
      fx8, ok_bind, fx9, ok_bind,
      putUint32_cons, ok_bind, sliceFrom4, ok_bind, putUint32_cons, ok_bind]
    rfl
  · intro t0 t1 t2 t3 t4 t5 t6 t7
    unfold Decrypt
    dsimp only
    rw [getUint32_bytes lx9, ok_bind, sliceFrom4, ok_bind, getUint32_bytes lx8, ok_bind,
      ix8, ok_bind, ix9, ok_bind, gy7, ok_bind, Nat.xor_cancel_right, gy6, ok_bind,
      Nat.xor_cancel_right,
      ix6, ok_bind, ix7, ok_bind, gy5, ok_bind, Nat.xor_cancel_right, gy4, ok_bind,
      Nat.xor_cancel_right,
      ix4, ok_bind, ix5, ok_bind, gy3, ok_bind, Nat.xor_cancel_right, gy2, ok_bind,
      Nat.xor_cancel_right,
      ix2, ok_bind, ix3, ok_bind, gy1, ok_bind, Nat.xor_cancel_right, gy0, ok_bind,
      Nat.xor_cancel_right,
      ix0, ok_bind, ix1, ok_bind,
      putUint32_cons, ok_bind, sliceFrom4, ok_bind, putUint32_cons, ok_bind,
      eD0.1, eD0.2.1, eD0.2.2.1, eD0.2.2.2, eD1.1, eD1.2.1, eD1.2.2.1, eD1.2.2.2]
    rfl

/-- On a well-formed subkey array `Encrypt` succeeds on any eight source
numbers and any eight-element destination. -/
theorem Encrypt_total_cons (m : misty1cipher) (hlen : m.ek.length = 32)
    (hek : ∀ x ∈ m.ek, x < 65536) (b0 b1 b2 b3 b4 b5 b6 b7 c0 c1 c2 c3 c4 c5 c6 c7 : Nat) :
    ∃ out, Encrypt m [c0, c1, c2, c3, c4, c5, c6, c7] [b0, b1, b2, b3, b4, b5, b6, b7]
      = .ok out ∧ out.length = 8 := by
  generalize hD0 : b3 ||| ((b2 <<< 8) % 4294967296) ||| ((b1 <<< 16) % 4294967296)
    ||| ((b0 <<< 24) % 4294967296) = D0
  generalize hD1 : b7 ||| ((b6 <<< 8) % 4294967296) ||| ((b5 <<< 16) % 4294967296)
    ||| ((b4 <<< 24) % 4294967296) = D1
  obtain ⟨x0, fx0, -⟩ := fl_total m hlen hek D0 0 (by decide)
  obtain ⟨x1, fx1, -⟩ := fl_total m hlen hek D1 1 (by decide)
  obtain ⟨y0, gy0, -⟩ := fo_total m hlen hek x0 0 (by decide)
  obtain ⟨y1, gy1, -⟩ := fo_total m hlen hek (x1 ^^^ y0) 1 (by decide)
  obtain ⟨x2, fx2, -⟩ := fl_total m hlen hek (x0 ^^^ y1) 2 (by decide)
  obtain ⟨x3, fx3, -⟩ := fl_total m hlen hek (x1 ^^^ y0) 3 (by decide)
  obtain ⟨y2, gy2, -⟩ := fo_total m hlen hek x2 2 (by decide)
  obtain ⟨y3, gy3, -⟩ := fo_total m hlen hek (x3 ^^^ y2) 3 (by decide)
  obtain ⟨x4, fx4, -⟩ := fl_total m hlen hek (x2 ^^^ y3) 4 (by decide)
  obtain ⟨x5, fx5, -⟩ := fl_total m hlen hek (x3 ^^^ y2) 5 (by decide)
  obtain ⟨y4, gy4, -⟩ := fo_total m hlen hek x4 4 (by decide)
  obtain ⟨y5, gy5, -⟩ := fo_total m hlen hek (x5 ^^^ y4) 5 (by decide)
  obtain ⟨x6, fx6, -⟩ := fl_total m hlen hek (x4 ^^^ y5) 6 (by decide)
  obtain ⟨x7, fx7, -⟩ := fl_total m hlen hek (x5 ^^^ y4) 7 (by decide)
  obtain ⟨y6, gy6, -⟩ := fo_total m hlen hek x6 6 (by decide)
  obtain ⟨y7, gy7, -⟩ := fo_total m hlen hek (x7 ^^^ y6) 7 (by decide)
  obtain ⟨x8, fx8, -⟩ := fl_total m hlen hek (x6 ^^^ y7) 8 (by decide)
  obtain ⟨x9, fx9, -⟩ := fl_total m hlen hek (x7 ^^^ y6) 9 (by decide)
  refine ⟨[(x9 >>> 24) % 256, (x9 >>> 16) % 256, (x9 >>> 8) % 256, x9 % 256,
    (x8 >>> 24) % 256, (x8 >>> 16) % 256, (x8 >>> 8) % 256, x8 % 256], ?_, rfl⟩
  unfold Encrypt
  dsimp only
  rw [getUint32_cons, ok_bind, sliceFrom4, ok_bind, getUint32_cons, ok_bind, hD0, hD1,
    fx0, ok_bind, fx1, ok_bind, gy0, ok_bind, gy1, ok_bind,
    fx2, ok_bind, fx3, ok_bind, gy2, ok_bind, gy3, ok_bind,
    fx4, ok_bind, fx5, ok_bind, gy4, ok_bind, gy5, ok_bind,
    fx6, ok_bind, fx7, ok_bind, gy6, ok_bind, gy7, ok_bind,
    fx8, ok_bind, fx9, ok_bind,
    putUint32_cons, ok_bind, sliceFrom4, ok_bind, putUint32_cons, ok_bind]
  rfl

/-- On a well-formed subkey array `Decrypt` succeeds on any eight source
numbers and any eight-element destination. -/
theorem Decrypt_total_cons (m : misty1cipher) (hlen : m.ek.length = 32)
    (hek : ∀ x ∈ m.ek, x < 65536) (b0 b1 b2 b3 b4 b5 b6 b7 c0 c1 c2 c3 c4 c5 c6 c7 : Nat) :
    ∃ out, Decrypt m [c0, c1, c2, c3, c4, c5, c6, c7] [b0, b1, b2, b3, b4, b5, b6, b7]
      = .ok out ∧ out.length = 8 := by
  generalize hD1 : b3 ||| ((b2 <<< 8) % 4294967296) ||| ((b1 <<< 16) % 4294967296)
    ||| ((b0 <<< 24) % 4294967296) = D1
  generalize hD0 : b7 ||| ((b6 <<< 8) % 4294967296) ||| ((b5 <<< 16) % 4294967296)
    ||| ((b4 <<< 24) % 4294967296) = D0
  obtain ⟨x8, fx8, -⟩ := flinv_total m hlen hek D0 8 (by decide)
  obtain ⟨x9, fx9, -⟩ := flinv_total m hlen hek D1 9 (by decide)
  obtain ⟨y7, gy7, -⟩ := fo_total m hlen hek x9 7 (by decide)
  obtain ⟨y6, gy6, -⟩ := fo_total m hlen hek (x8 ^^^ y7) 6 (by decide)
  obtain ⟨x6, fx6, -⟩ := flinv_total m hlen hek (x8 ^^^ y7) 6 (by decide)
  obtain ⟨x7, fx7, -⟩ := flinv_total m hlen hek (x9 ^^^ y6) 7 (by decide)
  obtain ⟨y5, gy5, -⟩ := fo_total m hlen hek x7 5 (by decide)
  obtain ⟨y4, gy4, -⟩ := fo_total m hlen hek (x6 ^^^ y5) 4 (by decide)
  obtain ⟨x4, fx4, -⟩ := flinv_total m hlen hek (x6 ^^^ y5) 4 (by decide)
  obtain ⟨x5, fx5, -⟩ := flinv_total m hlen hek (x7 ^^^ y4) 5 (by decide)
  obtain ⟨y3, gy3, -⟩ := fo_total m hlen hek x5 3 (by decide)
  obtain ⟨y2, gy2, -⟩ := fo_total m hlen hek (x4 ^^^ y3) 2 (by decide)
  obtain ⟨x2, fx2, -⟩ := flinv_total m hlen hek (x4 ^^^ y3) 2 (by decide)
  obtain ⟨x3, fx3, -⟩ := flinv_total m hlen hek (x5 ^^^ y2) 3 (by decide)
  obtain ⟨y1, gy1, -⟩ := fo_total m hlen hek x3 1 (by decide)
  obtain ⟨y0, gy0, -⟩ := fo_total m hlen hek (x2 ^^^ y1) 0 (by decide)
  obtain ⟨x0, fx0, -⟩ := flinv_total m hlen hek (x2 ^^^ y1) 0 (by decide)
  obtain ⟨x1, fx1, -⟩ := flinv_total m hlen hek (x3 ^^^ y0) 1 (by decide)
  refine ⟨[(x0 >>> 24) % 256, (x0 >>> 16) % 256, (x0 >>> 8) % 256, x0 % 256,
    (x1 >>> 24) % 256, (x1 >>> 16) % 256, (x1 >>> 8) % 256, x1 % 256], ?_, rfl⟩
  unfold Decrypt
  dsimp only
  rw [getUint32_cons, ok_bind, sliceFrom4, ok_bind, getUint32_cons, ok_bind, hD0, hD1,
    fx8, ok_bind, fx9, ok_bind, gy7, ok_bind, gy6, ok_bind,
    fx6, ok_bind, fx7, ok_bind, gy5, ok_bind, gy4, ok_bind,
    fx4, ok_bind, fx5, ok_bind, gy3, ok_bind, gy2, ok_bind,
    fx2, ok_bind, fx3, ok_bind, gy1, ok_bind, gy0, ok_bind,
    fx0, ok_bind, fx1, ok_bind,
    putUint32_cons, ok_bind, sliceFrom4, ok_bind, putUint32_cons, ok_bind]
  rfl

/-! ## The specification's sequence -/

theorem ok_map {α β : Type} (a : α) (f : α → β) :
    (Except.ok a : Except RuntimeError α).map f = .ok (f a) := rfl

theorem applyStep_flD0 {m : misty1cipher} {d0 x k : Nat} (d1 : Nat) (h : fl m d0 k = .ok x) :
    applyStep m (.flD0 k) (d0, d1) = .ok (x, d1) := by
  simp only [applyStep, h, ok_map]

theorem applyStep_flD1 {m : misty1cipher} {d1 x k : Nat} (d0 : Nat) (h : fl m d1 k = .ok x) :
    applyStep m (.flD1 k) (d0, d1) = .ok (d0, x) := by
  simp only [applyStep, h, ok_map]

theorem applyStep_foIntoD1 {m : misty1cipher} {d0 y k : Nat} (d1 : Nat)
    (h : fo m d0 k = .ok y) :
    applyStep m (.foIntoD1 k) (d0, d1) = .ok (d0, d1 ^^^ y) := by
  simp only [applyStep, h, ok_map]

theorem applyStep_foIntoD0 {m : misty1cipher} {d1 y k : Nat} (d0 : Nat)
    (h : fo m d1 k = .ok y) :
    applyStep m (.foIntoD0 k) (d0, d1) = .ok (d0 ^^^ y, d1) := by
  simp only [applyStep, h, ok_map]

theorem bigEndianBytes_eq (v : Nat) :
    bigEndianBytes v = [(v >>> 24) % 256, (v >>> 16) % 256, (v >>> 8) % 256, v % 256] := by
  simp only [bigEndianBytes, Nat.shiftRight_eq_div_pow]

theorem bigEndian32_eq {b0 b1 b2 b3 : Nat} (h0 : b0 < 256) (h1 : b1 < 256) (h2 : b2 < 256)
    (h3 : b3 < 256) :
    b3 ||| ((b2 <<< 8) % 4294967296) ||| ((b1 <<< 16) % 4294967296)
        ||| ((b0 <<< 24) % 4294967296) = bigEndian32 b0 b1 b2 b3 := by
  rw [be32_eq h0 h1 h2 h3]; rfl

/-- `Encrypt` and the specification's sequence give the same bytes. -/
theorem Encrypt_eq_spec_cons (m : misty1cipher) (hlen : m.ek.length = 32)
    (hek : ∀ x ∈ m.ek, x < 65536) (b0 b1 b2 b3 b4 b5 b6 b7 : Nat)
    (h0 : b0 < 256) (h1 : b1 < 256) (h2 : b2 < 256) (h3 : b3 < 256)
    (h4 : b4 < 256) (h5 : b5 < 256) (h6 : b6 < 256) (h7 : b7 < 256)
    (c0 c1 c2 c3 c4 c5 c6 c7 : Nat) :
    Encrypt m [c0, c1, c2, c3, c4, c5, c6, c7] [b0, b1, b2, b3, b4, b5, b6, b7]
      = EncryptSpec m b0 b1 b2 b3 b4 b5 b6 b7 := by
  have hD0 := bigEndian32_eq h0 h1 h2 h3
  have hD1 := bigEndian32_eq h4 h5 h6 h7
  unfold EncryptSpec
  generalize bigEndian32 b0 b1 b2 b3 = D0 at hD0 ⊢
  generalize bigEndian32 b4 b5 b6 b7 = D1 at hD1 ⊢
  obtain ⟨x0, fx0, -⟩ := fl_total m hlen hek D0 0 (by decide)
  obtain ⟨x1, fx1, -⟩ := fl_total m hlen hek D1 1 (by decide)
  obtain ⟨y0, gy0, -⟩ := fo_total m hlen hek x0 0 (by decide)
  obtain ⟨y1, gy1, -⟩ := fo_total m hlen hek (x1 ^^^ y0) 1 (by decide)
  obtain ⟨x2, fx2, -⟩ := fl_total m hlen hek (x0 ^^^ y1) 2 (by decide)
  obtain ⟨x3, fx3, -⟩ := fl_total m hlen hek (x1 ^^^ y0) 3 (by decide)
  obtain ⟨y2, gy2, -⟩ := fo_total m hlen hek x2 2 (by decide)
  obtain ⟨y3, gy3, -⟩ := fo_total m hlen hek (x3 ^^^ y2) 3 (by decide)
  obtain ⟨x4, fx4, -⟩ := fl_total m hlen hek (x2 ^^^ y3) 4 (by decide)
  obtain ⟨x5, fx5, -⟩ := fl_total m hlen hek (x3 ^^^ y2) 5 (by decide)
  obtain ⟨y4, gy4, -⟩ := fo_total m hlen hek x4 4 (by decide)
  obtain ⟨y5, gy5, -⟩ := fo_total m hlen hek (x5 ^^^ y4) 5 (by decide)
  obtain ⟨x6, fx6, -⟩ := fl_total m hlen hek (x4 ^^^ y5) 6 (by decide)
  obtain ⟨x7, fx7, -⟩ := fl_total m hlen hek (x5 ^^^ y4) 7 (by decide)
  obtain ⟨y6, gy6, -⟩ := fo_total m hlen hek x6 6 (by decide)
  obtain ⟨y7, gy7, -⟩ := fo_total m hlen hek (x7 ^^^ y6) 7 (by decide)
  obtain ⟨x8, fx8, -⟩ := fl_total m hlen hek (x6 ^^^ y7) 8 (by decide)
  obtain ⟨x9, fx9, -⟩ := fl_total m hlen hek (x7 ^^^ y6) 9 (by decide)
  have lhs : Encrypt m [c0, c1, c2, c3, c4, c5, c6, c7] [b0, b1, b2, b3, b4, b5, b6, b7]
      = .ok ([(x9 >>> 24) % 256, (x9 >>> 16) % 256, (x9 >>> 8) % 256, x9 % 256] ++
        [(x8 >>> 24) % 256, (x8 >>> 16) % 256, (x8 >>> 8) % 256, x8 % 256]) := by
    unfold Encrypt
    dsimp only
    rw [getUint32_cons, ok_bind, sliceFrom4, ok_bind, getUint32_cons, ok_bind, hD0, hD1,
      fx0, ok_bind, fx1, ok_bind, gy0, ok_bind, gy1, ok_bind,
      fx2, ok_bind, fx3, ok_bind, gy2, ok_bind, gy3, ok_bind,
      fx4, ok_bind, fx5, ok_bind, gy4, ok_bind, gy5, ok_bind,
      fx6, ok_bind, fx7, ok_bind, gy6, ok_bind, gy7, ok_bind,
      fx8, ok_bind, fx9, ok_bind,
      putUint32_cons, ok_bind, sliceFrom4, ok_bind, putUint32_cons, ok_bind]
    rfl
  have rhs : specSequence.foldlM (fun d s => applyStep m s d) (D0, D1)
      = .ok (x8, x9) := by
    unfold specSequence
    rw [List.foldlM_cons, applyStep_flD0 _ fx0, ok_bind,
      List.foldlM_cons, applyStep_flD1 _ fx1, ok_bind,
      List.foldlM_cons, applyStep_foIntoD1 _ gy0, ok_bind,
      List.foldlM_cons, applyStep_foIntoD0 _ gy1, ok_bind,
      List.foldlM_cons, applyStep_flD0 _ fx2, ok_bind,
      List.foldlM_cons, applyStep_flD1 _ fx3, ok_bind,
      List.foldlM_cons, applyStep_foIntoD1 _ gy2, ok_bind,
      List.foldlM_cons, applyStep_foIntoD0 _ gy3, ok_bind,
      List.foldlM_cons, applyStep_flD0 _ fx4, ok_bind,
      List.foldlM_cons, applyStep_flD1 _ fx5, ok_bind,
      List.foldlM_cons, applyStep_foIntoD1 _ gy4, ok_bind,
      List.foldlM_cons, applyStep_foIntoD0 _ gy5, ok_bind,
      List.foldlM_cons, applyStep_flD0 _ fx6, ok_bind,
      List.foldlM_cons, applyStep_flD1 _ fx7, ok_bind,
      List.foldlM_cons, applyStep_foIntoD1 _ gy6, ok_bind,
      List.foldlM_cons, applyStep_foIntoD0 _ gy7, ok_bind,
      List.foldlM_cons, applyStep_flD0 _ fx8, ok_bind,
      List.foldlM_cons, applyStep_flD1 _ fx9, ok_bind,
      List.foldlM_nil]
    rfl
  rw [lhs, rhs, ok_map, bigEndianBytes_eq, bigEndianBytes_eq]

/-! ## The claims -/

/-- C1: round trip.  For every 16-byte key and every 8-byte block `P`, `New`
returns a cipher `c`, `Encrypt` under `c` succeeds on `P`, and `Decrypt` under
`c`, applied to the eight bytes that `Encrypt` produced, yields exactly `P`. -/
theorem Decrypt_Encrypt_roundtrip (key P dst dst' : List Nat)
    (hkey : key.length = 16) (hP : P.length = 8) (hbytes : ∀ b ∈ P, b < 256)
    (hdst : dst.length = 8) (hdst' : dst'.length = 8) :
    ∃ c ct, New key = .ok (some c, none) ∧ Encrypt c dst P = .ok ct ∧
      Decrypt c dst' ct = .ok P := by
  obtain ⟨c, hc, hlen, hek⟩ := New_wf hkey
  obtain ⟨b0, b1, b2, b3, b4, b5, b6, b7, rfl⟩ := list8 hP
  obtain ⟨c0, c1, c2, c3, c4, c5, c6, c7, rfl⟩ := list8 hdst
  obtain ⟨t0, t1, t2, t3, t4, t5, t6, t7, rfl⟩ := list8 hdst'
  obtain ⟨e1, e0, hE, hD⟩ := Encrypt_Decrypt_cons c hlen hek b0 b1 b2 b3 b4 b5 b6 b7
    (hbytes _ (by simp)) (hbytes _ (by simp)) (hbytes _ (by simp)) (hbytes _ (by simp))
    (hbytes _ (by simp)) (hbytes _ (by simp)) (hbytes _ (by simp)) (hbytes _ (by simp))
    c0 c1 c2 c3 c4 c5 c6 c7
  exact ⟨c, _, hc, hE, hD t0 t1 t2 t3 t4 t5 t6 t7⟩

/-- C1, at the key and block of the reference vector. -/
theorem Decrypt_Encrypt_roundtrip_witness :
    ∃ c ct,
      New [0x00, 0x11, 0x22, 0x33, 0x44, 0x55, 0x66, 0x77,
          0x88, 0x99, 0xaa, 0xbb, 0xcc, 0xdd, 0xee, 0xff] = .ok (some c, none) ∧
      Encrypt c [0, 0, 0, 0, 0, 0, 0, 0] [0x01, 0x23, 0x45, 0x67, 0x89, 0xab, 0xcd, 0xef]
        = .ok ct ∧
      Decrypt c [0, 0, 0, 0, 0, 0, 0, 0] ct
        = .ok [0x01, 0x23, 0x45, 0x67, 0x89, 0xab, 0xcd, 0xef] :=
  Decrypt_Encrypt_roundtrip
    [0x00, 0x11, 0x22, 0x33, 0x44, 0x55, 0x66, 0x77,
      0x88, 0x99, 0xaa, 0xbb, 0xcc, 0xdd, 0xee, 0xff]
    [0x01, 0x23, 0x45, 0x67, 0x89, 0xab, 0xcd, 0xef]
    [0, 0, 0, 0, 0, 0, 0, 0] [0, 0, 0, 0, 0, 0, 0, 0]
    (by decide) (by decide) (by decide) (by decide) (by decide)

/-- C2: known-answer test of RFC 2994.  With the key `00 11 .. ff`, `Encrypt`
of `01 23 45 67 89 ab cd ef` writes `8b 1d a5 f5 6a b3 d0 7c` into any
eight-byte destination, and `Decrypt` of `8b 1d a5 f5 6a b3 d0 7c` writes
`01 23 45 67 89 ab cd ef`. -/
theorem known_answer_rfc2994 :
    ∃ c,
      New [0x00, 0x11, 0x22, 0x33, 0x44, 0x55, 0x66, 0x77,
          0x88, 0x99, 0xaa, 0xbb, 0xcc, 0xdd, 0xee, 0xff] = .ok (some c, none) ∧
      ∀ c0 c1 c2 c3 c4 c5 c6 c7 : Nat,
        Encrypt c [c0, c1, c2, c3, c4, c5, c6, c7]
            [0x01, 0x23, 0x45, 0x67, 0x89, 0xab, 0xcd, 0xef]
          = .ok [0x8b, 0x1d, 0xa5, 0xf5, 0x6a, 0xb3, 0xd0, 0x7c] ∧
        Decrypt c [c0, c1, c2, c3, c4, c5, c6, c7]
            [0x8b, 0x1d, 0xa5, 0xf5, 0x6a, 0xb3, 0xd0, 0x7c]
          = .ok [0x01, 0x23, 0x45, 0x67, 0x89, 0xab, 0xcd, 0xef] :=
  ⟨_, rfl, fun _ _ _ _ _ _ _ _ => ⟨rfl, rfl⟩⟩


/-- C3: key-length validation.  `New` never stops with a run-time error; it
returns `nil` together with `KeySizeError(len(key))` exactly when the key is
not 16 bytes long, and an instance together with a `nil` error exactly when it
is. -/
theorem New_key_length (key : List Nat) :
    (New key = .ok (none, some ⟨(key.length : Int)⟩) ↔ key.length ≠ 16) ∧
    ((∃ m, New key = .ok (some m, none)) ↔ key.length = 16) ∧
    (New key = .ok (none, some ⟨(key.length : Int)⟩) ∨
      ∃ m, New key = .ok (some m, none)) := by
  by_cases h : key.length = 16
  · obtain ⟨m, hm, -, -⟩ := New_wf h
    refine ⟨⟨fun e => ?_, fun e => absurd h e⟩, ⟨fun _ => h, fun _ => ⟨m, hm⟩⟩,
      Or.inr ⟨m, hm⟩⟩
    rw [hm] at e
    simp at e
  · have e : New key = .ok (none, some ⟨(key.length : Int)⟩) := by
      unfold New
      rw [if_pos h]
    refine ⟨⟨fun _ => h, fun _ => e⟩, ⟨fun ⟨m, hm⟩ => ?_, fun e' => absurd e' h⟩,
      Or.inl e⟩
    rw [e] at hm
    simp at hm

/-- C4: key schedule.  For every 16-byte key `New` returns an instance with 32
subkeys such that, for every `i` in `0..7`, `ek[i]` is the big-endian word
`key[2i]*256 + key[2i+1]` (no reduction modulo `2^16` takes place),
`ek[8+i] = fi(ek[i], ek[(i+1) mod 8])`, `ek[16+i] = ek[8+i] AND 0x1FF` and
`ek[24+i] = ek[8+i] >> 9`. -/
theorem New_key_schedule (key : List Nat) (hlen : key.length = 16)
    (hbytes : ∀ b ∈ key, b < 256) :
    ∃ m, New key = .ok (some m, none) ∧ m.ek.length = 32 ∧
      ∀ i, i < 8 →
        m.ek.getD i 0 = key.getD (2 * i) 0 * 256 + key.getD (2 * i + 1) 0 ∧
        fi (m.ek.getD i 0) (m.ek.getD ((i + 1) % 8) 0) = .ok (m.ek.getD (8 + i) 0) ∧
        m.ek.getD (16 + i) 0 = m.ek.getD (8 + i) 0 &&& 0x1ff ∧
        m.ek.getD (24 + i) 0 = m.ek.getD (8 + i) 0 >>> 9 := by
  obtain ⟨a0, a1, a2, a3, a4, a5, a6, a7, a8, a9, a10, a11, a12, a13, a14, a15, rfl⟩ :=
    list16 hlen
  obtain ⟨v0, v1, v2, v3, v4, v5, v6, v7, h0, h1, h2, h3, h4, h5, h6, h7, hN⟩ :=
    New_eq a0 a1 a2 a3 a4 a5 a6 a7 a8 a9 a10 a11 a12 a13 a14 a15
  have b0 := hbytes a0 (by simp)
  have b1 := hbytes a1 (by simp)
  have b2 := hbytes a2 (by simp)
  have b3 := hbytes a3 (by simp)
  have b4 := hbytes a4 (by simp)
  have b5 := hbytes a5 (by simp)
  have b6 := hbytes a6 (by simp)
  have b7 := hbytes a7 (by simp)
  have b8 := hbytes a8 (by simp)
  have b9 := hbytes a9 (by simp)
  have b10 := hbytes a10 (by simp)
  have b11 := hbytes a11 (by simp)
  have b12 := hbytes a12 (by simp)
  have b13 := hbytes a13 (by simp)
  have b14 := hbytes a14 (by simp)
  have b15 := hbytes a15 (by simp)
  refine ⟨_, hN, rfl, ?_⟩
  intro i hi
  interval_cases i
  · exact ⟨Nat.mod_eq_of_lt (by omega), h0, rfl, rfl⟩
  · exact ⟨Nat.mod_eq_of_lt (by omega), h1, rfl, rfl⟩
  · exact ⟨Nat.mod_eq_of_lt (by omega), h2, rfl, rfl⟩
  · exact ⟨Nat.mod_eq_of_lt (by omega), h3, rfl, rfl⟩
  · exact ⟨Nat.mod_eq_of_lt (by omega), h4, rfl, rfl⟩
  · exact ⟨Nat.mod_eq_of_lt (by omega), h5, rfl, rfl⟩
  · exact ⟨Nat.mod_eq_of_lt (by omega), h6, rfl, rfl⟩
  · exact ⟨Nat.mod_eq_of_lt (by omega), h7, rfl, rfl⟩

/-- C4, at the key of the reference vector. -/
theorem New_key_schedule_witness :
    ∃ m, New [0x00, 0x11, 0x22, 0x33, 0x44, 0x55, 0x66, 0x77,
        0x88, 0x99, 0xaa, 0xbb, 0xcc, 0xdd, 0xee, 0xff] = .ok (some m, none) ∧
      m.ek.length = 32 ∧
      ∀ i, i < 8 →
        m.ek.getD i 0 = [0x00, 0x11, 0x22, 0x33, 0x44, 0x55, 0x66, 0x77,
            0x88, 0x99, 0xaa, 0xbb, 0xcc, 0xdd, 0xee, 0xff].getD (2 * i) 0 * 256 +
          [0x00, 0x11, 0x22, 0x33, 0x44, 0x55, 0x66, 0x77,
            0x88, 0x99, 0xaa, 0xbb, 0xcc, 0xdd, 0xee, 0xff].getD (2 * i + 1) 0 ∧
        fi (m.ek.getD i 0) (m.ek.getD ((i + 1) % 8) 0) = .ok (m.ek.getD (8 + i) 0) ∧
        m.ek.getD (16 + i) 0 = m.ek.getD (8 + i) 0 &&& 0x1ff ∧
        m.ek.getD (24 + i) 0 = m.ek.getD (8 + i) 0 >>> 9 :=
  New_key_schedule
    [0x00, 0x11, 0x22, 0x33, 0x44, 0x55, 0x66, 0x77,
      0x88, 0x99, 0xaa, 0xbb, 0xcc, 0xdd, 0xee, 0xff] (by decide) (by decide)

/-- C5: `flinv` undoes `fl`.  For every array of 32 subkeys of 16 bits, every
round index `k` in `0..9` and every 32-bit `x`, `fl(x, k)` succeeds with a
32-bit result and `flinv` of that result with the same `k` is `x`. -/
theorem flinv_undoes_fl (m : misty1cipher) (hlen : m.ek.length = 32)
    (hek : ∀ x ∈ m.ek, x < 65536) (k x : Nat) (hk : k ≤ 9) (hx : x < 4294967296) :
    ∃ y, fl m x k = .ok y ∧ y < 4294967296 ∧ flinv m y k = .ok x :=
  fl_flinv m hlen hek x k (by omega) hx

/-- C5, at an array of 32 subkeys, the index 3 and a 32-bit value. -/
theorem flinv_undoes_fl_witness :
    ∃ y, fl ⟨[0x0011, 0x2233, 0x4455, 0x6677, 0x8899, 0xaabb, 0xccdd, 0xeeff,
          0xcf51, 0x8e7f, 0x5e29, 0x673a, 0xcdbc, 0x07d6, 0xbf35, 0x5e11,
          0x0151, 0x007f, 0x0029, 0x013a, 0x01bc, 0x01d6, 0x0135, 0x0011,
          0x0067, 0x0047, 0x002f, 0x0033, 0x0066, 0x0003, 0x005f, 0x002f]⟩
        0x01234567 3 = .ok y ∧
      y < 4294967296 ∧
      flinv ⟨[0x0011, 0x2233, 0x4455, 0x6677, 0x8899, 0xaabb, 0xccdd, 0xeeff,
          0xcf51, 0x8e7f, 0x5e29, 0x673a, 0xcdbc, 0x07d6, 0xbf35, 0x5e11,
          0x0151, 0x007f, 0x0029, 0x013a, 0x01bc, 0x01d6, 0x0135, 0x0011,
          0x0067, 0x0047, 0x002f, 0x0033, 0x0066, 0x0003, 0x005f, 0x002f]⟩ y 3 = .ok 0x01234567 :=
  flinv_undoes_fl ⟨[0x0011, 0x2233, 0x4455, 0x6677, 0x8899, 0xaabb, 0xccdd, 0xeeff,
      0xcf51, 0x8e7f, 0x5e29, 0x673a, 0xcdbc, 0x07d6, 0xbf35, 0x5e11,
      0x0151, 0x007f, 0x0029, 0x013a, 0x01bc, 0x01d6, 0x0135, 0x0011,
      0x0067, 0x0047, 0x002f, 0x0033, 0x0066, 0x0003, 0x005f, 0x002f]⟩
    (by decide) (by decide) 3 0x01234567 (by decide) (by decide)

/-- C6: `fi` is a bijection for every fixed subkey.  For every 16-bit `fkey`
the map `fin ↦ fi(fin, fkey)` sends 16-bit values to 16-bit values without a
run-time error, is injective on them, and reaches every 16-bit value. -/
theorem fi_bijective (fkey : Nat) (hk : fkey < 65536) :
    (∀ fin, fin < 65536 → ∃ v, v < 65536 ∧ fi fin fkey = .ok v) ∧
    (∀ a b, a < 65536 → b < 65536 → fi a fkey = fi b fkey → a = b) ∧
    (∀ v, v < 65536 → ∃ fin, fin < 65536 ∧ fi fin fkey = .ok v) := by
  have tot : ∀ fin, fin < 65536 → ∃ v, v < 65536 ∧ fi fin fkey = .ok v := by
    intro fin h
    obtain ⟨v, hv⟩ := fi_total fkey h
    exact ⟨v, fi_lt h hk hv, hv⟩
  refine ⟨tot, fun a b ha hb e => fi_injective ha hb hk e, ?_⟩
  let g : Fin 65536 → Fin 65536 := fun x =>
    ⟨Classical.choose (tot x.1 x.2), (Classical.choose_spec (tot x.1 x.2)).1⟩
  have hg : ∀ x : Fin 65536, fi x.1 fkey = .ok (g x).1 := fun x =>
    (Classical.choose_spec (tot x.1 x.2)).2
  have inj : Function.Injective g := by
    intro x y e
    apply Fin.ext
    apply fi_injective x.2 y.2 hk
    rw [hg x, hg y, e]
  have surj : Function.Surjective g := Finite.injective_iff_surjective.mp inj
  intro v hv
  obtain ⟨x, hx⟩ := surj ⟨v, hv⟩
  refine ⟨x.1, x.2, ?_⟩
  rw [hg x, hx]

/-- C6, at the subkey `0x1234`. -/
theorem fi_bijective_witness :
    (∀ fin, fin < 65536 → ∃ v, v < 65536 ∧ fi fin 0x1234 = .ok v) ∧
    (∀ a b, a < 65536 → b < 65536 → fi a 0x1234 = fi b 0x1234 → a = b) ∧
    (∀ v, v < 65536 → ∃ fin, fin < 65536 ∧ fi fin 0x1234 = .ok v) :=
  fi_bijective 0x1234 (by decide)

/-- C7: `Encrypt` is the specified sequence.  For every array of 32 subkeys of
16 bits, every eight source bytes and every eight-byte destination, `Encrypt`
writes what the sequence `FL(d0,0); FL(d1,1); d1^=FO(d0,0); d0^=FO(d1,1); ..;
FL(d0,8); FL(d1,9)` of the specification gives: `d0`, `d1` are read
big-endian from `src[0..4)`, `src[4..8)`, and the final `d1` is written
big-endian to `dst[0..4)`, the final `d0` to `dst[4..8)`. -/
theorem Encrypt_eq_EncryptSpec (m : misty1cipher) (hlen : m.ek.length = 32)
    (hek : ∀ x ∈ m.ek, x < 65536) (dst : List Nat) (hdst : dst.length = 8)
    (b0 b1 b2 b3 b4 b5 b6 b7 : Nat)
    (hbytes : ∀ b ∈ [b0, b1, b2, b3, b4, b5, b6, b7], b < 256) :
    Encrypt m dst [b0, b1, b2, b3, b4, b5, b6, b7] = EncryptSpec m b0 b1 b2 b3 b4 b5 b6 b7 := by
  obtain ⟨c0, c1, c2, c3, c4, c5, c6, c7, rfl⟩ := list8 hdst
  exact Encrypt_eq_spec_cons m hlen hek b0 b1 b2 b3 b4 b5 b6 b7
    (hbytes _ (by simp)) (hbytes _ (by simp)) (hbytes _ (by simp)) (hbytes _ (by simp))
    (hbytes _ (by simp)) (hbytes _ (by simp)) (hbytes _ (by simp)) (hbytes _ (by simp))
    c0 c1 c2 c3 c4 c5 c6 c7

/-- C7, at an array of 32 subkeys and the block of the reference vector. -/
theorem Encrypt_eq_EncryptSpec_witness :
    Encrypt ⟨[0x0011, 0x2233, 0x4455, 0x6677, 0x8899, 0xaabb, 0xccdd, 0xeeff,
        0xcf51, 0x8e7f, 0x5e29, 0x673a, 0xcdbc, 0x07d6, 0xbf35, 0x5e11,
        0x0151, 0x007f, 0x0029, 0x013a, 0x01bc, 0x01d6, 0x0135, 0x0011,
        0x0067, 0x0047, 0x002f, 0x0033, 0x0066, 0x0003, 0x005f, 0x002f]⟩ [0, 0, 0, 0, 0, 0, 0, 0]
      [0x01, 0x23, 0x45, 0x67, 0x89, 0xab, 0xcd, 0xef]
    = EncryptSpec ⟨[0x0011, 0x2233, 0x4455, 0x6677, 0x8899, 0xaabb, 0xccdd, 0xeeff,
        0xcf51, 0x8e7f, 0x5e29, 0x673a, 0xcdbc, 0x07d6, 0xbf35, 0x5e11,
        0x0151, 0x007f, 0x0029, 0x013a, 0x01bc, 0x01d6, 0x0135, 0x0011,
        0x0067, 0x0047, 0x002f, 0x0033, 0x0066, 0x0003, 0x005f, 0x002f]⟩
      0x01 0x23 0x45 0x67 0x89 0xab 0xcd 0xef :=
  Encrypt_eq_EncryptSpec ⟨[0x0011, 0x2233, 0x4455, 0x6677, 0x8899, 0xaabb, 0xccdd, 0xeeff,
      0xcf51, 0x8e7f, 0x5e29, 0x673a, 0xcdbc, 0x07d6, 0xbf35, 0x5e11,
      0x0151, 0x007f, 0x0029, 0x013a, 0x01bc, 0x01d6, 0x0135, 0x0011,
      0x0067, 0x0047, 0x002f, 0x0033, 0x0066, 0x0003, 0x005f, 0x002f]⟩ (by decide) (by decide)
    [0, 0, 0, 0, 0, 0, 0, 0] (by decide)
    0x01 0x23 0x45 0x67 0x89 0xab 0xcd 0xef (by decide)


/-- C8: the transforms never fail.  For every array of 32 subkeys of 16 bits,
every eight-element source and every eight-element destination, `Encrypt` and
`Decrypt` return eight bytes without a run-time error; so do `fo` for every
`k` in `0..7` and `fl`, `flinv` for every `k` in `0..9`, on every input; and
the instance that `New` builds from any 16-byte key is such an array, so the
same holds for it. -/
theorem transforms_never_fail (m : misty1cipher) (hlen : m.ek.length = 32)
    (hek : ∀ x ∈ m.ek, x < 65536) (dst src : List Nat)
    (hsrc : src.length = 8) (hdst : dst.length = 8) :
    (∃ out, Encrypt m dst src = .ok out ∧ out.length = 8) ∧
    (∃ out, Decrypt m dst src = .ok out ∧ out.length = 8) ∧
    (∀ x k, k < 8 → ∃ y, fo m x k = .ok y) ∧
    (∀ x k, k < 10 → (∃ y, fl m x k = .ok y) ∧ ∃ y, flinv m x k = .ok y) ∧
    (∀ key : List Nat, key.length = 16 →
      ∃ c, New key = .ok (some c, none) ∧
        (∃ out, Encrypt c dst src = .ok out ∧ out.length = 8) ∧
        (∃ out, Decrypt c dst src = .ok out ∧ out.length = 8)) := by
  obtain ⟨b0, b1, b2, b3, b4, b5, b6, b7, rfl⟩ := list8 hsrc
  obtain ⟨c0, c1, c2, c3, c4, c5, c6, c7, rfl⟩ := list8 hdst
  refine ⟨Encrypt_total_cons m hlen hek _ _ _ _ _ _ _ _ _ _ _ _ _ _ _ _,
    Decrypt_total_cons m hlen hek _ _ _ _ _ _ _ _ _ _ _ _ _ _ _ _, ?_, ?_, ?_⟩
  · intro x k hk
    obtain ⟨y, hy, -⟩ := fo_total m hlen hek x k hk
    exact ⟨y, hy⟩
  · intro x k hk
    obtain ⟨y, hy, -⟩ := fl_total m hlen hek x k hk
    obtain ⟨z, hz, -⟩ := flinv_total m hlen hek x k hk
    exact ⟨⟨y, hy⟩, ⟨z, hz⟩⟩
  · intro key hkey
    obtain ⟨c, hc, hl, he⟩ := New_wf hkey
    exact ⟨c, hc, Encrypt_total_cons c hl he _ _ _ _ _ _ _ _ _ _ _ _ _ _ _ _,
      Decrypt_total_cons c hl he _ _ _ _ _ _ _ _ _ _ _ _ _ _ _ _⟩

/-- C8, at an array of 32 subkeys and the block of the reference vector. -/
theorem transforms_never_fail_witness :
    (∃ out, Encrypt ⟨[0x0011, 0x2233, 0x4455, 0x6677, 0x8899, 0xaabb, 0xccdd, 0xeeff,
        0xcf51, 0x8e7f, 0x5e29, 0x673a, 0xcdbc, 0x07d6, 0xbf35, 0x5e11,
        0x0151, 0x007f, 0x0029, 0x013a, 0x01bc, 0x01d6, 0x0135, 0x0011,
        0x0067, 0x0047, 0x002f, 0x0033, 0x0066, 0x0003, 0x005f, 0x002f]⟩ [0, 0, 0, 0, 0, 0, 0, 0]
      [0x01, 0x23, 0x45, 0x67, 0x89, 0xab, 0xcd, 0xef] = .ok out ∧ out.length = 8) ∧
    (∃ out, Decrypt ⟨[0x0011, 0x2233, 0x4455, 0x6677, 0x8899, 0xaabb, 0xccdd, 0xeeff,
        0xcf51, 0x8e7f, 0x5e29, 0x673a, 0xcdbc, 0x07d6, 0xbf35, 0x5e11,
        0x0151, 0x007f, 0x0029, 0x013a, 0x01bc, 0x01d6, 0x0135, 0x0011,
        0x0067, 0x0047, 0x002f, 0x0033, 0x0066, 0x0003, 0x005f, 0x002f]⟩ [0, 0, 0, 0, 0, 0, 0, 0]
      [0x01, 0x23, 0x45, 0x67, 0x89, 0xab, 0xcd, 0xef] = .ok out ∧ out.length = 8) :=
  have h := transforms_never_fail
    ⟨[0x0011, 0x2233, 0x4455, 0x6677, 0x8899, 0xaabb, 0xccdd, 0xeeff,
      0xcf51, 0x8e7f, 0x5e29, 0x673a, 0xcdbc, 0x07d6, 0xbf35, 0x5e11,
      0x0151, 0x007f, 0x0029, 0x013a, 0x01bc, 0x01d6, 0x0135, 0x0011,
      0x0067, 0x0047, 0x002f, 0x0033, 0x0066, 0x0003, 0x005f, 0x002f]⟩ (by decide) (by decide)
    [0, 0, 0, 0, 0, 0, 0, 0] [0x01, 0x23, 0x45, 0x67, 0x89, 0xab, 0xcd, 0xef]
    (by decide) (by decide)
  ⟨h.1, h.2.1⟩

/-- C9: table bounds.  `s7table` has exactly 128 entries, `s9table` has exactly
512 entries, and every entry of both tables is at most 511. -/
theorem table_bounds :
    s7table.length = 128 ∧ s9table.length = 512 ∧
    (∀ x ∈ s7table, x ≤ 511) ∧ (∀ x ∈ s9table, x ≤ 511) :=
  ⟨by decide!, by decide!, by decide!, by decide!⟩

theorem list4 {l : List Nat} (h : l.length = 4) : ∃ a b c d, l = [a, b, c, d] := by
  match l, h with
  | [a, b, c, d], _ => exact ⟨a, b, c, d, rfl⟩

/-- C10: big-endian conversion.  For every four bytes `getUint32` returns
`b0*2^24 + b1*2^16 + b2*2^8 + b3`; for every 32-bit `v` `putUint32` writes the
bytes `v>>24, v>>16, v>>8, v`, each reduced modulo 256; `getUint32` of what
`putUint32` wrote is `v`; and `putUint32` of what `getUint32` read restores
the four bytes. -/
theorem bigEndian_conversion (b0 b1 b2 b3 v : Nat) (buf : List Nat)
    (h0 : b0 < 256) (h1 : b1 < 256) (h2 : b2 < 256) (h3 : b3 < 256)
    (hv : v < 4294967296) (hbuf : buf.length = 4) :
    getUint32 [b0, b1, b2, b3] = .ok (b0 * 2 ^ 24 + b1 * 2 ^ 16 + b2 * 2 ^ 8 + b3) ∧
    putUint32 buf v = .ok [(v >>> 24) % 256, (v >>> 16) % 256, (v >>> 8) % 256, v % 256] ∧
    (∃ w, putUint32 buf v = .ok w ∧ getUint32 w = .ok v) ∧
    (∃ u, getUint32 [b0, b1, b2, b3] = .ok u ∧ putUint32 buf u = .ok [b0, b1, b2, b3]) := by
  obtain ⟨c0, c1, c2, c3, rfl⟩ := list4 hbuf
  have hg : getUint32 [b0, b1, b2, b3]
      = .ok (b0 * 2 ^ 24 + b1 * 2 ^ 16 + b2 * 2 ^ 8 + b3) := by
    rw [getUint32_cons, be32_eq h0 h1 h2 h3]
    norm_num
  refine ⟨hg, putUint32_cons _ _ _ _ _ _, ⟨_, putUint32_cons _ _ _ _ _ _,
    getUint32_bytes hv []⟩, ⟨_, getUint32_cons _ _ _ _ _, ?_⟩⟩
  obtain ⟨e0, e1, e2, e3⟩ := bytes_be32 h0 h1 h2 h3 _ rfl
  rw [putUint32_cons, e0, e1, e2, e3]

/-- C10, at the bytes `01 23 45 67` and the value `0x89abcdef`. -/
theorem bigEndian_conversion_witness :
    getUint32 [0x01, 0x23, 0x45, 0x67]
      = .ok (0x01 * 2 ^ 24 + 0x23 * 2 ^ 16 + 0x45 * 2 ^ 8 + 0x67) ∧
    putUint32 [0, 0, 0, 0] 0x89abcdef
      = .ok [(0x89abcdef >>> 24) % 256, (0x89abcdef >>> 16) % 256,
          (0x89abcdef >>> 8) % 256, 0x89abcdef % 256] ∧
    (∃ w, putUint32 [0, 0, 0, 0] 0x89abcdef = .ok w ∧ getUint32 w = .ok 0x89abcdef) ∧
    (∃ u, getUint32 [0x01, 0x23, 0x45, 0x67] = .ok u ∧
      putUint32 [0, 0, 0, 0] u = .ok [0x01, 0x23, 0x45, 0x67]) :=
  bigEndian_conversion 0x01 0x23 0x45 0x67 0x89abcdef [0, 0, 0, 0]
    (by decide) (by decide) (by decide) (by decide) (by decide) (by decide)

/-! ## The evaluation aids compute what the functions compute -/

theorem packBits_cons (w a : Nat) (l : List Nat) :
    packBits w (a :: l) = a + 2 ^ w * packBits w l := rfl

theorem unpackBits_packBits (w : Nat) (l : List Nat) (h : ∀ x ∈ l, x < 2 ^ w) :
    ∀ i, i < l.length → unpackBits w (packBits w l) i = l.getD i 0 := by
  induction l with
  | nil => intro i hi; simp at hi
  | cons a l ih =>
    intro i hi
    have ha : a < 2 ^ w := h a (by simp)
    have hpos : 0 < 2 ^ w := Nat.pos_of_ne_zero (by positivity)
    cases i with
    | zero =>
      simp only [unpackBits, packBits_cons, Nat.mul_zero, Nat.shiftRight_zero,
        Nat.add_mul_mod_self_left, Nat.mod_eq_of_lt ha, List.getD_cons_zero]
    | succ i =>
      have hi' : i < l.length := by simpa using hi
      have hl : ∀ x ∈ l, x < 2 ^ w := fun x hx => h x (by simp [hx])
      rw [List.getD_cons_succ, ← ih hl i hi']
      simp only [unpackBits, packBits_cons, Nat.shiftRight_eq_div_pow]
      rw [Nat.mul_succ, Nat.add_comm (w * i) w, Nat.pow_add, ← Nat.div_div_eq_div_mul,
        Nat.add_mul_div_left _ _ hpos, Nat.div_eq_of_lt ha, Nat.zero_add]

theorem s7_unpack {i : Nat} (h : i < 128) : s7table.getD i 0 = unpackBits 9 s7packed i := by
  unfold s7packed
  exact (unpackBits_packBits 9 s7table
    (fun x hx => Nat.lt_trans (s7table_lt x hx) (by decide)) i
    (by rw [s7table_length]; exact h)).symm

theorem s9_unpack {i : Nat} (h : i < 512) : s9table.getD i 0 = unpackBits 9 s9packed i := by
  unfold s9packed
  exact (unpackBits_packBits 9 s9table s9table_lt i (by rw [s9table_length]; exact h)).symm

theorem ek_unpack {m : misty1cipher} (hlen : m.ek.length = 32)
    (hek : ∀ x ∈ m.ek, x < 65536) {i : Nat} (h : i < 32) :
    m.ek.getD i 0 = unpackBits 16 (packBits 16 m.ek) i :=
  (unpackBits_packBits 16 m.ek hek i (by rw [hlen]; exact h)).symm

theorem fi_fast (fin fkey : Nat) (h : fin < 65536) : fi fin fkey = .ok (fiFast fin fkey) := by
  have h1 : fin >>> 7 < 512 := by rw [Nat.shiftRight_eq_div_pow]; omega
  have h2 : fin &&& 0x7f < 128 := by rw [and_7f]; omega
  have h3 : (s9table.getD (fin >>> 7) 0 ^^^ (fin &&& 0x7f)) ^^^ (fkey &&& 0x1ff) < 512 :=
    xor_lt9 (fi_stage1_lt h) (by rw [and_1ff]; omega)
  rw [fi_eq fin fkey h, s9_unpack h3, s7_unpack h2, s9_unpack h1]
  simp only [fiFast]

theorem New_fast {key : List Nat} (hlen : key.length = 16) :
    New key = .ok (some ⟨ekFast key⟩, none) := by
  obtain ⟨a0, a1, a2, a3, a4, a5, a6, a7, a8, a9, a10, a11, a12, a13, a14, a15, rfl⟩ :=
    list16 hlen
  obtain ⟨v0, v1, v2, v3, v4, v5, v6, v7, h0, h1, h2, h3, h4, h5, h6, h7, hN⟩ :=
    New_eq a0 a1 a2 a3 a4 a5 a6 a7 a8 a9 a10 a11 a12 a13 a14 a15
  have m : ∀ x : Nat, x % 65536 < 65536 := fun x => Nat.mod_lt _ (by decide)
  rw [fi_fast _ _ (m _)] at h0 h1 h2 h3 h4 h5 h6 h7
  have h0 := Except.ok.inj h0
  have h1 := Except.ok.inj h1
  have h2 := Except.ok.inj h2
  have h3 := Except.ok.inj h3
  have h4 := Except.ok.inj h4
  have h5 := Except.ok.inj h5
  have h6 := Except.ok.inj h6
  have h7 := Except.ok.inj h7
  subst h0 h1 h2 h3 h4 h5 h6 h7
  rw [hN]
  rfl

theorem ekFast_wf (key : List Nat) (hlen : key.length = 16) :
    (ekFast key).length = 32 ∧ ∀ x ∈ ekFast key, x < 65536 := by
  obtain ⟨m, hm, h1, h2⟩ := New_wf hlen
  rw [New_fast hlen] at hm
  have e : (⟨ekFast key⟩ : misty1cipher) = m :=
    Option.some.inj (Prod.mk.inj (Except.ok.inj hm)).1
  subst e
  exact ⟨h1, h2⟩

theorem fl_fast (m : misty1cipher) (hlen : m.ek.length = 32)
    (hek : ∀ x ∈ m.ek, x < 65536) (x k : Nat) (hk : k < 10) :
    fl m x k = .ok (flFast (packBits 16 m.ek) x k) := by
  have h1 : k / 2 < 32 := by omega
  have h2 : (k / 2 + 6) % 8 + 8 < 32 := by omega
  have h3 : ((k - 1) / 2 + 2) % 8 + 8 < 32 := by omega
  have h4 : ((k - 1) / 2 + 4) % 8 < 32 := by omega
  rw [fl_eq m hlen x k hk, ek_unpack hlen hek h1, ek_unpack hlen hek h2,
    ek_unpack hlen hek h3, ek_unpack hlen hek h4]
  simp only [flFast]

theorem fo_fast (m : misty1cipher) (hlen : m.ek.length = 32)
    (hek : ∀ x ∈ m.ek, x < 65536) (x k : Nat) (hk : k < 8) :
    fo m x k = .ok (foFast (packBits 16 m.ek) x k) := by
  have i0 : k < m.ek.length := by omega
  have i1 : (k + 5) % 8 + 8 < m.ek.length := by omega
  have i2 : (k + 2) % 8 < m.ek.length := by omega
  have i3 : (k + 1) % 8 + 8 < m.ek.length := by omega
  have i4 : (k + 7) % 8 < m.ek.length := by omega
  have i5 : (k + 3) % 8 + 8 < m.ek.length := by omega
  have i6 : (k + 4) % 8 < m.ek.length := by omega
  have b0 : (x >>> 16) % 65536 ^^^ m.ek.getD k 0 < 65536 :=
    xor_lt16 (hi16_lt x) (ek_lt hek i0)
  have h1 := fi_fast _ (m.ek.getD ((k + 5) % 8 + 8) 0) b0
  have l1 := fi_lt b0 (ek_lt hek i1) h1
  have b1 : (x &&& 0xffff) % 65536 ^^^ m.ek.getD ((k + 2) % 8) 0 < 65536 :=
    xor_lt16 (lo16_lt x) (ek_lt hek i2)
  have h2 := fi_fast _ (m.ek.getD ((k + 1) % 8 + 8) 0) b1
  have c0 := xor_lt16 l1 (lo16_lt x)
  have b2 := xor_lt16 c0 (ek_lt hek i4)
  have h3 := fi_fast _ (m.ek.getD ((k + 3) % 8 + 8) 0) b2
  simp only [fo, load_ok i0, load_ok i1, load_ok i2, load_ok i3, load_ok i4, load_ok i5,
    load_ok i6, ok_bind, pure_eq_ok, h1, h2, h3]
  rw [ek_unpack hlen hek (by omega : k < 32),
    ek_unpack hlen hek (by omega : (k + 5) % 8 + 8 < 32),
    ek_unpack hlen hek (by omega : (k + 2) % 8 < 32),
    ek_unpack hlen hek (by omega : (k + 1) % 8 + 8 < 32),
    ek_unpack hlen hek (by omega : (k + 7) % 8 < 32),
    ek_unpack hlen hek (by omega : (k + 3) % 8 + 8 < 32),
    ek_unpack hlen hek (by omega : (k + 4) % 8 < 32)]
  simp only [foFast]

/-- `Encrypt` through the evaluation aids. -/
theorem Encrypt_fast (m : misty1cipher) (hlen : m.ek.length = 32)
    (hek : ∀ x ∈ m.ek, x < 65536) (b0 b1 b2 b3 b4 b5 b6 b7 c0 c1 c2 c3 c4 c5 c6 c7 : Nat) :
    Encrypt m [c0, c1, c2, c3, c4, c5, c6, c7] [b0, b1, b2, b3, b4, b5, b6, b7]
      = .ok (bigEndianBytes (encryptFast (packBits 16 m.ek)
            (b3 ||| ((b2 <<< 8) % 4294967296) ||| ((b1 <<< 16) % 4294967296)
              ||| ((b0 <<< 24) % 4294967296))
            (b7 ||| ((b6 <<< 8) % 4294967296) ||| ((b5 <<< 16) % 4294967296)
              ||| ((b4 <<< 24) % 4294967296))).2 ++
          bigEndianBytes (encryptFast (packBits 16 m.ek)
            (b3 ||| ((b2 <<< 8) % 4294967296) ||| ((b1 <<< 16) % 4294967296)
              ||| ((b0 <<< 24) % 4294967296))
            (b7 ||| ((b6 <<< 8) % 4294967296) ||| ((b5 <<< 16) % 4294967296)
              ||| ((b4 <<< 24) % 4294967296))).1) := by
  generalize hD0 : b3 ||| ((b2 <<< 8) % 4294967296) ||| ((b1 <<< 16) % 4294967296)
    ||| ((b0 <<< 24) % 4294967296) = D0
  generalize hD1 : b7 ||| ((b6 <<< 8) % 4294967296) ||| ((b5 <<< 16) % 4294967296)
    ||| ((b4 <<< 24) % 4294967296) = D1
  have F : ∀ x k, k < 10 → fl m x k = .ok (flFast (packBits 16 m.ek) x k) :=
    fun x k hk => fl_fast m hlen hek x k hk
  have G : ∀ x k, k < 8 → fo m x k = .ok (foFast (packBits 16 m.ek) x k) :=
    fun x k hk => fo_fast m hlen hek x k hk
  generalize packBits 16 m.ek = p at F G ⊢
  unfold Encrypt
  dsimp only
  rw [getUint32_cons, ok_bind, sliceFrom4, ok_bind, getUint32_cons, ok_bind, hD0, hD1,
    F _ 0 (by decide), ok_bind, F _ 1 (by decide), ok_bind,
    G _ 0 (by decide), ok_bind, G _ 1 (by decide), ok_bind,
    F _ 2 (by decide), ok_bind, F _ 3 (by decide), ok_bind,
    G _ 2 (by decide), ok_bind, G _ 3 (by decide), ok_bind,
    F _ 4 (by decide), ok_bind, F _ 5 (by decide), ok_bind,
    G _ 4 (by decide), ok_bind, G _ 5 (by decide), ok_bind,
    F _ 6 (by decide), ok_bind, F _ 7 (by decide), ok_bind,
    G _ 6 (by decide), ok_bind, G _ 7 (by decide), ok_bind,
    F _ 8 (by decide), ok_bind, F _ 9 (by decide), ok_bind,
    putUint32_cons, ok_bind, sliceFrom4, ok_bind, putUint32_cons, ok_bind,
    bigEndianBytes_eq, bigEndianBytes_eq]
  rfl

/-- `New` followed by `Encrypt`, through the evaluation aids. -/
theorem New_Encrypt_fast (key : List Nat) (hlen : key.length = 16) :
    ∃ c, New key = .ok (some c, none) ∧
      ∀ b0 b1 b2 b3 b4 b5 b6 b7 c0 c1 c2 c3 c4 c5 c6 c7 : Nat,
        Encrypt c [c0, c1, c2, c3, c4, c5, c6, c7] [b0, b1, b2, b3, b4, b5, b6, b7]
          = .ok (encryptBytesFast key b0 b1 b2 b3 b4 b5 b6 b7) := by
  obtain ⟨h1, h2⟩ := ekFast_wf key hlen
  refine ⟨⟨ekFast key⟩, New_fast hlen, ?_⟩
  intro b0 b1 b2 b3 b4 b5 b6 b7 c0 c1 c2 c3 c4 c5 c6 c7
  exact Encrypt_fast ⟨ekFast key⟩ h1 h2 b0 b1 b2 b3 b4 b5 b6 b7 c0 c1 c2 c3 c4 c5 c6 c7

theorem flipKeyBit_length (key : List Nat) (j : Nat) :
    (flipKeyBit key j).length = key.length := by
  simp [flipKeyBit]

/-- C11: avalanche on the reference vector.  With the key `00 11 .. ff` and
the block `01 23 45 67 89 ab cd ef`, `Encrypt` writes `8b 1d a5 f5 6a b3 d0 7c`;
for each of the 128 key bit positions `j`, `New` on the key with that single
bit flipped followed by `Encrypt` of the same block writes a ciphertext that
differs from it in at least two bit positions. -/
theorem avalanche_reference_vector (j : Nat) (hj : j < 128) :
    ∃ c0 c ct,
      New [0x00, 0x11, 0x22, 0x33, 0x44, 0x55, 0x66, 0x77,
          0x88, 0x99, 0xaa, 0xbb, 0xcc, 0xdd, 0xee, 0xff] = .ok (some c0, none) ∧
      Encrypt c0 [0, 0, 0, 0, 0, 0, 0, 0] [0x01, 0x23, 0x45, 0x67, 0x89, 0xab, 0xcd, 0xef]
        = .ok [0x8b, 0x1d, 0xa5, 0xf5, 0x6a, 0xb3, 0xd0, 0x7c] ∧
      New (flipKeyBit [0x00, 0x11, 0x22, 0x33, 0x44, 0x55, 0x66, 0x77,
          0x88, 0x99, 0xaa, 0xbb, 0xcc, 0xdd, 0xee, 0xff] j) = .ok (some c, none) ∧
      Encrypt c [0, 0, 0, 0, 0, 0, 0, 0] [0x01, 0x23, 0x45, 0x67, 0x89, 0xab, 0xcd, 0xef]
        = .ok ct ∧
      2 ≤ bitDistance ct [0x8b, 0x1d, 0xa5, 0xf5, 0x6a, 0xb3, 0xd0, 0x7c] := by
  have H0 : encryptBytesFast [0x00, 0x11, 0x22, 0x33, 0x44, 0x55, 0x66, 0x77,
      0x88, 0x99, 0xaa, 0xbb, 0xcc, 0xdd, 0xee, 0xff] 0x01 0x23 0x45 0x67 0x89 0xab 0xcd 0xef
      = [0x8b, 0x1d, 0xa5, 0xf5, 0x6a, 0xb3, 0xd0, 0x7c] := by decide!
  have H : ∀ i, i < 128 →
      2 ≤ bitDistance (encryptBytesFast (flipKeyBit [0x00, 0x11, 0x22, 0x33, 0x44, 0x55,
        0x66, 0x77, 0x88, 0x99, 0xaa, 0xbb, 0xcc, 0xdd, 0xee, 0xff] i)
        0x01 0x23 0x45 0x67 0x89 0xab 0xcd 0xef)
        [0x8b, 0x1d, 0xa5, 0xf5, 0x6a, 0xb3, 0xd0, 0x7c] := by decide!
  obtain ⟨c0, hc0, he0⟩ := New_Encrypt_fast [0x00, 0x11, 0x22, 0x33, 0x44, 0x55,
    0x66, 0x77, 0x88, 0x99, 0xaa, 0xbb, 0xcc, 0xdd, 0xee, 0xff] rfl
  obtain ⟨c, hc, he⟩ := New_Encrypt_fast (flipKeyBit [0x00, 0x11, 0x22, 0x33, 0x44,
    0x55, 0x66, 0x77, 0x88, 0x99, 0xaa, 0xbb, 0xcc, 0xdd, 0xee, 0xff] j)
    (flipKeyBit_length _ j)
  refine ⟨c0, c, _, hc0, ?_, hc, he _ _ _ _ _ _ _ _ _ _ _ _ _ _ _ _, H j hj⟩
  rw [he0, H0]

/-- C11, at the key bit 0. -/
theorem avalanche_reference_vector_witness :
    ∃ c0 c ct,
      New [0x00, 0x11, 0x22, 0x33, 0x44, 0x55, 0x66, 0x77,
          0x88, 0x99, 0xaa, 0xbb, 0xcc, 0xdd, 0xee, 0xff] = .ok (some c0, none) ∧
      Encrypt c0 [0, 0, 0, 0, 0, 0, 0, 0] [0x01, 0x23, 0x45, 0x67, 0x89, 0xab, 0xcd, 0xef]
        = .ok [0x8b, 0x1d, 0xa5, 0xf5, 0x6a, 0xb3, 0xd0, 0x7c] ∧
      New (flipKeyBit [0x00, 0x11, 0x22, 0x33, 0x44, 0x55, 0x66, 0x77,
          0x88, 0x99, 0xaa, 0xbb, 0xcc, 0xdd, 0xee, 0xff] 0) = .ok (some c, none) ∧
      Encrypt c [0, 0, 0, 0, 0, 0, 0, 0] [0x01, 0x23, 0x45, 0x67, 0x89, 0xab, 0xcd, 0xef]
        = .ok ct ∧
      2 ≤ bitDistance ct [0x8b, 0x1d, 0xa5, 0xf5, 0x6a, 0xb3, 0xd0, 0x7c] :=
  avalanche_reference_vector 0 (by decide)

/-! ## `fi` and `fo` against the specification's wording -/

theorem fiSpecFields_lt (fin fkey : Nat) (hfin : fin < 65536) (hkey : fkey < 65536) :
    (fiSpecFields fin fkey).1 < 128 ∧ (fiSpecFields fin fkey).2 < 512 := by
  have h1 : fin / 2 ^ 7 < 512 := by omega
  have h2 : fin % 2 ^ 7 < 128 := by omega
  have hA : s9table.getD (fin / 2 ^ 7) 0 ^^^ fin % 2 ^ 7 < 512 := xor_lt9 (s9_lt h1) (by omega)
  have hB : (s7table.getD (fin % 2 ^ 7) 0 ^^^
      (s9table.getD (fin / 2 ^ 7) 0 ^^^ fin % 2 ^ 7)) % 2 ^ 7 ^^^ fkey / 2 ^ 9 < 128 :=
    xor_lt7 (by omega) (by omega)
  have hC : s9table.getD ((s9table.getD (fin / 2 ^ 7) 0 ^^^ fin % 2 ^ 7) ^^^ fkey % 2 ^ 9) 0
      < 512 := s9_lt (xor_lt9 hA (by omega))
  exact ⟨hB, xor_lt9 hC (by omega)⟩

theorem fi_eq_fiSpec (fin fkey : Nat) (hfin : fin < 65536) (hkey : fkey < 65536) :
    fi fin fkey = .ok (fiSpec fin fkey) := by
  obtain ⟨l7, l9⟩ := fiSpecFields_lt fin fkey hfin hkey
  have e : (((fiSpecFields fin fkey).1 <<< 9) % 65536) ||| (fiSpecFields fin fkey).2
      = fiSpec fin fkey := by
    unfold fiSpec
    rw [Nat.mod_eq_of_lt (by rw [Nat.shiftLeft_eq]; omega)]
  rw [fi_eq fin fkey hfin, ← e]
  simp only [fiSpecFields, Nat.shiftRight_eq_div_pow, and_7f, and_1ff]
  rfl


theorem fiSpec_lt (fin fkey : Nat) (hfin : fin < 65536) (hkey : fkey < 65536) :
    fiSpec fin fkey < 65536 :=
  fi_lt hfin hkey (fi_eq_fiSpec fin fkey hfin hkey)

theorem fo_eq_foSpec (m : misty1cipher) (hlen : m.ek.length = 32)
    (hek : ∀ x ∈ m.ek, x < 65536) (x k : Nat) (hk : k < 8) (hx : x < 4294967296) :
    fo m x k = .ok (foSpec (fun i => m.ek.getD i 0) x k) := by
  have i0 : k < m.ek.length := by omega
  have i1 : (k + 5) % 8 + 8 < m.ek.length := by omega
  have i2 : (k + 2) % 8 < m.ek.length := by omega
  have i3 : (k + 1) % 8 + 8 < m.ek.length := by omega
  have i4 : (k + 7) % 8 < m.ek.length := by omega
  have i5 : (k + 3) % 8 + 8 < m.ek.length := by omega
  have i6 : (k + 4) % 8 < m.ek.length := by omega
  have e0 : (x >>> 16) % 65536 = x / 2 ^ 16 := by
    rw [Nat.shiftRight_eq_div_pow]; omega
  have e1 : (x &&& 0xffff) % 65536 = x % 2 ^ 16 := by
    rw [and_ffff]; omega
  have t0 : x / 2 ^ 16 < 65536 := by omega
  have t1 : x % 2 ^ 16 < 65536 := by omega
  have b0 : x / 2 ^ 16 ^^^ m.ek.getD k 0 < 65536 := xor_lt16 t0 (ek_lt hek i0)
  have h1 := fi_eq_fiSpec _ _ b0 (ek_lt hek i1)
  have l1 := fiSpec_lt _ _ b0 (ek_lt hek i1)
  have b1 : x % 2 ^ 16 ^^^ m.ek.getD ((k + 2) % 8) 0 < 65536 := xor_lt16 t1 (ek_lt hek i2)
  have h2 := fi_eq_fiSpec _ _ b1 (ek_lt hek i3)
  have l2 := fiSpec_lt _ _ b1 (ek_lt hek i3)
  have c0 := xor_lt16 l1 t1
  have b2 := xor_lt16 c0 (ek_lt hek i4)
  have h3 := fi_eq_fiSpec _ _ b2 (ek_lt hek i5)
  have c1 := xor_lt16 l2 c0
  have c2 := xor_lt16 c1 (ek_lt hek i6)
  simp only [fo, load_ok i0, load_ok i1, load_ok i2, load_ok i3, load_ok i4, load_ok i5,
    load_ok i6, ok_bind, pure_eq_ok, e0, e1, h1, h2, h3]
  rw [Nat.mod_eq_of_lt (by rw [Nat.shiftLeft_eq]; omega)]
  rfl

/-- C12: the table look-ups of `fi` are always in range.  For every 16-bit
`fin` and every `fkey`, the index `fin & 0x7f` of the `s7table` look-up is
below 128, the index `fin >> 7` of the first `s9table` look-up is below 512,
and the index `(s9table[fin>>7] ^ (fin & 0x7f)) ^ (fkey & 0x1ff)` of the second
`s9table` look-up, which the code does not mask, is below 512 as well; the
three look-ups succeed and `fi` returns the value built from them. -/
theorem fi_lookups_in_range (fin fkey : Nat) (hfin : fin < 65536) :
    fin &&& 0x7f < 128 ∧ fin >>> 7 < 512 ∧
    ∃ a b c,
      load s9table (fin >>> 7) = .ok a ∧ a < 512 ∧
      load s7table (fin &&& 0x7f) = .ok b ∧ b < 128 ∧
      (a ^^^ (fin &&& 0x7f)) ^^^ (fkey &&& 0x1ff) < 512 ∧
      load s9table ((a ^^^ (fin &&& 0x7f)) ^^^ (fkey &&& 0x1ff)) = .ok c ∧
      fi fin fkey = .ok
        ((((((b ^^^ (a ^^^ (fin &&& 0x7f))) &&& 0x7f) ^^^ (fkey >>> 9)) <<< 9) % 65536) |||
          (c ^^^ (((b ^^^ (a ^^^ (fin &&& 0x7f))) &&& 0x7f) ^^^ (fkey >>> 9)))) := by
  have h1 : fin >>> 7 < 512 := by rw [Nat.shiftRight_eq_div_pow]; omega
  have h2 : fin &&& 0x7f < 128 := by rw [and_7f]; omega
  have h3 : (s9table.getD (fin >>> 7) 0 ^^^ (fin &&& 0x7f)) ^^^ (fkey &&& 0x1ff) < 512 :=
    xor_lt9 (fi_stage1_lt hfin) (by rw [and_1ff]; omega)
  exact ⟨h2, h1, _, _, _, load_ok (by rw [s9table_length]; exact h1), s9_lt h1,
    load_ok (by rw [s7table_length]; exact h2), s7_lt h2, h3,
    load_ok (by rw [s9table_length]; exact h3), fi_eq fin fkey hfin⟩

/-- C12, at `fin = 0xffff`, `fkey = 0xffff`. -/
theorem fi_lookups_in_range_witness :
    0xffff &&& 0x7f < 128 ∧ 0xffff >>> 7 < 512 ∧
    ∃ a b c,
      load s9table (0xffff >>> 7) = .ok a ∧ a < 512 ∧
      load s7table (0xffff &&& 0x7f) = .ok b ∧ b < 128 ∧
      (a ^^^ (0xffff &&& 0x7f)) ^^^ (0xffff &&& 0x1ff) < 512 ∧
      load s9table ((a ^^^ (0xffff &&& 0x7f)) ^^^ (0xffff &&& 0x1ff)) = .ok c ∧
      fi 0xffff 0xffff = .ok
        ((((((b ^^^ (a ^^^ (0xffff &&& 0x7f))) &&& 0x7f) ^^^ (0xffff >>> 9)) <<< 9) % 65536) |||
          (c ^^^ (((b ^^^ (a ^^^ (0xffff &&& 0x7f))) &&& 0x7f) ^^^ (0xffff >>> 9)))) :=
  fi_lookups_in_range 0xffff 0xffff (by decide)

/-- C13: `fi` is the specified algorithm.  For every 16-bit `fin` and `fkey`,
`fi` returns the output `(d7 << 9) | d9` of the specification's FI, whose
final fields satisfy `d7 < 128` and `d9 < 512`; the two fields do not overlap
(the output is `d7 * 512 + d9`) and the output is below `2^16`, so the 16-bit
result of the code loses nothing. -/
theorem fi_eq_specification (fin fkey : Nat) (hfin : fin < 65536) (hkey : fkey < 65536) :
    fi fin fkey = .ok (fiSpec fin fkey) ∧
    (fiSpecFields fin fkey).1 < 128 ∧ (fiSpecFields fin fkey).2 < 512 ∧
    fiSpec fin fkey = (fiSpecFields fin fkey).1 * 512 + (fiSpecFields fin fkey).2 ∧
    fiSpec fin fkey < 65536 := by
  obtain ⟨l7, l9⟩ := fiSpecFields_lt fin fkey hfin hkey
  refine ⟨fi_eq_fiSpec fin fkey hfin hkey, l7, l9, ?_, fiSpec_lt fin fkey hfin hkey⟩
  unfold fiSpec
  exact shl_or_eq_add _ _ 9 l9

/-- C13, at `fin = 0x1234`, `fkey = 0xabcd`. -/
theorem fi_eq_specification_witness :
    fi 0x1234 0xabcd = .ok (fiSpec 0x1234 0xabcd) ∧
    (fiSpecFields 0x1234 0xabcd).1 < 128 ∧ (fiSpecFields 0x1234 0xabcd).2 < 512 ∧
    fiSpec 0x1234 0xabcd
      = (fiSpecFields 0x1234 0xabcd).1 * 512 + (fiSpecFields 0x1234 0xabcd).2 ∧
    fiSpec 0x1234 0xabcd < 65536 :=
  fi_eq_specification 0x1234 0xabcd (by decide) (by decide)

/-- C14: `fo` is the specified algorithm.  For every array `EK` of 32 subkeys
of 16 bits, every `k` in `0..7` and every 32-bit input, `fo` returns the
output of the specification's FO: with `t0` the high and `t1` the low 16 bits,
`t0 ^= EK[k]; t0 = FI(t0, EK[(k+5)%8+8]); t0 ^= t1; t1 ^= EK[(k+2)%8];
t1 = FI(t1, EK[(k+1)%8+8]); t1 ^= t0; t0 ^= EK[(k+7)%8];
t0 = FI(t0, EK[(k+3)%8+8]); t0 ^= t1; t1 ^= EK[(k+4)%8]`, output
`(t1 << 16) | t0`. -/
theorem fo_eq_specification (m : misty1cipher) (hlen : m.ek.length = 32)
    (hek : ∀ x ∈ m.ek, x < 65536) (fin k : Nat) (hk : k ≤ 7) (hfin : fin < 4294967296) :
    fo m fin k = .ok (foSpec (fun i => m.ek.getD i 0) fin k) :=
  fo_eq_foSpec m hlen hek fin k (by omega) hfin

/-- C14, at an array of 32 subkeys, `k = 5` and a 32-bit input. -/
theorem fo_eq_specification_witness :
    fo ⟨[0x0011, 0x2233, 0x4455, 0x6677, 0x8899, 0xaabb, 0xccdd, 0xeeff,
        0xcf51, 0x8e7f, 0x5e29, 0x673a, 0xcdbc, 0x07d6, 0xbf35, 0x5e11,
        0x0151, 0x007f, 0x0029, 0x013a, 0x01bc, 0x01d6, 0x0135, 0x0011,
        0x0067, 0x0047, 0x002f, 0x0033, 0x0066, 0x0003, 0x005f, 0x002f]⟩ 0x89abcdef 5
    = .ok (foSpec (fun i =>
        [0x0011, 0x2233, 0x4455, 0x6677, 0x8899, 0xaabb, 0xccdd, 0xeeff,
          0xcf51, 0x8e7f, 0x5e29, 0x673a, 0xcdbc, 0x07d6, 0xbf35, 0x5e11,
          0x0151, 0x007f, 0x0029, 0x013a, 0x01bc, 0x01d6, 0x0135, 0x0011,
          0x0067, 0x0047, 0x002f, 0x0033, 0x0066, 0x0003, 0x005f, 0x002f].getD i 0)
        0x89abcdef 5) :=
  fo_eq_specification ⟨[0x0011, 0x2233, 0x4455, 0x6677, 0x8899, 0xaabb, 0xccdd, 0xeeff,
      0xcf51, 0x8e7f, 0x5e29, 0x673a, 0xcdbc, 0x07d6, 0xbf35, 0x5e11,
      0x0151, 0x007f, 0x0029, 0x013a, 0x01bc, 0x01d6, 0x0135, 0x0011,
      0x0067, 0x0047, 0x002f, 0x0033, 0x0066, 0x0003, 0x005f, 0x002f]⟩
    (by decide) (by decide) 0x89abcdef 5 (by decide) (by decide)

/-! ## The last round pair and the subkey groups -/

/-- C15, as stated, fails on the reference vector: under the key `00 11 .. ff`
`Encrypt` of `01 23 45 67 89 ab cd ef` writes `8b 1d a5 f5 6a b3 d0 7c`, while
the sequence that skips `d0 ^= FO(d1,7)` gives `8b 1d a5 f5 92 4d ad dc`. -/
theorem Encrypt_ne_skippingSequence :
    ∃ c,
      New [0x00, 0x11, 0x22, 0x33, 0x44, 0x55, 0x66, 0x77,
          0x88, 0x99, 0xaa, 0xbb, 0xcc, 0xdd, 0xee, 0xff] = .ok (some c, none) ∧
      Encrypt c [0, 0, 0, 0, 0, 0, 0, 0] [0x01, 0x23, 0x45, 0x67, 0x89, 0xab, 0xcd, 0xef]
        = .ok [0x8b, 0x1d, 0xa5, 0xf5, 0x6a, 0xb3, 0xd0, 0x7c] ∧
      sequenceBytes skippingSequence c 0x01 0x23 0x45 0x67 0x89 0xab 0xcd 0xef
        = .ok [0x8b, 0x1d, 0xa5, 0xf5, 0x92, 0x4d, 0xad, 0xdc] ∧
      Encrypt c [0, 0, 0, 0, 0, 0, 0, 0] [0x01, 0x23, 0x45, 0x67, 0x89, 0xab, 0xcd, 0xef]
        ≠ sequenceBytes skippingSequence c 0x01 0x23 0x45 0x67 0x89 0xab 0xcd 0xef := by
  have hE : Encrypt ⟨ekFast [0x00, 0x11, 0x22, 0x33, 0x44, 0x55, 0x66, 0x77,
        0x88, 0x99, 0xaa, 0xbb, 0xcc, 0xdd, 0xee, 0xff]⟩ [0, 0, 0, 0, 0, 0, 0, 0]
      [0x01, 0x23, 0x45, 0x67, 0x89, 0xab, 0xcd, 0xef]
      = .ok [0x8b, 0x1d, 0xa5, 0xf5, 0x6a, 0xb3, 0xd0, 0x7c] := by
    have wf := ekFast_wf [0x00, 0x11, 0x22, 0x33, 0x44, 0x55, 0x66, 0x77,
      0x88, 0x99, 0xaa, 0xbb, 0xcc, 0xdd, 0xee, 0xff] rfl
    exact (Encrypt_fast ⟨ekFast [0x00, 0x11, 0x22, 0x33, 0x44, 0x55, 0x66, 0x77,
      0x88, 0x99, 0xaa, 0xbb, 0xcc, 0xdd, 0xee, 0xff]⟩ wf.1 wf.2
      0x01 0x23 0x45 0x67 0x89 0xab 0xcd 0xef 0 0 0 0 0 0 0 0).trans
      (congrArg Except.ok (by decide!))
  have hS : sequenceBytes skippingSequence ⟨ekFast [0x00, 0x11, 0x22, 0x33, 0x44, 0x55,
        0x66, 0x77, 0x88, 0x99, 0xaa, 0xbb, 0xcc, 0xdd, 0xee, 0xff]⟩
      0x01 0x23 0x45 0x67 0x89 0xab 0xcd 0xef
      = .ok [0x8b, 0x1d, 0xa5, 0xf5, 0x92, 0x4d, 0xad, 0xdc] := by decide!
  refine ⟨_, New_fast rfl, hE, hS, ?_⟩
  rw [hE, hS]
  decide

/-- C15 amended: the last round pair is complete.  For every 16-byte key and
every eight source bytes, `Encrypt` under the instance built by `New` writes
what the specification's full sequence gives, and that sequence is the
skipping one with the step `d0 ^= FO(d1,7)` put back after `d1 ^= FO(d0,6)`,
before the closing `FL(d0,8); FL(d1,9)`. -/
theorem Encrypt_applies_final_FO (key dst : List Nat) (hkey : key.length = 16)
    (hdst : dst.length = 8) (b0 b1 b2 b3 b4 b5 b6 b7 : Nat)
    (hbytes : ∀ b ∈ [b0, b1, b2, b3, b4, b5, b6, b7], b < 256) :
    specSequence = skippingSequence.take 15 ++ [SpecStep.foIntoD0 7] ++
      skippingSequence.drop 15 ∧
    ∃ c, New key = .ok (some c, none) ∧
      Encrypt c dst [b0, b1, b2, b3, b4, b5, b6, b7]
        = sequenceBytes specSequence c b0 b1 b2 b3 b4 b5 b6 b7 := by
  obtain ⟨c, hc, hlen, hek⟩ := New_wf hkey
  obtain ⟨c0, c1, c2, c3, c4, c5, c6, c7, rfl⟩ := list8 hdst
  refine ⟨by decide, c, hc, ?_⟩
  exact Encrypt_eq_spec_cons c hlen hek b0 b1 b2 b3 b4 b5 b6 b7
    (hbytes _ (by simp)) (hbytes _ (by simp)) (hbytes _ (by simp)) (hbytes _ (by simp))
    (hbytes _ (by simp)) (hbytes _ (by simp)) (hbytes _ (by simp)) (hbytes _ (by simp))
    c0 c1 c2 c3 c4 c5 c6 c7

/-- C15 amended, at the reference vector. -/
theorem Encrypt_applies_final_FO_witness :
    specSequence = skippingSequence.take 15 ++ [SpecStep.foIntoD0 7] ++
      skippingSequence.drop 15 ∧
    ∃ c, New [0x00, 0x11, 0x22, 0x33, 0x44, 0x55, 0x66, 0x77,
        0x88, 0x99, 0xaa, 0xbb, 0xcc, 0xdd, 0xee, 0xff] = .ok (some c, none) ∧
      Encrypt c [0, 0, 0, 0, 0, 0, 0, 0] [0x01, 0x23, 0x45, 0x67, 0x89, 0xab, 0xcd, 0xef]
        = sequenceBytes specSequence c 0x01 0x23 0x45 0x67 0x89 0xab 0xcd 0xef :=
  Encrypt_applies_final_FO
    [0x00, 0x11, 0x22, 0x33, 0x44, 0x55, 0x66, 0x77,
      0x88, 0x99, 0xaa, 0xbb, 0xcc, 0xdd, 0xee, 0xff]
    [0, 0, 0, 0, 0, 0, 0, 0] (by decide) (by decide)
    0x01 0x23 0x45 0x67 0x89 0xab 0xcd 0xef (by decide)

/-- C16, as stated, fails at `k = 0`: the index `(0/2+6)%8+8` is 14, which is
not in `16..23`, and entry 14 is the one that `fl` and `flinv` read: changing
entry 14 alone changes their results. -/
theorem flOrIndex_not_in_16_23 :
    flOrIndex 0 = 14 ∧ ¬ (16 ≤ flOrIndex 0 ∧ flOrIndex 0 ≤ 23) ∧
    fl ⟨List.replicate 32 0⟩ 0 0 = .ok 0 ∧
    fl ⟨(List.replicate 32 0).set 14 1⟩ 0 0 = .ok 0x10000 ∧
    flinv ⟨List.replicate 32 0⟩ 0 0 = .ok 0 ∧
    flinv ⟨(List.replicate 32 0).set 14 1⟩ 0 0 = .ok 0x10000 := by
  decide

/-- C16 amended: for every even round index `k` in `{0,2,4,6,8}` the subkey
that `fl` and `flinv` OR with `d1` before XORing into `d0`,
`EK[(k/2+6)%8+8]`, is a subkey from the `8..15` group: its index lies in
`8..15`, and it is the entry that `fl` and `flinv` use. -/
theorem flOrIndex_in_8_15 (m : misty1cipher) (hlen : m.ek.length = 32) (k x : Nat)
    (hk : k ∈ [0, 2, 4, 6, 8]) :
    8 ≤ flOrIndex k ∧ flOrIndex k ≤ 15 ∧
    fl m x k = .ok
      (((((x >>> 16) % 65536 ^^^
          (((x &&& 0xffff) % 65536 ^^^ ((x >>> 16) % 65536 &&& m.ek.getD (k / 2) 0)) |||
            m.ek.getD (flOrIndex k) 0)) <<< 16) % 4294967296) |||
        ((x &&& 0xffff) % 65536 ^^^ ((x >>> 16) % 65536 &&& m.ek.getD (k / 2) 0))) ∧
    flinv m x k = .ok
      ((((x >>> 16) % 65536 ^^^ ((x &&& 0xffff) % 65536 ||| m.ek.getD (flOrIndex k) 0))
          <<< 16) % 4294967296 |||
        ((x &&& 0xffff) % 65536 ^^^
          (((x >>> 16) % 65536 ^^^ ((x &&& 0xffff) % 65536 ||| m.ek.getD (flOrIndex k) 0))
            &&& m.ek.getD (k / 2) 0))) := by
  have hk10 : k < 10 := by
    simp only [List.mem_cons, List.mem_nil_iff, or_false] at hk
    omega
  have hpar : k &&& 1 = 0 := by
    simp only [List.mem_cons, List.mem_nil_iff, or_false] at hk
    rcases hk with rfl | rfl | rfl | rfl | rfl <;> decide
  refine ⟨by unfold flOrIndex; omega, by unfold flOrIndex; omega, ?_, ?_⟩
  · rw [fl_eq m hlen x k hk10, if_pos hpar]
    rfl
  · rw [flinv_eq m hlen x k hk10, if_pos hpar]
    rfl

/-- C16 amended, at an array of 32 subkeys, `k = 4` and a 32-bit value. -/
theorem flOrIndex_in_8_15_witness :
    8 ≤ flOrIndex 4 ∧ flOrIndex 4 ≤ 15 :=
  have h := flOrIndex_in_8_15 ⟨[0x0011, 0x2233, 0x4455, 0x6677, 0x8899, 0xaabb, 0xccdd,
      0xeeff, 0xcf51, 0x8e7f, 0x5e29, 0x673a, 0xcdbc, 0x07d6, 0xbf35, 0x5e11,
      0x0151, 0x007f, 0x0029, 0x013a, 0x01bc, 0x01d6, 0x0135, 0x0011,
      0x0067, 0x0047, 0x002f, 0x0033, 0x0066, 0x0003, 0x005f, 0x002f]⟩ (by decide)
    4 0x01234567 (by decide)
  ⟨h.1, h.2.1⟩

/-! ## `Encrypt` after `Decrypt` -/

/-- The two updates of `flinv` followed by the two updates of `fl` give back
the halves. -/
theorem flinv_fl_halves {x b : Nat} (a : Nat) (hx : x < 4294967296) (hb : b < 65536) :
    let d0 := (x >>> 16) % 65536
    let d1 := (x &&& 0xffff) % 65536
    let e0 := d0 ^^^ (d1 ||| b)
    let e1 := d1 ^^^ (e0 &&& a)
    let y := ((e0 <<< 16) % 4294967296) ||| e1
    let f1 := (y &&& 0xffff) % 65536 ^^^ ((y >>> 16) % 65536 &&& a)
    let f0 := (y >>> 16) % 65536 ^^^ (f1 ||| b)
    y < 4294967296 ∧ ((f0 <<< 16) % 4294967296) ||| f1 = x := by
  intro d0 d1 e0 e1 y f1 f0
  have hd0 : d0 < 65536 := hi16_lt x
  have hd1 : d1 < 65536 := lo16_lt x
  have he0 : e0 < 65536 := xor_lt16 hd0 (or_lt16 hd1 hb)
  have he1 : e1 < 65536 := xor_lt16 hd1 (and_lt16 a he0)
  have hyh : (y >>> 16) % 65536 = e0 := pack16_hi he0 he1
  have hyl : (y &&& 0xffff) % 65536 = e1 := pack16_lo he0 he1
  have hf1 : f1 = d1 := by
    show (y &&& 0xffff) % 65536 ^^^ ((y >>> 16) % 65536 &&& a) = d1
    rw [hyh, hyl]
    exact Nat.xor_cancel_right _ _
  have hf0 : f0 = d0 := by
    show (y >>> 16) % 65536 ^^^ (f1 ||| b) = d0
    rw [hyh, hf1]
    exact Nat.xor_cancel_right _ _
  refine ⟨pack16_lt he0 he1, ?_⟩
  rw [hf0, hf1]
  exact split16 hx

theorem flinv_fl (m : misty1cipher) (hlen : m.ek.length = 32)
    (hek : ∀ x ∈ m.ek, x < 65536) (x k : Nat) (hk : k < 10) (hx : x < 4294967296) :
    ∃ y, flinv m x k = .ok y ∧ y < 4294967296 ∧ fl m y k = .ok x := by
  have h2 : (k / 2 + 6) % 8 + 8 < m.ek.length := by omega
  have h4 : ((k - 1) / 2 + 4) % 8 < m.ek.length := by omega
  refine ⟨_, flinv_eq m hlen x k hk, ?_⟩
  rw [fl_eq m hlen _ k hk]
  by_cases hpar : k &&& 1 = 0
  · simp only [hpar, if_true]
    have := flinv_fl_halves (m.ek.getD (k / 2) 0) hx (ek_lt hek h2)
    exact ⟨this.1, congrArg Except.ok this.2⟩
  · simp only [hpar, if_false]
    have := flinv_fl_halves (m.ek.getD (((k - 1) / 2 + 2) % 8 + 8) 0) hx (ek_lt hek h4)
    exact ⟨this.1, congrArg Except.ok this.2⟩

/-- The bytes read by `Decrypt`, the bytes written, and the way back through
`Encrypt`. -/
theorem Decrypt_Encrypt_cons (m : misty1cipher) (hlen : m.ek.length = 32)
    (hek : ∀ x ∈ m.ek, x < 65536) (b0 b1 b2 b3 b4 b5 b6 b7 : Nat)
    (h0 : b0 < 256) (h1 : b1 < 256) (h2 : b2 < 256) (h3 : b3 < 256)
    (h4 : b4 < 256) (h5 : b5 < 256) (h6 : b6 < 256) (h7 : b7 < 256)
    (c0 c1 c2 c3 c4 c5 c6 c7 : Nat) :
    ∃ e0 e1,
      Decrypt m [c0, c1, c2, c3, c4, c5, c6, c7] [b0, b1, b2, b3, b4, b5, b6, b7]
        = .ok [(e0 >>> 24) % 256, (e0 >>> 16) % 256, (e0 >>> 8) % 256, e0 % 256,
            (e1 >>> 24) % 256, (e1 >>> 16) % 256, (e1 >>> 8) % 256, e1 % 256] ∧
      ∀ t0 t1 t2 t3 t4 t5 t6 t7 : Nat,
        Encrypt m [t0, t1, t2, t3, t4, t5, t6, t7]
          [(e0 >>> 24) % 256, (e0 >>> 16) % 256, (e0 >>> 8) % 256, e0 % 256,
            (e1 >>> 24) % 256, (e1 >>> 16) % 256, (e1 >>> 8) % 256, e1 % 256]
          = .ok [b0, b1, b2, b3, b4, b5, b6, b7] := by
  have lD1 := be32_lt h0 h1 h2 h3
  have lD0 := be32_lt h4 h5 h6 h7
  have eD1 := bytes_be32 h0 h1 h2 h3 _ rfl
  have eD0 := bytes_be32 h4 h5 h6 h7 _ rfl
  generalize hD1 : b3 ||| ((b2 <<< 8) % 4294967296) ||| ((b1 <<< 16) % 4294967296)
    ||| ((b0 <<< 24) % 4294967296) = D1 at lD1 eD1
  generalize hD0 : b7 ||| ((b6 <<< 8) % 4294967296) ||| ((b5 <<< 16) % 4294967296)
    ||| ((b4 <<< 24) % 4294967296) = D0 at lD0 eD0
  obtain ⟨x8, ix8, lx8, fx8⟩ := flinv_fl m hlen hek D0 8 (by decide) lD0
  obtain ⟨x9, ix9, lx9, fx9⟩ := flinv_fl m hlen hek D1 9 (by decide) lD1
  obtain ⟨y7, gy7, ly7⟩ := fo_total m hlen hek x9 7 (by decide)
  obtain ⟨y6, gy6, ly6⟩ := fo_total m hlen hek (x8 ^^^ y7) 6 (by decide)
  obtain ⟨x6, ix6, lx6, fx6⟩ := flinv_fl m hlen hek (x8 ^^^ y7) 6 (by decide) (xor_lt32 lx8 ly7)
  obtain ⟨x7, ix7, lx7, fx7⟩ := flinv_fl m hlen hek (x9 ^^^ y6) 7 (by decide) (xor_lt32 lx9 ly6)
  obtain ⟨y5, gy5, ly5⟩ := fo_total m hlen hek x7 5 (by decide)
  obtain ⟨y4, gy4, ly4⟩ := fo_total m hlen hek (x6 ^^^ y5) 4 (by decide)
  obtain ⟨x4, ix4, lx4, fx4⟩ := flinv_fl m hlen hek (x6 ^^^ y5) 4 (by decide) (xor_lt32 lx6 ly5)
  obtain ⟨x5, ix5, lx5, fx5⟩ := flinv_fl m hlen hek (x7 ^^^ y4) 5 (by decide) (xor_lt32 lx7 ly4)
  obtain ⟨y3, gy3, ly3⟩ := fo_total m hlen hek x5 3 (by decide)
  obtain ⟨y2, gy2, ly2⟩ := fo_total m hlen hek (x4 ^^^ y3) 2 (by decide)
  obtain ⟨x2, ix2, lx2, fx2⟩ := flinv_fl m hlen hek (x4 ^^^ y3) 2 (by decide) (xor_lt32 lx4 ly3)
  obtain ⟨x3, ix3, lx3, fx3⟩ := flinv_fl m hlen hek (x5 ^^^ y2) 3 (by decide) (xor_lt32 lx5 ly2)
  obtain ⟨y1, gy1, ly1⟩ := fo_total m hlen hek x3 1 (by decide)
  obtain ⟨y0, gy0, ly0⟩ := fo_total m hlen hek (x2 ^^^ y1) 0 (by decide)
  obtain ⟨x0, ix0, lx0, fx0⟩ := flinv_fl m hlen hek (x2 ^^^ y1) 0 (by decide) (xor_lt32 lx2 ly1)
  obtain ⟨x1, ix1, lx1, fx1⟩ := flinv_fl m hlen hek (x3 ^^^ y0) 1 (by decide) (xor_lt32 lx3 ly0)
  refine ⟨x0, x1, ?_, ?_⟩
  · unfold Decrypt
    dsimp only
    rw [getUint32_cons, ok_bind, sliceFrom4, ok_bind, getUint32_cons, ok_bind, hD0, hD1,
      ix8, ok_bind, ix9, ok_bind, gy7, ok_bind, gy6, ok_bind,
      ix6, ok_bind, ix7, ok_bind, gy5, ok_bind, gy4, ok_bind,
      ix4, ok_bind, ix5, ok_bind, gy3, ok_bind, gy2, ok_bind,
      ix2, ok_bind, ix3, ok_bind, gy1, ok_bind, gy0, ok_bind,
      ix0, ok_bind, ix1, ok_bind,
      putUint32_cons, ok_bind, sliceFrom4, ok_bind, putUint32_cons, ok_bind]
    rfl
  · intro t0 t1 t2 t3 t4 t5 t6 t7
    unfold Encrypt
    dsimp only
    rw [getUint32_bytes lx0, ok_bind, sliceFrom4, ok_bind, getUint32_bytes lx1, ok_bind,
      fx0, ok_bind, fx1, ok_bind, gy0, ok_bind, Nat.xor_cancel_right, gy1, ok_bind,
      Nat.xor_cancel_right,
      fx2, ok_bind, fx3, ok_bind, gy2, ok_bind, Nat.xor_cancel_right, gy3, ok_bind,
      Nat.xor_cancel_right,
      fx4, ok_bind, fx5, ok_bind, gy4, ok_bind, Nat.xor_cancel_right, gy5, ok_bind,
      Nat.xor_cancel_right,
      fx6, ok_bind, fx7, ok_bind, gy6, ok_bind, Nat.xor_cancel_right, gy7, ok_bind,
      Nat.xor_cancel_right,
      fx8, ok_bind, fx9, ok_bind,
      putUint32_cons, ok_bind, sliceFrom4, ok_bind, putUint32_cons, ok_bind,
      eD0.1, eD0.2.1, eD0.2.2.1, eD0.2.2.2, eD1.1, eD1.2.1, eD1.2.2.1, eD1.2.2.2]
    rfl

/-- C17: `Encrypt` is a permutation of the 8-byte blocks with `Decrypt` as its
inverse on both sides.  For every array of 32 subkeys of 16 bits, and so for
the instance built by `New` from any 16-byte key, and every 8-byte block `C`,
`Decrypt` succeeds on `C` and `Encrypt` applied to its output yields exactly
`C`. -/
theorem Encrypt_Decrypt_roundtrip (m : misty1cipher) (hlen : m.ek.length = 32)
    (hek : ∀ x ∈ m.ek, x < 65536) (C dst dst' : List Nat)
    (hC : C.length = 8) (hbytes : ∀ b ∈ C, b < 256)
    (hdst : dst.length = 8) (hdst' : dst'.length = 8) :
    (∃ pt, Decrypt m dst C = .ok pt ∧ Encrypt m dst' pt = .ok C) ∧
    (∀ key : List Nat, key.length = 16 →
      ∃ c pt, New key = .ok (some c, none) ∧ Decrypt c dst C = .ok pt ∧
        Encrypt c dst' pt = .ok C) := by
  obtain ⟨b0, b1, b2, b3, b4, b5, b6, b7, rfl⟩ := list8 hC
  obtain ⟨c0, c1, c2, c3, c4, c5, c6, c7, rfl⟩ := list8 hdst
  obtain ⟨t0, t1, t2, t3, t4, t5, t6, t7, rfl⟩ := list8 hdst'
  have core : ∀ c : misty1cipher, c.ek.length = 32 → (∀ x ∈ c.ek, x < 65536) →
      ∃ pt, Decrypt c [c0, c1, c2, c3, c4, c5, c6, c7] [b0, b1, b2, b3, b4, b5, b6, b7]
          = .ok pt ∧
        Encrypt c [t0, t1, t2, t3, t4, t5, t6, t7] pt
          = .ok [b0, b1, b2, b3, b4, b5, b6, b7] := by
    intro c hl he
    obtain ⟨e0, e1, hD, hE⟩ := Decrypt_Encrypt_cons c hl he b0 b1 b2 b3 b4 b5 b6 b7
      (hbytes _ (by simp)) (hbytes _ (by simp)) (hbytes _ (by simp)) (hbytes _ (by simp))
      (hbytes _ (by simp)) (hbytes _ (by simp)) (hbytes _ (by simp)) (hbytes _ (by simp))
      c0 c1 c2 c3 c4 c5 c6 c7
    exact ⟨_, hD, hE t0 t1 t2 t3 t4 t5 t6 t7⟩
  refine ⟨core m hlen hek, ?_⟩
  intro key hkey
  obtain ⟨c, hc, hl, he⟩ := New_wf hkey
  obtain ⟨pt, h1, h2⟩ := core c hl he
  exact ⟨c, pt, hc, h1, h2⟩

/-- C17, at an array of 32 subkeys and the ciphertext of the reference vector. -/
theorem Encrypt_Decrypt_roundtrip_witness :
    ∃ pt, Decrypt ⟨[0x0011, 0x2233, 0x4455, 0x6677, 0x8899, 0xaabb, 0xccdd, 0xeeff,
          0xcf51, 0x8e7f, 0x5e29, 0x673a, 0xcdbc, 0x07d6, 0xbf35, 0x5e11,
          0x0151, 0x007f, 0x0029, 0x013a, 0x01bc, 0x01d6, 0x0135, 0x0011,
          0x0067, 0x0047, 0x002f, 0x0033, 0x0066, 0x0003, 0x005f, 0x002f]⟩
        [0, 0, 0, 0, 0, 0, 0, 0] [0x8b, 0x1d, 0xa5, 0xf5, 0x6a, 0xb3, 0xd0, 0x7c] = .ok pt ∧
      Encrypt ⟨[0x0011, 0x2233, 0x4455, 0x6677, 0x8899, 0xaabb, 0xccdd, 0xeeff,
          0xcf51, 0x8e7f, 0x5e29, 0x673a, 0xcdbc, 0x07d6, 0xbf35, 0x5e11,
          0x0151, 0x007f, 0x0029, 0x013a, 0x01bc, 0x01d6, 0x0135, 0x0011,
          0x0067, 0x0047, 0x002f, 0x0033, 0x0066, 0x0003, 0x005f, 0x002f]⟩
        [0, 0, 0, 0, 0, 0, 0, 0] pt = .ok [0x8b, 0x1d, 0xa5, 0xf5, 0x6a, 0xb3, 0xd0, 0x7c] :=
  (Encrypt_Decrypt_roundtrip
    ⟨[0x0011, 0x2233, 0x4455, 0x6677, 0x8899, 0xaabb, 0xccdd, 0xeeff,
      0xcf51, 0x8e7f, 0x5e29, 0x673a, 0xcdbc, 0x07d6, 0xbf35, 0x5e11,
      0x0151, 0x007f, 0x0029, 0x013a, 0x01bc, 0x01d6, 0x0135, 0x0011,
      0x0067, 0x0047, 0x002f, 0x0033, 0x0066, 0x0003, 0x005f, 0x002f]⟩
    (by decide) (by decide)
    [0x8b, 0x1d, 0xa5, 0xf5, 0x6a, 0xb3, 0xd0, 0x7c]
    [0, 0, 0, 0, 0, 0, 0, 0] [0, 0, 0, 0, 0, 0, 0, 0]
    (by decide) (by decide) (by decide) (by decide)).1

/-! ## The subkey groups `16..31` are not read -/

theorem load_congr {a b : List Nat} {i : Nat} (h : a[i]? = b[i]?) : load a i = load b i := by
  unfold load
  rw [h]

theorem fo_congr (m1 m2 : misty1cipher) (h : ∀ i, i < 16 → m1.ek[i]? = m2.ek[i]?)
    (x k : Nat) (hk : k < 8) : fo m1 x k = fo m2 x k := by
  have i0 := load_congr (h k (by omega))
  have i1 := load_congr (h ((k + 5) % 8 + 8) (by omega))
  have i2 := load_congr (h ((k + 2) % 8) (by omega))
  have i3 := load_congr (h ((k + 1) % 8 + 8) (by omega))
  have i4 := load_congr (h ((k + 7) % 8) (by omega))
  have i5 := load_congr (h ((k + 3) % 8 + 8) (by omega))
  have i6 := load_congr (h ((k + 4) % 8) (by omega))
  simp only [fo, i0, i1, i2, i3, i4, i5, i6]

theorem fl_congr (m1 m2 : misty1cipher) (h : ∀ i, i < 16 → m1.ek[i]? = m2.ek[i]?)
    (x k : Nat) (hk : k < 10) : fl m1 x k = fl m2 x k := by
  have i1 := load_congr (h (k / 2) (by omega))
  have i2 := load_congr (h ((k / 2 + 6) % 8 + 8) (by omega))
  have i3 := load_congr (h (((k - 1) / 2 + 2) % 8 + 8) (by omega))
  have i4 := load_congr (h (((k - 1) / 2 + 4) % 8) (by omega))
  simp only [fl, i1, i2, i3, i4]

theorem flinv_congr (m1 m2 : misty1cipher) (h : ∀ i, i < 16 → m1.ek[i]? = m2.ek[i]?)
    (x k : Nat) (hk : k < 10) : flinv m1 x k = flinv m2 x k := by
  have i1 := load_congr (h (k / 2) (by omega))
  have i2 := load_congr (h ((k / 2 + 6) % 8 + 8) (by omega))
  have i3 := load_congr (h (((k - 1) / 2 + 2) % 8 + 8) (by omega))
  have i4 := load_congr (h (((k - 1) / 2 + 4) % 8) (by omega))
  simp only [flinv, i1, i2, i3, i4]

theorem Encrypt_congr (m1 m2 : misty1cipher) (h : ∀ i, i < 16 → m1.ek[i]? = m2.ek[i]?)
    (dst src : List Nat) : Encrypt m1 dst src = Encrypt m2 dst src := by
  have f0 : ∀ x, fl m1 x 0 = fl m2 x 0 := fun x => fl_congr m1 m2 h x 0 (by decide)
  have f1 : ∀ x, fl m1 x 1 = fl m2 x 1 := fun x => fl_congr m1 m2 h x 1 (by decide)
  have f2 : ∀ x, fl m1 x 2 = fl m2 x 2 := fun x => fl_congr m1 m2 h x 2 (by decide)
  have f3 : ∀ x, fl m1 x 3 = fl m2 x 3 := fun x => fl_congr m1 m2 h x 3 (by decide)
  have f4 : ∀ x, fl m1 x 4 = fl m2 x 4 := fun x => fl_congr m1 m2 h x 4 (by decide)
  have f5 : ∀ x, fl m1 x 5 = fl m2 x 5 := fun x => fl_congr m1 m2 h x 5 (by decide)
  have f6 : ∀ x, fl m1 x 6 = fl m2 x 6 := fun x => fl_congr m1 m2 h x 6 (by decide)
  have f7 : ∀ x, fl m1 x 7 = fl m2 x 7 := fun x => fl_congr m1 m2 h x 7 (by decide)
  have f8 : ∀ x, fl m1 x 8 = fl m2 x 8 := fun x => fl_congr m1 m2 h x 8 (by decide)
  have f9 : ∀ x, fl m1 x 9 = fl m2 x 9 := fun x => fl_congr m1 m2 h x 9 (by decide)
  have g0 : ∀ x, fo m1 x 0 = fo m2 x 0 := fun x => fo_congr m1 m2 h x 0 (by decide)
  have g1 : ∀ x, fo m1 x 1 = fo m2 x 1 := fun x => fo_congr m1 m2 h x 1 (by decide)
  have g2 : ∀ x, fo m1 x 2 = fo m2 x 2 := fun x => fo_congr m1 m2 h x 2 (by decide)
  have g3 : ∀ x, fo m1 x 3 = fo m2 x 3 := fun x => fo_congr m1 m2 h x 3 (by decide)
  have g4 : ∀ x, fo m1 x 4 = fo m2 x 4 := fun x => fo_congr m1 m2 h x 4 (by decide)
  have g5 : ∀ x, fo m1 x 5 = fo m2 x 5 := fun x => fo_congr m1 m2 h x 5 (by decide)
  have g6 : ∀ x, fo m1 x 6 = fo m2 x 6 := fun x => fo_congr m1 m2 h x 6 (by decide)
  have g7 : ∀ x, fo m1 x 7 = fo m2 x 7 := fun x => fo_congr m1 m2 h x 7 (by decide)
  unfold Encrypt
  dsimp only
  simp only [f0, f1, f2, f3, f4, f5, f6, f7, f8, f9, g0, g1, g2, g3, g4, g5, g6, g7]

theorem Decrypt_congr (m1 m2 : misty1cipher) (h : ∀ i, i < 16 → m1.ek[i]? = m2.ek[i]?)
    (dst src : List Nat) : Decrypt m1 dst src = Decrypt m2 dst src := by
  have f0 : ∀ x, flinv m1 x 0 = flinv m2 x 0 := fun x => flinv_congr m1 m2 h x 0 (by decide)
  have f1 : ∀ x, flinv m1 x 1 = flinv m2 x 1 := fun x => flinv_congr m1 m2 h x 1 (by decide)
  have f2 : ∀ x, flinv m1 x 2 = flinv m2 x 2 := fun x => flinv_congr m1 m2 h x 2 (by decide)
  have f3 : ∀ x, flinv m1 x 3 = flinv m2 x 3 := fun x => flinv_congr m1 m2 h x 3 (by decide)
  have f4 : ∀ x, flinv m1 x 4 = flinv m2 x 4 := fun x => flinv_congr m1 m2 h x 4 (by decide)
  have f5 : ∀ x, flinv m1 x 5 = flinv m2 x 5 := fun x => flinv_congr m1 m2 h x 5 (by decide)
  have f6 : ∀ x, flinv m1 x 6 = flinv m2 x 6 := fun x => flinv_congr m1 m2 h x 6 (by decide)
  have f7 : ∀ x, flinv m1 x 7 = flinv m2 x 7 := fun x => flinv_congr m1 m2 h x 7 (by decide)
  have f8 : ∀ x, flinv m1 x 8 = flinv m2 x 8 := fun x => flinv_congr m1 m2 h x 8 (by decide)
  have f9 : ∀ x, flinv m1 x 9 = flinv m2 x 9 := fun x => flinv_congr m1 m2 h x 9 (by decide)
  have g0 : ∀ x, fo m1 x 0 = fo m2 x 0 := fun x => fo_congr m1 m2 h x 0 (by decide)
  have g1 : ∀ x, fo m1 x 1 = fo m2 x 1 := fun x => fo_congr m1 m2 h x 1 (by decide)
  have g2 : ∀ x, fo m1 x 2 = fo m2 x 2 := fun x => fo_congr m1 m2 h x 2 (by decide)
  have g3 : ∀ x, fo m1 x 3 = fo m2 x 3 := fun x => fo_congr m1 m2 h x 3 (by decide)
  have g4 : ∀ x, fo m1 x 4 = fo m2 x 4 := fun x => fo_congr m1 m2 h x 4 (by decide)
  have g5 : ∀ x, fo m1 x 5 = fo m2 x 5 := fun x => fo_congr m1 m2 h x 5 (by decide)
  have g6 : ∀ x, fo m1 x 6 = fo m2 x 6 := fun x => fo_congr m1 m2 h x 6 (by decide)
  have g7 : ∀ x, fo m1 x 7 = fo m2 x 7 := fun x => fo_congr m1 m2 h x 7 (by decide)
  unfold Decrypt
  dsimp only
  simp only [f0, f1, f2, f3, f4, f5, f6, f7, f8, f9, g0, g1, g2, g3, g4, g5, g6, g7]

/-- C18: the derived subkey groups are never read by the transforms.  For any
two subkey arrays that agree on the indices `0..15`, whatever they hold at
`16..31`, `fo` for every `k` in `0..7`, `fl` and `flinv` for every `k` in
`0..9`, and `Encrypt` and `Decrypt` on every source and destination, return
identical results. -/
theorem derived_groups_not_read (m1 m2 : misty1cipher)
    (h : ∀ i, i < 16 → m1.ek[i]? = m2.ek[i]?) :
    (∀ x k, k < 8 → fo m1 x k = fo m2 x k) ∧
    (∀ x k, k < 10 → fl m1 x k = fl m2 x k ∧ flinv m1 x k = flinv m2 x k) ∧
    (∀ dst src,
      Encrypt m1 dst src = Encrypt m2 dst src ∧ Decrypt m1 dst src = Decrypt m2 dst src) :=
  ⟨fun x k hk => fo_congr m1 m2 h x k hk,
    fun x k hk => ⟨fl_congr m1 m2 h x k hk, flinv_congr m1 m2 h x k hk⟩,
    fun dst src => ⟨Encrypt_congr m1 m2 h dst src, Decrypt_congr m1 m2 h dst src⟩⟩

/-- C18, at two arrays that agree on `0..15` and differ on all of `16..31`. -/
theorem derived_groups_not_read_witness :
    Encrypt ⟨[0x0011, 0x2233, 0x4455, 0x6677, 0x8899, 0xaabb, 0xccdd, 0xeeff,
        0xcf51, 0x8e7f, 0x5e29, 0x673a, 0xcdbc, 0x07d6, 0xbf35, 0x5e11,
        0x0151, 0x007f, 0x0029, 0x013a, 0x01bc, 0x01d6, 0x0135, 0x0011,
        0x0067, 0x0047, 0x002f, 0x0033, 0x0066, 0x0003, 0x005f, 0x002f]⟩
      [0, 0, 0, 0, 0, 0, 0, 0] [0x01, 0x23, 0x45, 0x67, 0x89, 0xab, 0xcd, 0xef]
    = Encrypt ⟨[0x0011, 0x2233, 0x4455, 0x6677, 0x8899, 0xaabb, 0xccdd, 0xeeff,
        0xcf51, 0x8e7f, 0x5e29, 0x673a, 0xcdbc, 0x07d6, 0xbf35, 0x5e11,
        0xfeae, 0xff80, 0xffd6, 0xfec5, 0xfe43, 0xfe29, 0xfeca, 0xffee,
        0xff98, 0xffb8, 0xffd0, 0xffcc, 0xff99, 0xfffc, 0xffa0, 0xffd0]⟩
      [0, 0, 0, 0, 0, 0, 0, 0] [0x01, 0x23, 0x45, 0x67, 0x89, 0xab, 0xcd, 0xef] :=
  ((derived_groups_not_read
    ⟨[0x0011, 0x2233, 0x4455, 0x6677, 0x8899, 0xaabb, 0xccdd, 0xeeff,
      0xcf51, 0x8e7f, 0x5e29, 0x673a, 0xcdbc, 0x07d6, 0xbf35, 0x5e11,
      0x0151, 0x007f, 0x0029, 0x013a, 0x01bc, 0x01d6, 0x0135, 0x0011,
      0x0067, 0x0047, 0x002f, 0x0033, 0x0066, 0x0003, 0x005f, 0x002f]⟩
    ⟨[0x0011, 0x2233, 0x4455, 0x6677, 0x8899, 0xaabb, 0xccdd, 0xeeff,
      0xcf51, 0x8e7f, 0x5e29, 0x673a, 0xcdbc, 0x07d6, 0xbf35, 0x5e11,
      0xfeae, 0xff80, 0xffd6, 0xfec5, 0xfe43, 0xfe29, 0xfeca, 0xffee,
      0xff98, 0xffb8, 0xffd0, 0xffcc, 0xff99, 0xfffc, 0xffa0, 0xffd0]⟩
    (by decide)).2.2 [0, 0, 0, 0, 0, 0, 0, 0]
      [0x01, 0x23, 0x45, 0x67, 0x89, 0xab, 0xcd, 0xef]).1

/-! ## The tables are permutations -/

theorem perm_range_of_nodup {l : List Nat} {n : Nat} (hn : l.Nodup) (hlen : l.length = n)
    (hlt : ∀ x ∈ l, x < n) : l.Perm (List.range n) := by
  have hsub : l ⊆ List.range n := fun x hx => List.mem_range.mpr (hlt x hx)
  exact (List.subperm_of_subset hn hsub).perm_of_length_le (by simp [hlen])

theorem count_of_perm_range {l : List Nat} {n : Nat} (h : l.Perm (List.range n)) (v : Nat) :
    l.count v = if v < n then 1 else 0 := by
  rw [h.count_eq]
  split
  · exact List.count_eq_one_of_mem (List.nodup_range n) (List.mem_range.mpr ‹_›)
  · exact List.count_eq_zero_of_not_mem (fun hm => ‹¬ v < n› (List.mem_range.mp hm))

/-- C19: both substitution tables are permutations.  `s7table` is a
rearrangement of `0, 1, .., 127` and `s9table` of `0, 1, .., 511`: every value
below 128 (resp. 512) occurs exactly once and no other value occurs, so every
entry of `s7table` fits in 7 bits. -/
theorem tables_are_permutations :
    s7table.Perm (List.range 128) ∧ s9table.Perm (List.range 512) ∧
    (∀ v, s7table.count v = if v < 128 then 1 else 0) ∧
    (∀ v, s9table.count v = if v < 512 then 1 else 0) ∧
    (∀ x ∈ s7table, x < 2 ^ 7) :=
  ⟨perm_range_of_nodup s7table_nodup s7table_length s7table_lt,
    perm_range_of_nodup s9table_nodup s9table_length s9table_lt,
    count_of_perm_range (perm_range_of_nodup s7table_nodup s7table_length s7table_lt),
    count_of_perm_range (perm_range_of_nodup s9table_nodup s9table_length s9table_lt),
    s7table_lt⟩

/-! ## The round function is a bijection -/

/-- The three results of `fi` inside `fo`, and the value that `fo` builds
from them. -/
theorem fo_struct (m : misty1cipher) (hlen : m.ek.length = 32)
    (hek : ∀ x ∈ m.ek, x < 65536) (x k : Nat) (hk : k < 8) :
    ∃ v1 v2 v3,
      fi ((x >>> 16) % 65536 ^^^ m.ek.getD k 0) (m.ek.getD ((k + 5) % 8 + 8) 0) = .ok v1 ∧
      fi ((x &&& 0xffff) % 65536 ^^^ m.ek.getD ((k + 2) % 8) 0)
        (m.ek.getD ((k + 1) % 8 + 8) 0) = .ok v2 ∧
      fi (v1 ^^^ (x &&& 0xffff) % 65536 ^^^ m.ek.getD ((k + 7) % 8) 0)
        (m.ek.getD ((k + 3) % 8 + 8) 0) = .ok v3 ∧
      v1 < 65536 ∧ v2 < 65536 ∧ v3 < 65536 ∧
      fo m x k = .ok
        (((((v2 ^^^ (v1 ^^^ (x &&& 0xffff) % 65536)) ^^^ m.ek.getD ((k + 4) % 8) 0) <<< 16)
          % 4294967296) ||| (v3 ^^^ (v2 ^^^ (v1 ^^^ (x &&& 0xffff) % 65536)))) := by
  have i0 : k < m.ek.length := by omega
  have i1 : (k + 5) % 8 + 8 < m.ek.length := by omega
  have i2 : (k + 2) % 8 < m.ek.length := by omega
  have i3 : (k + 1) % 8 + 8 < m.ek.length := by omega
  have i4 : (k + 7) % 8 < m.ek.length := by omega
  have i5 : (k + 3) % 8 + 8 < m.ek.length := by omega
  have i6 : (k + 4) % 8 < m.ek.length := by omega
  have b0 : (x >>> 16) % 65536 ^^^ m.ek.getD k 0 < 65536 :=
    xor_lt16 (hi16_lt x) (ek_lt hek i0)
  obtain ⟨v1, h1⟩ := fi_total (m.ek.getD ((k + 5) % 8 + 8) 0) b0
  have l1 := fi_lt b0 (ek_lt hek i1) h1
  have b1 : (x &&& 0xffff) % 65536 ^^^ m.ek.getD ((k + 2) % 8) 0 < 65536 :=
    xor_lt16 (lo16_lt x) (ek_lt hek i2)
  obtain ⟨v2, h2⟩ := fi_total (m.ek.getD ((k + 1) % 8 + 8) 0) b1
  have l2 := fi_lt b1 (ek_lt hek i3) h2
  have c0 : v1 ^^^ (x &&& 0xffff) % 65536 < 65536 := xor_lt16 l1 (lo16_lt x)
  have b2 : v1 ^^^ (x &&& 0xffff) % 65536 ^^^ m.ek.getD ((k + 7) % 8) 0 < 65536 :=
    xor_lt16 c0 (ek_lt hek i4)
  obtain ⟨v3, h3⟩ := fi_total (m.ek.getD ((k + 3) % 8 + 8) 0) b2
  have l3 := fi_lt b2 (ek_lt hek i5) h3
  refine ⟨v1, v2, v3, h1, h2, h3, l1, l2, l3, ?_⟩
  simp only [fo, load_ok i0, load_ok i1, load_ok i2, load_ok i3, load_ok i4, load_ok i5,
    load_ok i6, ok_bind, pure_eq_ok, h1, h2, h3]

theorem pack16_inj {a b c d : Nat} (ha : a < 65536) (hb : b < 65536) (hc : c < 65536)
    (hd : d < 65536)
    (e : ((a <<< 16) % 4294967296) ||| b = ((c <<< 16) % 4294967296) ||| d) :
    a = c ∧ b = d := by
  rw [pack16_eq ha hb, pack16_eq hc hd] at e
  omega

theorem fo_injective (m : misty1cipher) (hlen : m.ek.length = 32)
    (hek : ∀ x ∈ m.ek, x < 65536) (k : Nat) (hk : k < 8) {x y : Nat}
    (hx : x < 4294967296) (hy : y < 4294967296) (e : fo m x k = fo m y k) : x = y := by
  have i0 : k < m.ek.length := by omega
  have i1 : (k + 5) % 8 + 8 < m.ek.length := by omega
  have i2 : (k + 2) % 8 < m.ek.length := by omega
  have i3 : (k + 1) % 8 + 8 < m.ek.length := by omega
  have i4 : (k + 7) % 8 < m.ek.length := by omega
  have i5 : (k + 3) % 8 + 8 < m.ek.length := by omega
  have i6 : (k + 4) % 8 < m.ek.length := by omega
  obtain ⟨v1, v2, v3, h1, h2, h3, l1, l2, l3, hfx⟩ := fo_struct m hlen hek x k hk
  obtain ⟨w1, w2, w3, g1, g2, g3, n1, n2, n3, hfy⟩ := fo_struct m hlen hek y k hk
  rw [hfx, hfy] at e
  have e := Except.ok.inj e
  have sx := split16 hx
  have sy := split16 hy
  have tx0 := hi16_lt x
  have tx1 := lo16_lt x
  have ty0 := hi16_lt y
  have ty1 := lo16_lt y
  generalize (x >>> 16) % 65536 = p0 at *
  generalize (x &&& 0xffff) % 65536 = p1 at *
  generalize (y >>> 16) % 65536 = q0 at *
  generalize (y &&& 0xffff) % 65536 = q1 at *
  have ax := xor_lt16 l1 tx1
  have ay := xor_lt16 n1 ty1
  have bx := xor_lt16 l2 ax
  have by' := xor_lt16 n2 ay
  obtain ⟨ed, ec⟩ := pack16_inj (xor_lt16 bx (ek_lt hek i6)) (xor_lt16 l3 bx)
    (xor_lt16 by' (ek_lt hek i6)) (xor_lt16 n3 by') e
  -- the second half gives `b`, then the first half gives `v3`
  have eb : v2 ^^^ (v1 ^^^ p1) = w2 ^^^ (w1 ^^^ q1) := Nat.xor_left_inj.mp ed
  rw [eb] at ec
  have e3 : v3 = w3 := Nat.xor_left_inj.mp ec
  -- undo the third `fi`
  have ea' : v1 ^^^ p1 ^^^ m.ek.getD ((k + 7) % 8) 0 = w1 ^^^ q1 ^^^ m.ek.getD ((k + 7) % 8) 0 :=
    fi_injective (xor_lt16 ax (ek_lt hek i4)) (xor_lt16 ay (ek_lt hek i4)) (ek_lt hek i5)
      (by rw [h3, g3, e3])
  have ea : v1 ^^^ p1 = w1 ^^^ q1 := Nat.xor_left_inj.mp ea'
  -- undo the second `fi`
  rw [ea] at eb
  have e2 : v2 = w2 := Nat.xor_left_inj.mp eb
  have e1' : p1 ^^^ m.ek.getD ((k + 2) % 8) 0 = q1 ^^^ m.ek.getD ((k + 2) % 8) 0 :=
    fi_injective (xor_lt16 tx1 (ek_lt hek i2)) (xor_lt16 ty1 (ek_lt hek i2)) (ek_lt hek i3)
      (by rw [h2, g2, e2])
  have ep1 : p1 = q1 := Nat.xor_left_inj.mp e1'
  -- undo the first `fi`
  rw [ep1] at ea
  have e1 : v1 = w1 := Nat.xor_left_inj.mp ea
  have e0' : p0 ^^^ m.ek.getD k 0 = q0 ^^^ m.ek.getD k 0 :=
    fi_injective (xor_lt16 tx0 (ek_lt hek i0)) (xor_lt16 ty0 (ek_lt hek i0)) (ek_lt hek i1)
      (by rw [h1, g1, e1])
  have ep0 : p0 = q0 := Nat.xor_left_inj.mp e0'
  rw [← sx, ← sy, ep0, ep1]

/-- C20: the round function is a bijection.  For every array of 32 subkeys of
16 bits and every `k` in `0..7`, the map `x ↦ fo(x, k)` sends 32-bit values to
32-bit values without a run-time error, is injective on them, and reaches
every 32-bit value. -/
theorem fo_bijective (m : misty1cipher) (hlen : m.ek.length = 32)
    (hek : ∀ x ∈ m.ek, x < 65536) (k : Nat) (hk : k ≤ 7) :
    (∀ x, x < 4294967296 → ∃ y, y < 4294967296 ∧ fo m x k = .ok y) ∧
    (∀ a b, a < 4294967296 → b < 4294967296 → fo m a k = fo m b k → a = b) ∧
    (∀ y, y < 4294967296 → ∃ x, x < 4294967296 ∧ fo m x k = .ok y) := by
  have hk8 : k < 8 := by omega
  have tot : ∀ x, x < 4294967296 → ∃ y, y < 4294967296 ∧ fo m x k = .ok y := by
    intro x _
    obtain ⟨y, hy, ly⟩ := fo_total m hlen hek x k hk8
    exact ⟨y, ly, hy⟩
  refine ⟨tot, fun a b ha hb e => fo_injective m hlen hek k hk8 ha hb e, ?_⟩
  let g : Fin 4294967296 → Fin 4294967296 := fun x =>
    ⟨Classical.choose (tot x.1 x.2), (Classical.choose_spec (tot x.1 x.2)).1⟩
  have hg : ∀ x : Fin 4294967296, fo m x.1 k = .ok (g x).1 := fun x =>
    (Classical.choose_spec (tot x.1 x.2)).2
  have inj : Function.Injective g := by
    intro x y e
    apply Fin.ext
    apply fo_injective m hlen hek k hk8 x.2 y.2
    rw [hg x, hg y, e]
  have surj : Function.Surjective g := Finite.injective_iff_surjective.mp inj
  intro y hy
  obtain ⟨x, hx⟩ := surj ⟨y, hy⟩
  refine ⟨x.1, x.2, ?_⟩
  rw [hg x, hx]

/-- C20, at an array of 32 subkeys, `k = 3` and the value `0x01234567`. -/
theorem fo_bijective_witness :
    (∃ y, y < 4294967296 ∧
      fo ⟨[0x0011, 0x2233, 0x4455, 0x6677, 0x8899, 0xaabb, 0xccdd, 0xeeff,
          0xcf51, 0x8e7f, 0x5e29, 0x673a, 0xcdbc, 0x07d6, 0xbf35, 0x5e11,
          0x0151, 0x007f, 0x0029, 0x013a, 0x01bc, 0x01d6, 0x0135, 0x0011,
          0x0067, 0x0047, 0x002f, 0x0033, 0x0066, 0x0003, 0x005f, 0x002f]⟩
        0x01234567 3 = .ok y) ∧
    (∃ x, x < 4294967296 ∧
      fo ⟨[0x0011, 0x2233, 0x4455, 0x6677, 0x8899, 0xaabb, 0xccdd, 0xeeff,
          0xcf51, 0x8e7f, 0x5e29, 0x673a, 0xcdbc, 0x07d6, 0xbf35, 0x5e11,
          0x0151, 0x007f, 0x0029, 0x013a, 0x01bc, 0x01d6, 0x0135, 0x0011,
          0x0067, 0x0047, 0x002f, 0x0033, 0x0066, 0x0003, 0x005f, 0x002f]⟩
        x 3 = .ok 0x01234567) :=
  have h := fo_bijective
    ⟨[0x0011, 0x2233, 0x4455, 0x6677, 0x8899, 0xaabb, 0xccdd, 0xeeff,
      0xcf51, 0x8e7f, 0x5e29, 0x673a, 0xcdbc, 0x07d6, 0xbf35, 0x5e11,
      0x0151, 0x007f, 0x0029, 0x013a, 0x01bc, 0x01d6, 0x0135, 0x0011,
      0x0067, 0x0047, 0x002f, 0x0033, 0x0066, 0x0003, 0x005f, 0x002f]⟩
    (by decide) (by decide) 3 (by decide)
  ⟨h.1 0x01234567 (by decide), h.2.2 0x01234567 (by decide)⟩

end Misty1
